import Mathlib

/-!
# Browser LLM agent (`agent.js`): tool dispatch, conversation log, sandbox channel

A shallow embedding of the orchestration core of `agent.js`:

* JavaScript values as the inductive type `JsVal`, strings as sequences of
  UTF-16 code units, exceptions as `Except JsError _`;
* the runtime operations the program relies on (`||`, `??`, property reads,
  `ToString`, `parseInt`, `JSON.stringify`, `JSON.parse`, `slice`, the regular
  expression replacements written in the source);
* the three tool executors, the router `handleToolCall`, the loop `agentStep`,
  `onSend`, and the `sandboxPending` message channel.

Network collaborators (`fetch`), the clock, the random source and the language
model are explicit parameters.  DOM output (`appendMessage`, `showAlert`) has no
effect on the modelled state and is left out, except that the card-rendering
code of `agentStep` is kept as far as it can throw.
-/

namespace Agent

/-! ## Strings -/

/-- A JavaScript string: a finite sequence of UTF-16 code units. -/
abbrev JsStr := List Nat

/-- UTF-16 encoding of one Unicode scalar value. -/
def utf16 (c : Char) : List Nat :=
  if c.toNat < 65536 then [c.toNat]
  else [55296 + (c.toNat - 65536) / 1024, 56320 + (c.toNat - 65536) % 1024]

/-- The JavaScript string denoted by a source literal. -/
def lit (s : String) : JsStr := s.toList.flatMap utf16

/-- Decimal digits of a natural number, most significant first, with fuel. -/
def digitsAux : Nat → Nat → List Nat → List Nat
  | 0, _, acc => acc
  | fuel + 1, n, acc =>
    if n < 10 then n :: acc else digitsAux fuel (n / 10) (n % 10 :: acc)

/-- Decimal digits of `n`, most significant first (`0` gives `[0]`). -/
def natDigits (n : Nat) : List Nat := digitsAux (n + 1) n []

/-- Code unit of the decimal digit `d`. -/
def digitUnit (d : Nat) : Nat := 48 + d

/-- Decimal text of a natural number. -/
def natText (n : Nat) : JsStr := (natDigits n).map digitUnit

/-- `StrWhiteSpaceChar`: white space and line terminators of ECMAScript. -/
def isWhiteSpace (u : Nat) : Bool :=
  u == 9 || u == 10 || u == 11 || u == 12 || u == 13 || u == 32 || u == 160 ||
  u == 5760 || (8192 ≤ u && u ≤ 8202) || u == 8232 || u == 8233 || u == 8239 ||
  u == 8287 || u == 12288 || u == 65279

/-- Whether a code unit is an ASCII decimal digit. -/
def isDigitUnit (u : Nat) : Bool := 48 ≤ u && u ≤ 57

/-- `String.prototype.trim`. -/
def trim (s : JsStr) : JsStr :=
  ((s.dropWhile isWhiteSpace).reverse.dropWhile isWhiteSpace).reverse

/-! ## Numbers -/

/-- A JavaScript number.  A finite number is carried by the decimal data on
which `Number::toString` is defined: a sign, the significant digits
`d₁ … d_k` (no leading and no trailing zero; the empty list is zero) and the
exponent `n`, denoting `0.d₁…d_k × 10ⁿ`.  Binary rounding is not modelled. -/
inductive JsNum where
  | fin (neg : Bool) (digits : List Nat) (exp : Int)
  | nan
  | inf (neg : Bool)
deriving DecidableEq, Repr

/-- Remove trailing zero digits. -/
def stripTrailingZeros (ds : List Nat) : List Nat :=
  (ds.reverse.dropWhile (· == 0)).reverse

/-- The number with the value of the integer `i`. -/
def JsNum.ofInt (i : Int) : JsNum :=
  if i = 0 then .fin false [] 0
  else .fin (decide (i < 0)) (stripTrailingZeros (natDigits i.natAbs))
    (natDigits i.natAbs).length

/-- Whether a number is `+0`, `-0` or `NaN` (the falsy numbers). -/
def JsNum.falsy : JsNum → Bool
  | .fin _ ds _ => ds.all (· == 0)
  | .nan => true
  | .inf _ => false

/-- `Number::toString` (radix 10) on the decimal data of a number. -/
def numToString : JsNum → JsStr
  | .nan => lit "NaN"
  | .inf neg => (if neg then [45] else []) ++ lit "Infinity"
  | .fin neg ds n =>
    if ds.all (· == 0) then [48]
    else
      let k : Int := ds.length
      let sign : JsStr := if neg then [45] else []
      let body : JsStr :=
        if k ≤ n ∧ n ≤ 21 then
          ds.map digitUnit ++ List.replicate (n - k).toNat 48
        else if 0 < n ∧ n ≤ 21 then
          (ds.take n.toNat).map digitUnit ++ [46] ++ (ds.drop n.toNat).map digitUnit
        else if -6 < n ∧ n ≤ 0 then
          [48, 46] ++ List.replicate (-n).toNat 48 ++ ds.map digitUnit
        else
          let e := n - 1
          let mant : JsStr :=
            match ds with
            | [] => []
            | [d] => [digitUnit d]
            | d :: rest => digitUnit d :: 46 :: rest.map digitUnit
          mant ++ [101] ++ (if e < 0 then [45] else [43]) ++ natText e.natAbs
      sign ++ body

/-! ## Values and exceptions -/

/-- JavaScript values that reach this program: JSON data, `undefined`, and an
inherited built-in method (`fn`), which is what reading `link` or `search` from
a string yields. -/
inductive JsVal where
  | undefined
  | null
  | bool (b : Bool)
  | num (n : JsNum)
  | str (s : JsStr)
  | arr (xs : List JsVal)
  | obj (kvs : List (JsStr × JsVal))
  | fn

/-- A thrown `Error` object: its `name` and its `message`. -/
structure JsError where
  name : JsStr
  message : JsStr
deriving DecidableEq, Repr

/-- A `TypeError` raised by the runtime; the message text is the engine's. -/
def typeError (msg : String) : JsError := ⟨lit "TypeError", lit msg⟩

/-- `Error.prototype.toString`. -/
def JsError.text (e : JsError) : JsStr :=
  if e.name = [] then e.message
  else if e.message = [] then e.name
  else e.name ++ lit ": " ++ e.message

/-- `ToBoolean`. -/
def truthy : JsVal → Bool
  | .undefined => false
  | .null => false
  | .bool b => b
  | .num n => !n.falsy
  | .str s => !s.isEmpty
  | .arr _ => true
  | .obj _ => true
  | .fn => true

/-- The operator `a || b`. -/
def jsOr (a b : JsVal) : JsVal := if truthy a then a else b

/-- Whether a value is `undefined` or `null`. -/
def nullish : JsVal → Bool
  | .undefined => true
  | .null => true
  | _ => false

/-- The operator `a ?? b`. -/
def coalesce (a b : JsVal) : JsVal := if nullish a then b else a

/-- Own-property lookup in the field list of an object. -/
def lookupField (k : JsStr) : List (JsStr × JsVal) → JsVal
  | [] => .undefined
  | (k', v) :: rest => if k' = k then v else lookupField k rest

/-- The optional read `v?.k`.  Of the inherited names this program reads from
data, only `link` and `search` exist, on strings. -/
def getOpt (v : JsVal) (k : String) : JsVal :=
  match v with
  | .obj kvs => lookupField (lit k) kvs
  | .str _ => if k = "link" ∨ k = "search" then .fn else .undefined
  | _ => .undefined

/-- The read `v.k`, which throws on `undefined` and `null`. -/
def getProp (v : JsVal) (k : String) : Except JsError JsVal :=
  if nullish v then
    .error (typeError ("Cannot read properties of undefined (reading " ++ k ++ ")"))
  else .ok (getOpt v k)

mutual
/-- The abstract operation `ToString`, which is also what `x.toString()`
computes on a value that is neither `undefined` nor `null`.  An object whose own
`toString` field shadows the inherited method cannot be converted. -/
def toStr : JsVal → Except JsError JsStr
  | .undefined => .ok (lit "undefined")
  | .null => .ok (lit "null")
  | .bool b => .ok (if b then lit "true" else lit "false")
  | .num n => .ok (numToString n)
  | .str s => .ok s
  | .arr xs => joinStr xs
  | .obj kvs =>
    if kvs.any (fun kv => kv.1 == lit "toString") then
      .error (typeError "Cannot convert object to primitive value")
    else .ok (lit "[object Object]")
  | .fn => .ok (lit "function () \x7b [native code] \x7d")
/-- `Array.prototype.join` with the default separator. -/
def joinStr : List JsVal → Except JsError JsStr
  | [] => .ok []
  | [x] => elemStr x
  | x :: rest =>
    match elemStr x with
    | .error e => .error e
    | .ok a =>
      match joinStr rest with
      | .error e => .error e
      | .ok b => .ok (a ++ [44] ++ b)
/-- The text of one array element in `join`: empty for `undefined`, `null`. -/
def elemStr : JsVal → Except JsError JsStr
  | .undefined => .ok []
  | .null => .ok []
  | .bool b => .ok (if b then lit "true" else lit "false")
  | .num n => .ok (numToString n)
  | .str s => .ok s
  | .arr xs => joinStr xs
  | .obj kvs =>
    if kvs.any (fun kv => kv.1 == lit "toString") then
      .error (typeError "Cannot convert object to primitive value")
    else .ok (lit "[object Object]")
  | .fn => .ok (lit "function () \x7b [native code] \x7d")
end

/-- Value of a sequence of decimal digit code units, most significant first. -/
def digitsValue (us : List Nat) : Nat := us.foldl (fun acc u => 10 * acc + (u - 48)) 0

/-- `parseInt(s, 10)` on a string: `none` is `NaN`.  The result is the exact
integer; rounding to a double is not modelled. -/
def parseIntStr (s : JsStr) : Option Int :=
  let t := s.dropWhile isWhiteSpace
  let body := if t.head? = some 45 ∨ t.head? = some 43 then t.tail else t
  let ds := body.takeWhile isDigitUnit
  if ds.isEmpty then none
  else some (if t.head? = some 45 then -(digitsValue ds : Int) else (digitsValue ds : Int))

/-- `parseInt(v, 10)`: the argument is converted with `ToString` first. -/
def parseInt (v : JsVal) : Except JsError (Option Int) :=
  match toStr v with
  | .error e => .error e
  | .ok s => .ok (parseIntStr s)

/-- `Math.max(1, x)` where `none` is `NaN`. -/
def mathMax1 : Option Int → Option Int
  | none => none
  | some x => some (max 1 x)

/-- `Math.min(10, x)` where `none` is `NaN`. -/
def mathMin10 : Option Int → Option Int
  | none => none
  | some x => some (min 10 x)

/-! ## `JSON.stringify` -/

/-- Lower-case hexadecimal digit. -/
def hexDigit (n : Nat) : Nat := if n < 10 then 48 + n else 87 + n

/-- The escape `\uXXXX` of a code unit. -/
def unicodeEscape (u : Nat) : JsStr :=
  [92, 117, hexDigit (u / 4096 % 16), hexDigit (u / 256 % 16), hexDigit (u / 16 % 16),
    hexDigit (u % 16)]

/-- Whether a code unit is a leading (high) surrogate. -/
def isHigh (u : Nat) : Bool := 55296 ≤ u && u ≤ 56319

/-- Whether a code unit is a trailing (low) surrogate. -/
def isLow (u : Nat) : Bool := 56320 ≤ u && u ≤ 57343

/-- `QuoteJSONString` on one code unit that is not part of a surrogate pair. -/
def quoteUnit (u : Nat) : JsStr :=
  if u = 8 then [92, 98]
  else if u = 9 then [92, 116]
  else if u = 10 then [92, 110]
  else if u = 12 then [92, 102]
  else if u = 13 then [92, 114]
  else if u = 34 then [92, 34]
  else if u = 92 then [92, 92]
  else if u < 32 ∨ isHigh u ∨ isLow u then unicodeEscape u
  else [u]

/-- The text between the quotes of `QuoteJSONString`. -/
def quoteBody : JsStr → JsStr
  | [] => []
  | [u] => quoteUnit u
  | u :: v :: rest =>
    if isHigh u && isLow v then u :: v :: quoteBody rest
    else quoteUnit u ++ quoteBody (v :: rest)

/-- `QuoteJSONString`. -/
def quote (s : JsStr) : JsStr := [34] ++ quoteBody s ++ [34]

/-- Join the parts with commas. -/
def commaJoin : List JsStr → JsStr
  | [] => []
  | [a] => a
  | a :: rest => a ++ [44] ++ commaJoin rest

mutual
/-- `SerializeJSONProperty`: `none` is the result `undefined`. -/
def jsonProp : JsVal → Option JsStr
  | .undefined => none
  | .fn => none
  | .null => some (lit "null")
  | .bool b => some (if b then lit "true" else lit "false")
  | .num (.fin neg ds n) => some (numToString (.fin neg ds n))
  | .num _ => some (lit "null")
  | .str s => some (quote s)
  | .arr xs => some ([91] ++ commaJoin (jsonElems xs) ++ [93])
  | .obj kvs => some ([123] ++ commaJoin (jsonFields kvs) ++ [125])
/-- The element texts of `SerializeJSONArray`: `undefined` becomes `null`. -/
def jsonElems : List JsVal → List JsStr
  | [] => []
  | x :: rest =>
    (match jsonProp x with
      | none => lit "null"
      | some t => t) :: jsonElems rest
/-- The member texts of `SerializeJSONObject`: `undefined` members are left out. -/
def jsonFields : List (JsStr × JsVal) → List JsStr
  | [] => []
  | (k, v) :: rest =>
    match jsonProp v with
    | none => jsonFields rest
    | some t => (quote k ++ [58] ++ t) :: jsonFields rest
end

/-- `JSON.stringify(o)` for an object with the given fields. -/
def stringifyObj (kvs : List (JsStr × JsVal)) : JsStr :=
  [123] ++ commaJoin (jsonFields kvs) ++ [125]

/-! ## `JSON.parse` -/

/-- JSON white space. -/
def isJsonWs (u : Nat) : Bool := u == 32 || u == 9 || u == 10 || u == 13

/-- Skip JSON white space. -/
def skipWs (s : JsStr) : JsStr := s.dropWhile isJsonWs

/-- Value of a hexadecimal digit code unit. -/
def hexValue (u : Nat) : Option Nat :=
  if 48 ≤ u ∧ u ≤ 57 then some (u - 48)
  else if 97 ≤ u ∧ u ≤ 102 then some (u - 87)
  else if 65 ≤ u ∧ u ≤ 70 then some (u - 55)
  else none

/-- The four hexadecimal digits of a `\u` escape. -/
def hex4 (a b c d : Nat) : Option Nat :=
  match hexValue a, hexValue b, hexValue c, hexValue d with
  | some x, some y, some z, some w => some (4096 * x + 256 * y + 16 * z + w)
  | _, _, _, _ => none

/-- The character denoted by a single-character escape. -/
def simpleEscape (e : Nat) : Option Nat :=
  if e = 34 then some 34
  else if e = 92 then some 92
  else if e = 47 then some 47
  else if e = 98 then some 8
  else if e = 102 then some 12
  else if e = 110 then some 10
  else if e = 114 then some 13
  else if e = 116 then some 9
  else none

/-- Parse a JSON string after its opening quote, up to the closing quote. -/
def parseStrBody : JsStr → Option (JsStr × JsStr)
  | [] => none
  | u :: rest =>
    if u = 34 then some ([], rest)
    else if u = 92 then
      match rest with
      | [] => none
      | e :: rest1 =>
        if e = 117 then
          match rest1 with
          | a :: b :: c :: d :: rest2 =>
            match hex4 a b c d with
            | none => none
            | some x =>
              match parseStrBody rest2 with
              | none => none
              | some (s, r) => some (x :: s, r)
          | _ => none
        else
          match simpleEscape e with
          | none => none
          | some x =>
            match parseStrBody rest1 with
            | none => none
            | some (s, r) => some (x :: s, r)
    else if u < 32 then none
    else
      match parseStrBody rest with
      | none => none
      | some (s, r) => some (u :: s, r)

/-- The number with the given sign, digit sequence and exponent, brought to
the unique form without leading and trailing zero digits. -/
def normalize (neg : Bool) (ds : List Nat) (n : Int) : JsNum :=
  let lead := (ds.takeWhile (· == 0)).length
  let body := stripTrailingZeros (ds.dropWhile (· == 0))
  if body.isEmpty then .fin neg [] 0 else .fin neg body (n - lead)

/-- The exponent part of a JSON number: `e` or `E`, a sign, digits. -/
def parseExponent (s : JsStr) : Option (Int × JsStr) :=
  match s with
  | [] => some (0, [])
  | c :: r =>
    if c = 101 ∨ c = 69 then
      let (neg, r1) : Bool × JsStr :=
        match r with
        | [] => (false, [])
        | d :: r0 => if d = 45 then (true, r0) else if d = 43 then (false, r0) else (false, d :: r0)
      let ds := r1.takeWhile isDigitUnit
      if ds.isEmpty then none
      else some (if neg then -(digitsValue ds : Int) else (digitsValue ds : Int),
        r1.dropWhile isDigitUnit)
    else some (0, c :: r)

/-- The fraction part of a JSON number: a point and at least one digit. -/
def parseFraction (s : JsStr) : Option (List Nat × JsStr) :=
  match s with
  | [] => some ([], [])
  | c :: r =>
    if c = 46 then
      let ds := r.takeWhile isDigitUnit
      if ds.isEmpty then none else some (ds.map (· - 48), r.dropWhile isDigitUnit)
    else some ([], c :: r)

/-- Parse a JSON number. -/
def parseNumber (s : JsStr) : Option (JsNum × JsStr) :=
  let (neg, r0) : Bool × JsStr :=
    match s with
    | [] => (false, [])
    | c :: r => if c = 45 then (true, r) else (false, c :: r)
  let ints := (r0.takeWhile isDigitUnit).map (· - 48)
  if ints.isEmpty then none
  else if 1 < ints.length ∧ ints.head? = some 0 then none
  else
    match parseFraction (r0.dropWhile isDigitUnit) with
    | none => none
    | some (fracs, r1) =>
      match parseExponent r1 with
      | none => none
      | some (e, r2) => some (normalize neg (ints ++ fracs) (ints.length + e), r2)

/-- The array index denoted by a property key (a canonical numeric string
below `2³² - 1`), if it is one. -/
def arrayIndex (k : JsStr) : Option Nat :=
  if k.isEmpty ∨ ¬ k.all isDigitUnit = true then none
  else if 1 < k.length ∧ k.head? = some 48 then none
  else if digitsValue k < 4294967295 then some (digitsValue k) else none

/-- Whether key `k` is enumerated before key `k2` when neither was there
first: array indices come first, in ascending order. -/
def keyBefore (k k2 : JsStr) : Bool :=
  match arrayIndex k, arrayIndex k2 with
  | some i, some j => decide (i < j)
  | some _, none => true
  | none, _ => false

/-- Place a new key in enumeration order. -/
def placeField (k : JsStr) (v : JsVal) : List (JsStr × JsVal) → List (JsStr × JsVal)
  | [] => [(k, v)]
  | (k2, v2) :: rest =>
    if keyBefore k k2 then (k, v) :: (k2, v2) :: rest else (k2, v2) :: placeField k v rest

/-- Overwrite the value of an existing key. -/
def replaceField (k : JsStr) (v : JsVal) : List (JsStr × JsVal) → List (JsStr × JsVal)
  | [] => []
  | (k2, v2) :: rest =>
    if k2 = k then (k, v) :: rest else (k2, v2) :: replaceField k v rest

/-- `CreateDataProperty` on a field list. -/
def setField (k : JsStr) (v : JsVal) (kvs : List (JsStr × JsVal)) : List (JsStr × JsVal) :=
  if kvs.any (fun kv => kv.1 == k) then replaceField k v kvs else placeField k v kvs

mutual
/-- Parse one JSON value; the fuel bounds the nesting of calls. -/
def parseValue : Nat → JsStr → Option (JsVal × JsStr)
  | 0, _ => none
  | fuel + 1, s =>
    match skipWs s with
    | [] => none
    | c :: rest =>
      if c = 34 then
        match parseStrBody rest with
        | none => none
        | some (t, r) => some (.str t, r)
      else if c = 91 then
        match skipWs rest with
        | [] => none
        | d :: r => if d = 93 then some (.arr [], r) else parseElems fuel (d :: r)
      else if c = 123 then
        match skipWs rest with
        | [] => none
        | d :: r => if d = 125 then some (.obj [], r) else parseMembers fuel [] (d :: r)
      else if c = 110 then
        match rest with
        | 117 :: 108 :: 108 :: r => some (.null, r)
        | _ => none
      else if c = 116 then
        match rest with
        | 114 :: 117 :: 101 :: r => some (.bool true, r)
        | _ => none
      else if c = 102 then
        match rest with
        | 97 :: 108 :: 115 :: 101 :: r => some (.bool false, r)
        | _ => none
      else
        match parseNumber (c :: rest) with
        | none => none
        | some (n, r) => some (.num n, r)
/-- Parse the elements of a non-empty array up to the closing bracket. -/
def parseElems : Nat → JsStr → Option (JsVal × JsStr)
  | 0, _ => none
  | fuel + 1, s =>
    match parseValue fuel s with
    | none => none
    | some (v, r) =>
      match skipWs r with
      | [] => none
      | c :: r1 =>
        if c = 93 then some (.arr [v], r1)
        else if c = 44 then
          match parseElems fuel r1 with
          | some (.arr vs, r2) => some (.arr (v :: vs), r2)
          | _ => none
        else none
/-- Parse the members of a non-empty object up to the closing brace. -/
def parseMembers : Nat → List (JsStr × JsVal) → JsStr → Option (JsVal × JsStr)
  | 0, _, _ => none
  | fuel + 1, acc, s =>
    match skipWs s with
    | [] => none
    | q :: r0 =>
      if q = 34 then
        match parseStrBody r0 with
        | none => none
        | some (k, r1) =>
          match skipWs r1 with
          | [] => none
          | c :: r2 =>
            if c = 58 then
              match parseValue fuel r2 with
              | none => none
              | some (v, r3) =>
                match skipWs r3 with
                | [] => none
                | d :: r4 =>
                  if d = 125 then some (.obj (setField k v acc), r4)
                  else if d = 44 then parseMembers fuel (setField k v acc) r4
                  else none
            else none
      else none
end

/-- `JSON.parse`: `none` stands for the thrown `SyntaxError`. -/
def jsonParse (s : JsStr) : Option JsVal :=
  match parseValue (2 * s.length + 2) s with
  | none => none
  | some (v, r) => if (skipWs r).isEmpty then some v else none

/-- The `SyntaxError` thrown by `JSON.parse`; the message text is the engine's. -/
def syntaxError : JsError := ⟨lit "SyntaxError", lit "Unexpected token in JSON"⟩

/-! ## String helpers written in the source -/

/-- If `s` starts with `p`, the rest of `s` after it. -/
def afterLead : JsStr → JsStr → Option JsStr
  | [], s => some s
  | _ :: _, [] => none
  | a :: p, b :: s => if a = b then afterLead p s else none

/-- `s.replace(/\s/g, '_')`. -/
def replaceSpaces (s : JsStr) : JsStr := s.map (fun u => if isWhiteSpace u then 95 else u)

/-- `s.replace(/&quot;/g, '"')`, with fuel for the scan. -/
def replaceQuotAux : Nat → JsStr → JsStr
  | 0, s => s
  | _, [] => []
  | fuel + 1, u :: rest =>
    match afterLead (lit "&quot;") (u :: rest) with
    | some after => 34 :: replaceQuotAux fuel after
    | none => u :: replaceQuotAux fuel rest

/-- `s.replace(/&quot;/g, '"')`. -/
def replaceQuot (s : JsStr) : JsStr := replaceQuotAux s.length s

/-- `s.replace(/<\/?span[^>]*>/g, '')`, with fuel for the scan. -/
def stripSpansAux : Nat → JsStr → JsStr
  | 0, s => s
  | _, [] => []
  | fuel + 1, u :: rest =>
    let body : Option JsStr :=
      match afterLead (lit "<span") (u :: rest) with
      | some r => some r
      | none => afterLead (lit "</span") (u :: rest)
    match body with
    | none => u :: stripSpansAux fuel rest
    | some r =>
      match r.dropWhile (· != 62) with
      | [] => u :: stripSpansAux fuel rest
      | _ :: after => stripSpansAux fuel after

/-- `s.replace(/<\/?span[^>]*>/g, '')`. -/
def stripSpans (s : JsStr) : JsStr := stripSpansAux s.length s

/-- Upper-case hexadecimal digit. -/
def upperHex (n : Nat) : Nat := if n < 10 then 48 + n else 55 + n

/-- Percent-encoding of one byte. -/
def pct (b : Nat) : JsStr := [37, upperHex (b / 16), upperHex (b % 16)]

/-- UTF-8 encoding of a code point. -/
def utf8 (cp : Nat) : List Nat :=
  if cp < 128 then [cp]
  else if cp < 2048 then [192 + cp / 64, 128 + cp % 64]
  else if cp < 65536 then [224 + cp / 4096, 128 + cp / 64 % 64, 128 + cp % 64]
  else [240 + cp / 262144, 128 + cp / 4096 % 64, 128 + cp / 64 % 64, 128 + cp % 64]

/-- The characters `encodeURIComponent` leaves alone. -/
def unreserved (u : Nat) : Bool :=
  (65 ≤ u && u ≤ 90) || (97 ≤ u && u ≤ 122) || (48 ≤ u && u ≤ 57) ||
  u == 45 || u == 95 || u == 46 || u == 33 || u == 126 || u == 42 || u == 39 ||
  u == 40 || u == 41

/-- The `URIError` thrown on a lone surrogate. -/
def uriError : JsError := ⟨lit "URIError", lit "URI malformed"⟩

/-- `encodeURIComponent`. -/
def encodeURIComponent : JsStr → Except JsError JsStr
  | [] => .ok []
  | [u] =>
    if unreserved u then .ok [u]
    else if isHigh u || isLow u then .error uriError
    else .ok ((utf8 u).flatMap pct)
  | u :: v :: rest =>
    if unreserved u then
      match encodeURIComponent (v :: rest) with
      | .error e => .error e
      | .ok t => .ok (u :: t)
    else if isHigh u then
      if isLow v then
        match encodeURIComponent rest with
        | .error e => .error e
        | .ok t => .ok ((utf8 (65536 + (u - 55296) * 1024 + (v - 56320))).flatMap pct ++ t)
      else .error uriError
    else if isLow u then .error uriError
    else
      match encodeURIComponent (v :: rest) with
      | .error e => .error e
      | .ok t => .ok ((utf8 u).flatMap pct ++ t)

/-- `xs.slice(0, e)` where `none` is `NaN`. -/
def sliceEnd (xs : List α) (e : Option Int) : List α :=
  match e with
  | none => []
  | some e => if e < 0 then xs.take ((xs.length : Int) + e).toNat else xs.take e.toNat

/-- `try { body } catch (e) { handler(e) }`. -/
def tryCatch (body : Except JsError α) (handler : JsError → Except JsError α) :
    Except JsError α :=
  match body with
  | .ok a => .ok a
  | .error e => handler e

/-- Run a loop body over the items, threading the accumulated state; the
first throw ends the loop. -/
def forEachM (f : σ → JsVal → Except JsError σ) : σ → List JsVal → Except JsError σ
  | acc, [] => .ok acc
  | acc, x :: rest =>
    match f acc x with
    | .error e => .error e
    | .ok acc2 => forEachM f acc2 rest

/-! ## Configuration and collaborators -/

/-- The result of `getCfg()`: the trimmed form fields, `model` defaulted. -/
structure Config where
  model : JsStr
  aiPipeToken : JsStr
  aiPipeUrl : JsStr
  googleCseId : JsStr
  googleApiKey : JsStr

/-- What `fetch` resolves to: `r.ok`, `r.status` and the outcome of `r.json()`. -/
structure Response where
  ok : Bool
  status : Nat
  json : Except JsError JsVal

/-- The network collaborators, each a function of what the program sends. -/
structure Net where
  cse : (key cx q : JsStr) → Except JsError Response
  ddg : (q : JsStr) → Except JsError Response
  wiki : (encodedQuery : JsStr) → Except JsError Response
  workflow : (url workflow data : JsStr) → Except JsError Response
  responses : (token model input : JsStr) → Except JsError Response

/-- `await fetch(...)` followed by `await r.json()`. -/
def fetchJson (r : Except JsError Response) : Except JsError JsVal :=
  match r with
  | .error e => .error e
  | .ok resp => resp.json

/-- The result object of a tool: the fields of an object literal. -/
abbrev ToolResult := List (JsStr × JsVal)

/-- The number `5`. -/
def five : JsVal := .num (.fin false [5] 1)

/-! ## `tool_google_search` -/

/-- The effective result limit
`Math.min(10, Math.max(1, parseInt(args?.limit || 5, 10)))`; `none` is `NaN`. -/
def searchLimit (args : JsVal) : Except JsError (Option Int) :=
  match parseInt (jsOr (getOpt args "limit") five) with
  | .error e => .error e
  | .ok n => .ok (mathMin10 (mathMax1 n))

/-- One item of the keyed search: `({title: it.title, link: it.link, snippet: it.snippet})`. -/
def cseItem (it : JsVal) : Except JsError JsVal :=
  match getProp it "title", getProp it "link", getProp it "snippet" with
  | .ok t, .ok l, .ok s => .ok (.obj [(lit "title", t), (lit "link", l), (lit "snippet", s)])
  | .error e, _, _ => .error e
  | _, .error e, _ => .error e
  | _, _, .error e => .error e

/-- `xs.map(f)` for a callback that may throw. -/
def mapM (f : JsVal → Except JsError JsVal) : List JsVal → Except JsError (List JsVal)
  | [] => .ok []
  | x :: rest =>
    match f x with
    | .error e => .error e
    | .ok y =>
      match mapM f rest with
      | .error e => .error e
      | .ok ys => .ok (y :: ys)

/-- The body of the keyed-search `try` block. -/
def cseSearch (cfg : Config) (net : Net) (query : JsStr) (limit : Option Int) :
    Except JsError ToolResult :=
  match fetchJson (net.cse cfg.googleApiKey cfg.googleCseId query) with
  | .error e => .error e
  | .ok j =>
    match getProp j "items" with
    | .error e => .error e
    | .ok items =>
      match jsOr items (.arr []) with
      | .arr xs =>
        match mapM cseItem (sliceEnd xs limit) with
        | .error e => .error e
        | .ok ys =>
          .ok [(lit "provider", .str (lit "google-cse")), (lit "query", .str query),
            (lit "results", .arr ys)]
      | .str _ => .error (typeError "(intermediate value).slice(...).map is not a function")
      | _ => .error (typeError "(intermediate value).slice is not a function")

/-- Whether `results.length >= limit`; false when the limit is `NaN`. -/
def atLimit (results : List JsVal) (limit : Option Int) : Bool :=
  match limit with
  | none => false
  | some l => decide (l ≤ (results.length : Int))

/-- Whether `results.length < limit`; false when the limit is `NaN`. -/
def belowLimit (results : List JsVal) (limit : Option Int) : Bool :=
  match limit with
  | none => false
  | some l => decide ((results.length : Int) < l)

/-- The callback of `RelatedTopics.forEach`. -/
def relatedTopic (limit : Option Int) (results : List JsVal) (rt : JsVal) :
    Except JsError (List JsVal) :=
  if atLimit results limit then .ok results
  else
    match getProp rt "Text" with
    | .error e => .error e
    | .ok text =>
      if truthy text then
        match text with
        | .str t =>
          .ok (results ++ [.obj [(lit "title", .str (t.take 60)),
            (lit "link", jsOr (getOpt rt "FirstURL") (.str [])), (lit "snippet", text)]])
        | .arr xs =>
          .ok (results ++ [.obj [(lit "title", .arr (xs.take 60)),
            (lit "link", jsOr (getOpt rt "FirstURL") (.str [])), (lit "snippet", text)]])
        | _ => .error (typeError "rt.Text.slice is not a function")
      else .ok results

/-- The callback of the encyclopedia hits `forEach`. -/
def wikiHit (results : List JsVal) (s : JsVal) : Except JsError (List JsVal) :=
  match getProp s "title" with
  | .error e => .error e
  | .ok (.str title) =>
    match encodeURIComponent (replaceSpaces title) with
    | .error e => .error e
    | .ok enc =>
      match getOpt s "snippet" with
      | .undefined | .null =>
        .ok (results ++ [.obj [(lit "title", .str title),
          (lit "link", .str (lit "https://en.wikipedia.org/wiki/" ++ enc)),
          (lit "snippet", .str [])]])
      | .str sn =>
        .ok (results ++ [.obj [(lit "title", .str title),
          (lit "link", .str (lit "https://en.wikipedia.org/wiki/" ++ enc)),
          (lit "snippet", jsOr (.str (replaceQuot (stripSpans sn))) (.str []))]])
      | _ => .error (typeError "s.snippet?.replace is not a function")
  | .ok _ => .error (typeError "s.title.replace is not a function")

/-- The body of the fallback `try` block. -/
def fallbackSearch (net : Net) (query : JsStr) (limit : Option Int) :
    Except JsError ToolResult :=
  match fetchJson (net.ddg query) with
  | .error e => .error e
  | .ok j =>
    match getProp j "AbstractText" with
    | .error e => .error e
    | .ok abstract =>
      let results0 : List JsVal :=
        if truthy abstract then
          [.obj [(lit "title", jsOr (getOpt j "Heading") (.str (lit "DuckDuckGo"))),
            (lit "link", jsOr (getOpt j "AbstractURL") (.str [])), (lit "snippet", abstract)]]
        else []
      let related : Except JsError (List JsVal) :=
        match jsOr (getOpt j "RelatedTopics") (.arr []) with
        | .arr rts => forEachM (relatedTopic limit) results0 rts
        | _ => .error (typeError "(intermediate value).forEach is not a function")
      match related with
      | .error e => .error e
      | .ok results1 =>
        let hits : Except JsError (List JsVal) :=
          if belowLimit results1 limit then
            match encodeURIComponent query with
            | .error e => .error e
            | .ok enc =>
              match fetchJson (net.wiki enc) with
              | .error e => .error e
              | .ok wj =>
                match jsOr (getOpt (getOpt wj "query") "search") (.arr []) with
                | .arr ss =>
                  forEachM wikiHit results1
                    (sliceEnd ss (limit.map (fun l => l - (results1.length : Int))))
                | .str _ =>
                  .error (typeError "(intermediate value).slice(...).forEach is not a function")
                | _ => .error (typeError "(intermediate value).slice is not a function")
          else .ok results1
        match hits with
        | .error e => .error e
        | .ok results2 =>
          .ok [(lit "provider", .str (lit "fallback")), (lit "query", .str query),
            (lit "results", .arr (sliceEnd results2 limit))]

/-- The function `tool_google_search(args)`. -/
def tool_google_search (cfg : Config) (net : Net) (args : JsVal) : Except JsError ToolResult :=
  match toStr (jsOr (getOpt args "query") (.str [])) with
  | .error e => .error e
  | .ok query =>
    match searchLimit args with
    | .error e => .error e
    | .ok limit =>
      let keyed : Option ToolResult :=
        if ¬ cfg.googleCseId.isEmpty ∧ ¬ cfg.googleApiKey.isEmpty then
          match cseSearch cfg net query limit with
          | .ok r => some r
          | .error _ => none
        else none
      match keyed with
      | some r => .ok r
      | none =>
        tryCatch (fallbackSearch net query limit) (fun _ =>
          .ok [(lit "provider", .str (lit "fallback")), (lit "query", .str query),
            (lit "results", .arr [])])

/-! ## `tool_ai_pipe` -/

/-- The function `buildTransformPrompt(workflow, data)`. -/
def buildTransformPrompt (workflow data : JsStr) : JsStr :=
  trim (lit "\nYou are an expert text transformer that operates strictly on the PROVIDED_INPUT.\nTask: "
    ++ (if workflow.isEmpty then lit "outline" else workflow)
    ++ lit "  (if unclear, treat as 'outline' or 'summarize' as appropriate)\nRules:\n1) Be brief by default (≤120 words) unless asked otherwise.\n2) Use only facts in PROVIDED_INPUT. If something is missing, write: \"not in input\".\n3) Preserve numbers, units, names, quotes; do not alter quantities.\n4) If summarizing: produce 3–5 bullets covering What/Why/How/Numbers.\n5) If extracting: return VALID JSON with only keys you actually found.\n6) If rewriting/translating: preserve meaning & entities; note uncertainties.\n7) If input is long, first create short section-wise bullets, then a final synthesis.\n8) Append one line at end: Summary: <very short gist>.\n\nPROVIDED_INPUT:\n<<<\n"
    ++ data
    ++ lit "\n>>>\n\nReturn only the final output (no preface).")

/-- The number `0.42`. -/
def confidence042 : JsVal := .num (.fin false [4, 2] 0)

/-- The read `v?.[0]`. -/
def index0 (v : JsVal) : JsVal :=
  match v with
  | .arr (x :: _) => x
  | .str (u :: _) => .str [u]
  | .obj kvs => lookupField (lit "0") kvs
  | _ => .undefined

/-- `JSON.stringify(v)` as a value: a string, or `undefined`. -/
def stringifyVal (v : JsVal) : JsVal :=
  match jsonProp v with
  | some t => .str t
  | none => .undefined

/-- The body of the first `try` block: the custom workflow endpoint. -/
def workflowCall (cfg : Config) (net : Net) (workflow data : JsStr) :
    Except JsError ToolResult :=
  match net.workflow cfg.aiPipeUrl workflow data with
  | .error e => .error e
  | .ok r =>
    if ¬ r.ok then .error ⟨lit "Error", lit "HTTP " ++ natText r.status⟩
    else
      match r.json with
      | .error e => .error e
      | .ok j =>
        match getProp j "output", getProp j "confidence" with
        | .ok out, .ok conf =>
          .ok [(lit "workflow", .str workflow), (lit "output", coalesce out j),
            (lit "confidence", coalesce conf .null)]
        | .error e, _ => .error e
        | _, .error e => .error e

/-- The body of the second `try` block: the text-generation endpoint. -/
def responsesCall (cfg : Config) (net : Net) (workflow data : JsStr) :
    Except JsError ToolResult :=
  match fetchJson (net.responses cfg.aiPipeToken
      (if cfg.model.isEmpty then lit "gpt-4.1-nano" else cfg.model)
      (buildTransformPrompt workflow data)) with
  | .error e => .error e
  | .ok j =>
    let text :=
      coalesce
        (coalesce
          (getOpt (index0 (getOpt (index0 (getOpt j "output")) "content")) "text")
          (getOpt j "output_text"))
        (stringifyVal j)
    .ok [(lit "workflow", .str (workflow ++ lit "@aipipe")), (lit "output", text),
      (lit "raw", j)]

/-- The mock fallback of `tool_ai_pipe`. -/
def mockTransform (workflow data : JsStr) : ToolResult :=
  [(lit "workflow", .str workflow),
    (lit "output", .str (if data.length > 160 then data.take 157 ++ lit "..." else data)),
    (lit "confidence", confidence042)]

/-- The function `tool_ai_pipe(args)`. -/
def tool_ai_pipe (cfg : Config) (net : Net) (args : JsVal) : Except JsError ToolResult :=
  match toStr (jsOr (getOpt args "workflow") (.str (lit "summarize"))) with
  | .error e => .error e
  | .ok workflow =>
    match toStr (jsOr (getOpt args "data") (.str [])) with
    | .error e => .error e
    | .ok data =>
      let first : Option ToolResult :=
        if ¬ cfg.aiPipeUrl.isEmpty then
          match workflowCall cfg net workflow data with
          | .ok r => some r
          | .error _ => none
        else none
      match first with
      | some r => .ok r
      | none =>
        let second : Option ToolResult :=
          if ¬ cfg.aiPipeToken.isEmpty then
            match responsesCall cfg net workflow data with
            | .ok r => some r
            | .error _ => none
          else none
        match second with
        | some r => .ok r
        | none => .ok (mockTransform workflow data)

/-! ## The sandbox channel -/

/-- The value the message listener passes to `resolve`:
`{ logs: data.logs || [], result: data.result, error: data.error }`. -/
def sandboxOutcome (data : JsVal) : JsVal :=
  .obj [(lit "logs", jsOr (getOpt data "logs") (.arr [])),
    (lit "result", getOpt data "result"), (lit "error", getOpt data "error")]

/-- The state of the channel: the map `sandboxPending` from request id to the
request registered under it (requests are numbered in the order of the
`runInSandbox` calls), the messages posted to the frame, and the calls of
`resolve` made so far, each with the request it settles and the value. -/
structure Channel where
  pending : List (JsStr × Nat)
  posted : List (JsStr × JsStr)
  resolved : List (Nat × JsVal)

/-- The channel when the script starts. -/
def Channel.init : Channel := ⟨[], [], []⟩

/-- `Map.prototype.set`. -/
def mapSet (k : JsStr) (v : Nat) : List (JsStr × Nat) → List (JsStr × Nat)
  | [] => [(k, v)]
  | (k2, v2) :: rest => if k2 = k then (k, v) :: rest else (k2, v2) :: mapSet k v rest

/-- `Map.prototype.get` on a string key. -/
def mapGet (k : JsStr) : List (JsStr × Nat) → Option Nat
  | [] => none
  | (k2, v2) :: rest => if k2 = k then some v2 else mapGet k rest

/-- `Map.prototype.delete`. -/
def mapDelete (k : JsStr) : List (JsStr × Nat) → List (JsStr × Nat)
  | [] => []
  | (k2, v2) :: rest => if k2 = k then rest else (k2, v2) :: mapDelete k rest

/-- The function `runInSandbox(code)`, with `id` the text drawn from
`Math.random().toString(36).slice(2)`. -/
def runInSandbox (id code : JsStr) (c : Channel) : Channel :=
  { pending := mapSet id c.posted.length c.pending
    posted := c.posted ++ [(id, code)]
    resolved := c.resolved }

/-- The `message` listener, applied to `ev.data`. -/
def onMessage (evData : JsVal) (c : Channel) : Channel :=
  let data := jsOr evData (.obj [])
  match getOpt data "type", getOpt data "id" with
  | .str t, .str id =>
    if t = lit "EXEC_JS_RESULT" ∧ ¬ id.isEmpty then
      match mapGet id c.pending with
      | some req =>
        { pending := mapDelete id c.pending
          posted := c.posted
          resolved := c.resolved ++ [(req, sandboxOutcome data)] }
      | none => c
    else c
  | _, _ => c

/-- The function `tool_execute_javascript(args)`; `sandbox code` is the data of
the result message that settles the request posted for `code`. -/
def tool_execute_javascript (sandbox : JsStr → JsVal) (args : JsVal) :
    Except JsError ToolResult :=
  match toStr (jsOr (getOpt args "code") (.str [])) with
  | .error e => .error e
  | .ok code =>
    let out := sandboxOutcome (sandbox code)
    .ok [(lit "logs", jsOr (getOpt out "logs") (.arr [])),
      (lit "result", coalesce (getOpt out "result") .null),
      (lit "error", coalesce (getOpt out "error") .null)]

/-! ## The router `handleToolCall` -/

/-- The `function` member of a tool call. -/
structure FunctionCall where
  name : Option JsStr
  arguments : Option JsStr
deriving DecidableEq

/-- A tool-call request of a model response. -/
structure ToolCall where
  id : Option JsStr
  function : Option FunctionCall
deriving DecidableEq

/-- The three tool executors. -/
structure Handlers where
  google_search : JsVal → Except JsError ToolResult
  ai_pipe : JsVal → Except JsError ToolResult
  execute_javascript : JsVal → Except JsError ToolResult

/-- The text of `name` in a template literal. -/
def nameText (name : Option JsStr) : JsStr :=
  match name with
  | some n => n
  | none => lit "undefined"

/-- The expression `fn?.arguments ? JSON.parse(fn.arguments) : {}`. -/
def parseArguments (arguments : Option JsStr) : Except JsError JsVal :=
  match arguments with
  | none => .ok (.obj [])
  | some t =>
    if t.isEmpty then .ok (.obj [])
    else
      match jsonParse t with
      | some v => .ok v
      | none => .error syntaxError

/-- The result of the `catch` clause: `{ error: String(e?.message || e) }`. -/
def errorResult (e : JsError) : ToolResult :=
  [(lit "error", .str (if e.message.isEmpty then e.text else e.message))]

/-- The function `handleToolCall(tc)` over given executors. -/
def handleToolCallWith (h : Handlers) (tc : ToolCall) : Except JsError ToolResult :=
  tryCatch
    (let name := tc.function.bind (fun f => f.name)
     match parseArguments (tc.function.bind (fun f => f.arguments)) with
     | .error e => .error e
     | .ok args =>
       if name = some (lit "google_search") then h.google_search args
       else if name = some (lit "ai_pipe") then h.ai_pipe args
       else if name = some (lit "execute_javascript") then h.execute_javascript args
       else .ok [(lit "error", .str (lit "Unknown tool: " ++ nameText name))])
    (fun e => .ok (errorResult e))

/-! ## Conversation and model call -/

/-- One entry of `conversation`. -/
structure Turn where
  role : JsStr
  content : JsStr
  tool_call_id : Option JsStr
  name : Option JsStr
deriving DecidableEq

/-- The constant `systemPrompt`. -/
def systemPrompt : Turn :=
  { role := lit "system"
    content := lit "You are a browser-based agent. Keep responses brief and useful.\nIf user intent is ambiguous or multi-goal, propose a brief plan (numbered steps) and ask one high-leverage clarifying question if essential.\nPrefer official/primary sources and state explicit dates when queries imply recency (‘latest’, ‘today’).\nCross-check ≥2 reputable sources when facts conflict; present disagreement and a short confidence note.\nUse multi-tool chains when helpful (search→summarize→compute) and state the plan briefly.\nWhen using search results, cite links inline; if unknown, say ‘not found’—do not fabricate.\nFor non-trivial calculations, use execute_javascript to verify; show formula and computed value.\nFor very long inputs, chunk logically and summarize per chunk before a final synthesis.\nCarry forward key facts from tool results as brief ‘Notes:’ (keep them short).\nIf a source is paywalled/unreachable, say so and seek alternative reputable sources; never invent hidden content.\nTranslate relative dates into explicit dates when possible; if unsure, ask for locale/timeframe.\nDecline unsafe/illegal requests and suggest safe, high-level alternatives.\nOn empty/failed search, retry once with a refined query (keywords, site filters). If still empty, say so and propose next steps.\nHonor explicit output formats (JSON/table). Validate JSON and keep it minimal.\nBe concise; prefer few tool calls; ask before heavy operations.\nIf user forbids tools, comply; answer text-only and note limitations/uncertainty."
    tool_call_id := none
    name := none }

/-- What `callLLM` returns: `{ content, tool_calls }`. -/
structure LLMResponse where
  content : JsStr
  tool_calls : List ToolCall
deriving DecidableEq

/-- Everything outside the program at one moment: the form fields, the
network, the sandbox frame, the clock, and the chat endpoint, whose reply is
given as `choice.content || ''` and `choice.tool_calls || []`. -/
structure Env where
  cfg : Config
  net : Net
  sandbox : JsStr → JsVal
  now : Nat
  chat : (token model : JsStr) → List Turn → Except JsError LLMResponse

/-- The tool executors in an environment. -/
def handlers (env : Env) : Handlers :=
  { google_search := tool_google_search env.cfg env.net
    ai_pipe := tool_ai_pipe env.cfg env.net
    execute_javascript := tool_execute_javascript env.sandbox }

/-- The function `handleToolCall(tc)`. -/
def handleToolCall (env : Env) (tc : ToolCall) : Except JsError ToolResult :=
  handleToolCallWith (handlers env) tc

/-- Lower-case form of an ASCII letter; other code units are unchanged. -/
def lowerAscii (u : Nat) : Nat := if 65 ≤ u ∧ u ≤ 90 then u + 32 else u

/-- Whether `s` starts with the lower-case pattern `p`, ignoring ASCII case. -/
def leadCI : JsStr → JsStr → Bool
  | [], _ => true
  | _ :: _, [] => false
  | a :: p, b :: s => a == lowerAscii b && leadCI p s

/-- The test `/p/i.test(s)` for a literal lower-case ASCII pattern `p`. -/
def containsCI (p : JsStr) : JsStr → Bool
  | [] => leadCI p []
  | u :: s => leadCI p (u :: s) || containsCI p s

/-- The test `/a|b|…/i.test(s)` for literal alternatives. -/
def anyCI (ps : List String) (s : JsStr) : Bool := ps.any (fun p => containsCI (lit p) s)

/-- The content of the latest turn with role `user`, or the empty string. -/
def lastUser (messages : List Turn) : JsStr :=
  match messages.reverse.find? (fun m => m.role == lit "user") with
  | some m => m.content
  | none => []

/-- A tool call as `mockLLM` writes it: no `id`. -/
def mockCall (name : String) (args : List (JsStr × JsVal)) : ToolCall :=
  { id := none, function := some { name := some (lit name), arguments := some (stringifyObj args) } }

/-- The function `mockLLM(messages)`. -/
def mockLLM (messages : List Turn) : LLMResponse :=
  let u := lastUser messages
  if anyCI ["search", "ibm", "latest", "look up", "google"] u then
    { content := lit "Let me search that."
      tool_calls := [mockCall "google_search" [(lit "query", .str u), (lit "limit", five)]] }
  else if anyCI ["run code", "execute", "javascript", "js"] u then
    { content := lit "Executing JavaScript in the sandbox."
      tool_calls := [mockCall "execute_javascript"
        [(lit "code", .str (lit "console.log('Hello from sandbox'); return 2+2;"))]] }
  else if anyCI ["summarize", "pipeline", "ai pipe", "aipipe"] u then
    { content := lit "Calling AI Pipe to summarize."
      tool_calls := [mockCall "ai_pipe"
        [(lit "workflow", .str (lit "summarize")), (lit "data", .str u)]] }
  else { content := lit "OK. What’s next?", tool_calls := [] }

/-- The function `callLLM(messages)`. -/
def callLLM (env : Env) (messages : List Turn) : LLMResponse :=
  if env.cfg.aiPipeToken.isEmpty then mockLLM messages
  else
    match env.chat env.cfg.aiPipeToken env.cfg.model messages with
    | .ok r => r
    | .error _ => { content := [], tool_calls := [] }

/-! ## Card rendering, as far as it can throw -/

/-- The replacement text of `escapeHtml` for one code unit. -/
def escapeUnit (u : Nat) : JsStr :=
  if u = 38 then lit "&amp;"
  else if u = 60 then lit "&lt;"
  else if u = 62 then lit "&gt;"
  else if u = 34 then lit "&quot;"
  else if u = 39 then lit "&#39;"
  else [u]

/-- The function `escapeHtml(s = '')`: `s.replace` exists on strings only. -/
def escapeHtml (v : JsVal) : Except JsError JsStr :=
  match v with
  | .undefined => .ok []
  | .str s => .ok (s.flatMap escapeUnit)
  | _ => .error (typeError "s.replace is not a function")

/-- Run the checks in order; the first throw ends them. -/
def allOk (f : JsVal → Except JsError Unit) : List JsVal → Except JsError Unit
  | [] => .ok ()
  | x :: rest =>
    match f x with
    | .error e => .error e
    | .ok _ => allOk f rest

/-- Discard the value of a computation that may throw. -/
def check (x : Except JsError α) : Except JsError Unit :=
  match x with
  | .error e => .error e
  | .ok _ => .ok ()

/-- One after the other. -/
def andThen (x y : Except JsError Unit) : Except JsError Unit :=
  match x with
  | .error e => .error e
  | .ok _ => y

/-- The callback that renders one search result. -/
def renderSearchItem (r : JsVal) : Except JsError Unit :=
  match getProp r "title" with
  | .error e => .error e
  | .ok title =>
    andThen (check (escapeHtml (jsOr title (.str []))))
      (andThen
        (if truthy (getOpt r "link") then check (escapeHtml (getOpt r "link")) else .ok ())
        (check (escapeHtml (jsOr (getOpt r "snippet") (.str [])))))

/-- The callback that renders one console entry of the sandbox. -/
def renderLog (l : JsVal) : Except JsError Unit :=
  match getProp l "level" with
  | .error e => .error e
  | .ok level =>
    andThen (check (toStr level))
      (match getOpt l "args" with
        | .undefined | .null => .ok ()
        | .arr xs => allOk (fun x => check (toStr x)) xs
        | _ => .error (typeError "l.args?.map is not a function"))

/-- The card-building code of `agentStep` for one tool result: whether it
completes or throws.  The HTML text it builds is not modelled. -/
def renderCard (name : JsStr) (result : ToolResult) : Except JsError Unit :=
  if name = lit "google_search" then
    match jsOr (lookupField (lit "results") result) (.arr []) with
    | .arr rs =>
      andThen (allOk renderSearchItem rs)
        (check (toStr (jsOr (lookupField (lit "query") result) (.str []))))
    | _ => .error (typeError "(intermediate value).map is not a function")
  else if name = lit "ai_pipe" then
    check (toStr (lookupField (lit "workflow") result))
  else if name = lit "execute_javascript" then
    match jsOr (lookupField (lit "logs") result) (.arr []) with
    | .arr ls =>
      andThen (allOk renderLog ls)
        (andThen (check (toStr (lookupField (lit "result") result)))
          (if truthy (lookupField (lit "error") result) then
            check (escapeHtml (lookupField (lit "error") result))
          else .ok ()))
    | _ => .error (typeError "(intermediate value).map is not a function")
  else .ok ()

/-! ## The agent loop -/

/-- The expression `tc.function?.name || 'tool'`. -/
def toolName (tc : ToolCall) : JsStr :=
  match tc.function.bind (fun f => f.name) with
  | some n => if n.isEmpty then lit "tool" else n
  | none => lit "tool"

/-- The expression `tc.id || (name + '_' + Date.now())`. -/
def toolCallId (now : Nat) (tc : ToolCall) : JsStr :=
  match tc.id with
  | some i => if i.isEmpty then toolName tc ++ [95] ++ natText now else i
  | none => toolName tc ++ [95] ++ natText now

/-- The turn pushed for one tool call and its result. -/
def toolTurn (now : Nat) (tc : ToolCall) (result : ToolResult) : Turn :=
  { role := lit "tool"
    content := stringifyObj result
    tool_call_id := some (toolCallId now tc)
    name := some (toolName tc) }

/-- The `for (const tc of tool_calls)` loop of `agentStep`: the conversation
afterwards, and the exception that ended the loop early, if any.  The `i`-th
iteration runs in the environment `envs i`. -/
def dispatchLoop (envs : Nat → Env) : List Turn → List ToolCall → List Turn × Option JsError
  | conv, [] => (conv, none)
  | conv, tc :: rest =>
    match handleToolCall (envs 0) tc with
    | .error e => (conv, some e)
    | .ok result =>
      match renderCard (toolName tc) result with
      | .error e => (conv, some e)
      | .ok _ =>
        dispatchLoop (fun i => envs (i + 1)) (conv ++ [toolTurn (envs 0).now tc result]) rest

/-- How a run of `agentStep` stands: it returned to wait for the user, it
threw, or it is still looping when the fuel of the model ran out. -/
inductive Status where
  | returned
  | threw (e : JsError)
  | looping
deriving DecidableEq

/-- The state after running `agentStep`: the conversation, the number of
`callLLM` calls made, and how the run stands. -/
structure Run where
  conv : List Turn
  calls : Nat
  status : Status

/-- The assistant turn pushed when `content && content.trim()` holds. -/
def pushAssistant (conv : List Turn) (content : JsStr) : List Turn :=
  if (trim content).isEmpty then conv
  else conv ++ [{ role := lit "assistant", content := content, tool_call_id := none, name := none }]

/-- The function `agentStep()`, unrolled for at most `fuel` model calls.  The
`c`-th cycle runs in the environments `w c`. -/
def agentStep : Nat → (Nat → Nat → Env) → List Turn → Run
  | 0, _, conv => ⟨conv, 0, .looping⟩
  | fuel + 1, w, conv =>
    let r := callLLM (w 0 0) conv
    let conv1 := pushAssistant conv r.content
    if r.tool_calls.isEmpty then ⟨conv1, 1, .returned⟩
    else
      match dispatchLoop (w 0) conv1 r.tool_calls with
      | (conv2, some e) => ⟨conv2, 1, .threw e⟩
      | (conv2, none) =>
        let run := agentStep fuel (fun c => w (c + 1)) conv2
        ⟨run.conv, run.calls + 1, run.status⟩

/-- The function `onSend()`, with `input` the value of the text field. -/
def onSend (fuel : Nat) (w : Nat → Nat → Env) (input : JsStr) (conv : List Turn) : Run :=
  if (trim input).isEmpty then ⟨conv, 0, .returned⟩
  else
    agentStep fuel w
      (conv ++ [{ role := lit "user", content := trim input, tool_call_id := none, name := none }])

/-! ## Reachable conversations -/

/-- The conversations the program can hold: the initial `[systemPrompt]`, and
whatever `onSend` and `agentStep` leave behind, in any environment and after
any number of cycles. -/
inductive Reachable : List Turn → Prop where
  | init : Reachable [systemPrompt]
  | send (fuel : Nat) (w : Nat → Nat → Env) (input : JsStr) (conv : List Turn) :
      Reachable conv → Reachable (onSend fuel w input conv).conv
  | step (fuel : Nat) (w : Nat → Nat → Env) (conv : List Turn) :
      Reachable conv → Reachable (agentStep fuel w conv).conv

/-! ## Concrete environments -/

/-- A network in which every request fails. -/
def deadNet : Net :=
  { cse := fun _ _ _ => .error (typeError "Failed to fetch")
    ddg := fun _ => .error (typeError "Failed to fetch")
    wiki := fun _ => .error (typeError "Failed to fetch")
    workflow := fun _ _ _ => .error (typeError "Failed to fetch")
    responses := fun _ _ _ => .error (typeError "Failed to fetch") }

/-- No credentials, no network; the sandbox answers every request with the
result `4` and one console entry. -/
def offlineEnv : Env :=
  { cfg := { model := lit "gpt-4.1-nano", aiPipeToken := [], aiPipeUrl := [],
             googleCseId := [], googleApiKey := [] }
    net := deadNet
    sandbox := fun _ =>
      .obj [(lit "type", .str (lit "EXEC_JS_RESULT")),
        (lit "logs", .arr [.obj [(lit "level", .str (lit "log")),
          (lit "args", .arr [.str (lit "Hello from sandbox")])]]),
        (lit "result", .num (.fin false [4] 1))]
    now := 1700000000000
    chat := fun _ _ _ => .error (typeError "Failed to fetch") }

/-- A tool call naming a tool that is not registered, with an identifier. -/
def strayCall : ToolCall :=
  { id := some (lit "call_1"), function := some { name := some (lit "foo"), arguments := none } }

/-- The tool call `mockLLM` writes for running code: it has no identifier. -/
def codeCall : ToolCall :=
  mockCall "execute_javascript"
    [(lit "code", .str (lit "console.log('Hello from sandbox'); return 2+2;"))]

/-- A model endpoint that asks for the unregistered tool on every response. -/
def chattyEnv : Env :=
  { cfg := { model := lit "gpt-4.1-nano", aiPipeToken := lit "token", aiPipeUrl := [],
             googleCseId := [], googleApiKey := [] }
    net := deadNet
    sandbox := fun _ => .undefined
    now := 1700000000000
    chat := fun _ _ _ => .ok { content := [], tool_calls := [strayCall] } }

end Agent
namespace Agent

/-- A network whose instant-answer reply has an abstract and a number as
`Heading`; the encyclopedia reply has no hits. -/
def numberedNet : Net :=
  { cse := fun _ _ _ => .error (typeError "Failed to fetch")
    ddg := fun _ =>
      .ok { ok := true, status := 200,
            json := .ok (.obj [(lit "AbstractText", .str (lit "x")),
                               (lit "Heading", .num (.fin false [5] 1))]) }
    wiki := fun _ =>
      .ok { ok := true, status := 200,
            json := .ok (.obj [(lit "query", .obj [(lit "search", .arr [])])]) }
    workflow := fun _ _ _ => .error (typeError "Failed to fetch")
    responses := fun _ _ _ => .error (typeError "Failed to fetch") }

/-- No credentials, the network `numberedNet`, the sandbox of `offlineEnv`. -/
def numberedEnv : Env :=
  { offlineEnv with net := numberedNet }

/-- The tool call `mockLLM` writes for the prompt `ibm`. -/
def searchCall : ToolCall :=
  mockCall "google_search" [(lit "query", .str (lit "ibm")), (lit "limit", five)]

end Agent

namespace Agent

/-- No turn of the list has role `system`. -/
def NoSystem (ts : List Turn) : Prop := ∀ t ∈ ts, t.role ≠ lit "system"

end Agent

namespace Agent

/-- A network whose fallback providers answer but find nothing: the
instant-answer response has an empty abstract and no related topics, the
encyclopedia response has no hits. -/
def quietNet : Net :=
  { cse := fun _ _ _ => .error (typeError "Failed to fetch")
    ddg := fun _ =>
      .ok { ok := true, status := 200,
            json := .ok (.obj [(lit "AbstractText", .str []), (lit "RelatedTopics", .arr [])]) }
    wiki := fun _ =>
      .ok { ok := true, status := 200,
            json := .ok (.obj [(lit "query", .obj [(lit "search", .arr [])])]) }
    workflow := fun _ _ _ => .error (typeError "Failed to fetch")
    responses := fun _ _ _ => .error (typeError "Failed to fetch") }

/-- A network whose instant-answer provider finds an abstract and whose
encyclopedia request fails. -/
def abstractNet : Net :=
  { cse := fun _ _ _ => .error (typeError "Failed to fetch")
    ddg := fun _ =>
      .ok { ok := true, status := 200,
            json := .ok (.obj [(lit "AbstractText", .str (lit "x")),
                               (lit "Heading", .str (lit "H"))]) }
    wiki := fun _ => .error (typeError "Failed to fetch")
    workflow := fun _ _ _ => .error (typeError "Failed to fetch")
    responses := fun _ _ _ => .error (typeError "Failed to fetch") }

/-- The part of the fallback `try` block between the instant-answer reply `j`
and the test `results.length < limit`: the `results` array after the abstract
and the related topics have been pushed. -/
def instantResults (j : JsVal) (limit : Option Int) : Except JsError (List JsVal) :=
  match getProp j "AbstractText" with
  | .error e => .error e
  | .ok abstract =>
    let results0 : List JsVal :=
      if truthy abstract then
        [.obj [(lit "title", jsOr (getOpt j "Heading") (.str (lit "DuckDuckGo"))),
          (lit "link", jsOr (getOpt j "AbstractURL") (.str [])), (lit "snippet", abstract)]]
      else []
    match jsOr (getOpt j "RelatedTopics") (.arr []) with
    | .arr rts => forEachM (relatedTopic limit) results0 rts
    | _ => .error (typeError "(intermediate value).forEach is not a function")

end Agent

namespace Agent

/-- A number that `JSON.stringify` writes without loss: finite, its digits
decimal digits without leading or trailing zero, and zero only as `+0`. -/
def numSafe : JsNum → Bool
  | .fin neg ds e =>
    ds.all (fun d => decide (d < 10)) &&
    (match ds with
      | [] => !neg && decide (e = 0)
      | d :: _ => decide (d ≠ 0) && decide (ds.getLast? ≠ some 0))
  | .nan => false
  | .inf _ => false

/-- The keys of an object are distinct and stand in enumeration order: no key
would have been enumerated before an earlier one. -/
def keysCanonical : List (JsStr × JsVal) → Bool
  | [] => true
  | kv :: rest =>
    rest.all (fun b => decide (b.1 ≠ kv.1) && !keyBefore b.1 kv.1) && keysCanonical rest

mutual
/-- JSON data: a value without `undefined`, functions, `NaN`, infinities or
`-0` anywhere inside, whose objects have their keys in enumeration order. -/
def jsonSafe : JsVal → Bool
  | .undefined => false
  | .fn => false
  | .null => true
  | .bool _ => true
  | .num n => numSafe n
  | .str _ => true
  | .arr xs => safeElems xs
  | .obj kvs => keysCanonical kvs && safeFields kvs
/-- All elements are JSON data. -/
def safeElems : List JsVal → Bool
  | [] => true
  | x :: rest => jsonSafe x && safeElems rest
/-- All member values are JSON data. -/
def safeFields : List (JsStr × JsVal) → Bool
  | [] => true
  | (_, v) :: rest => jsonSafe v && safeFields rest
end

mutual
/-- The nesting of parser calls needed to read back the text of a value. -/
def cost : JsVal → Nat
  | .arr xs => 1 + costElems xs
  | .obj kvs => 1 + costFields kvs
  | _ => 1
/-- The parser calls needed for the elements of an array. -/
def costElems : List JsVal → Nat
  | [] => 0
  | x :: rest => 1 + cost x + costElems rest
/-- The parser calls needed for the members of an object. -/
def costFields : List (JsStr × JsVal) → Nat
  | [] => 0
  | (_, v) :: rest => 1 + cost v + costFields rest
end

/-- What may follow a value in JSON text: the end, a comma, a closing bracket
or a closing brace. -/
def delimited (rest : JsStr) : Bool :=
  match rest with
  | [] => true
  | c :: _ => c == 44 || c == 93 || c == 125

/-- The reply of a keyed search with one item that has a title only. -/
def cseNet : Net :=
  { cse := fun _ _ _ =>
      .ok { ok := true, status := 200,
            json := .ok (.obj [(lit "items", .arr [.obj [(lit "title", .str (lit "T"))]])]) }
    ddg := fun _ => .error (typeError "Failed to fetch")
    wiki := fun _ => .error (typeError "Failed to fetch")
    workflow := fun _ _ _ => .error (typeError "Failed to fetch")
    responses := fun _ _ _ => .error (typeError "Failed to fetch") }

/-- Search credentials present. -/
def keyedCfg : Config :=
  { model := lit "gpt-4.1-nano", aiPipeToken := [], aiPipeUrl := [],
    googleCseId := lit "cx", googleApiKey := lit "key" }

/-- The body text of a workflow reply whose `confidence` is written `-0`. -/
def zeroBody : JsStr := lit "\x7b\"output\":\"x\",\"confidence\":-0\x7d"

/-- A network whose workflow endpoint answers with the body `zeroBody`;
`r.json()` is `JSON.parse` of the body. -/
def zeroNet : Net :=
  { cse := fun _ _ _ => .error (typeError "Failed to fetch")
    ddg := fun _ => .error (typeError "Failed to fetch")
    wiki := fun _ => .error (typeError "Failed to fetch")
    workflow := fun _ _ _ =>
      .ok { ok := true, status := 200,
            json := match jsonParse zeroBody with
              | some v => .ok v
              | none => .error syntaxError }
    responses := fun _ _ _ => .error (typeError "Failed to fetch") }

/-- A workflow endpoint configured, nothing else. -/
def pipeCfg : Config :=
  { model := lit "gpt-4.1-nano", aiPipeToken := [], aiPipeUrl := lit "https://pipe.example/run",
    googleCseId := [], googleApiKey := [] }

end Agent

namespace Agent

/-- With any fuel below `F` that covers the cost of a value, `parseValue` reads
the text of JSON data back, up to whatever follows it. -/
def ReadsBack (F : Nat) : Prop :=
  ∀ fuel, fuel < F → ∀ v, cost v ≤ fuel → jsonSafe v = true →
    ∀ rest, delimited rest = true →
      ∃ t, jsonProp v = some t ∧ parseValue fuel (t ++ rest) = some (v, rest)

end Agent

namespace Agent

/-- A hypothesis on the network, not a property of `r.json()`: every response
body it delivers is JSON data in the sense of `jsonSafe`.  What `r.json()`
yields is a tree of `null`, booleans, numbers, strings, arrays and objects with
keys in enumeration order, so the hypothesis comes to this: no reply holds the
number `-0` (the body text `-0` parses to it) and none holds an infinity (a
numeral beyond the range of a double parses to it). -/
def SafeNet (net : Net) : Prop :=
  (∀ q resp j, net.ddg q = .ok resp → resp.json = .ok j → jsonSafe j = true) ∧
  (∀ q resp j, net.wiki q = .ok resp → resp.json = .ok j → jsonSafe j = true) ∧
  (∀ u w d resp j, net.workflow u w d = .ok resp → resp.json = .ok j → jsonSafe j = true) ∧
  (∀ a m i resp j, net.responses a m i = .ok resp → resp.json = .ok j → jsonSafe j = true)

/-- A value is JSON data or `undefined`. -/
def SafeOrUndefined (v : JsVal) : Prop := v = .undefined ∨ jsonSafe v = true

end Agent

namespace Agent

/-- The channel states the program can reach: the initial one, and whatever
calls of `runInSandbox` and deliveries of `message` events lead to. -/
inductive ChannelReachable : Channel → Prop where
  | init : ChannelReachable Channel.init
  | run (id code : JsStr) (c : Channel) :
      ChannelReachable c → ChannelReachable (runInSandbox id code c)
  | message (evData : JsVal) (c : Channel) :
      ChannelReachable c → ChannelReachable (onMessage evData c)

/-- What holds of every reachable channel: the keys of `sandboxPending` are
distinct; every pending entry holds a request that was posted under that very
id; a request that has been resolved is no longer pending; no request has been
resolved twice. -/
def ChannelInv (c : Channel) : Prop :=
  (c.pending.map Prod.fst).Nodup ∧
  (∀ id req, (id, req) ∈ c.pending → ∃ code, c.posted[req]? = some (id, code)) ∧
  (∀ req v, (req, v) ∈ c.resolved → req < c.posted.length ∧ ∀ id, (id, req) ∉ c.pending) ∧
  (c.resolved.map Prod.fst).Nodup

/-- The message is a result message carrying the non-empty string `id`:
`data.type === 'EXEC_JS_RESULT' && data.id`, with `data.id` the string `id`. -/
def IsResultFor (evData : JsVal) (id : JsStr) : Prop :=
  getOpt (jsOr evData (.obj [])) "type" = .str (lit "EXEC_JS_RESULT") ∧
  getOpt (jsOr evData (.obj [])) "id" = .str id ∧ id ≠ []

/-- A result message for the request that `runInSandbox` registered under `id`. -/
def resultMessage (id : JsStr) (result : JsVal) : JsVal :=
  .obj [(lit "type", .str (lit "EXEC_JS_RESULT")), (lit "id", .str id), (lit "result", result)]

end Agent

namespace Agent

/-- The names of the tools registered in the constant `tools`. -/
def toolNames : List JsStr :=
  [lit "google_search", lit "ai_pipe", lit "execute_javascript"]

/-- The latest turn with role `user` in the conversation has content `c`: a
user turn with that content, followed by turns of other roles only. -/
def LatestUser (conv : List Turn) (c : JsStr) : Prop :=
  ∃ before u after, conv = before ++ u :: after ∧ u.role = lit "user" ∧ u.content = c ∧
    ∀ t ∈ after, t.role ≠ lit "user"

/-- A conversation: the system prompt, the user asking to look something up. -/
def askConv : List Turn :=
  [systemPrompt, ⟨lit "user", lit "look up the weather", none, none⟩]

/-- The same question in another conversation, followed by an assistant turn
and a tool turn. -/
def askConvLater : List Turn :=
  [systemPrompt, ⟨lit "user", lit "hello", none, none⟩,
    ⟨lit "assistant", lit "OK. What’s next?", none, none⟩,
    ⟨lit "user", lit "look up the weather", none, none⟩,
    ⟨lit "assistant", lit "Let me search that.", none, none⟩,
    ⟨lit "tool", lit "\x7b\x7d", some (lit "google_search_1700000000000"),
      some (lit "google_search")⟩]

end Agent

namespace Agent

/-! ## The router never throws -/

theorem handleToolCallWith_ok (h : Handlers) (tc : ToolCall) :
    ∃ r, handleToolCallWith h tc = .ok r := by
  unfold handleToolCallWith tryCatch
  split
  · exact ⟨_, rfl⟩
  · exact ⟨_, rfl⟩

theorem handleToolCall_ok (env : Env) (tc : ToolCall) :
    ∃ r, handleToolCall env tc = .ok r :=
  handleToolCallWith_ok (handlers env) tc

theorem toolCallId_of_id (now : Nat) (tc : ToolCall) (id : JsStr) (h : tc.id = some id)
    (hne : id ≠ []) : toolCallId now tc = id := by
  unfold toolCallId
  rw [h]
  cases id with
  | nil => exact absurd rfl hne
  | cons a r => rfl

theorem toolCallId_of_missing (now : Nat) (tc : ToolCall) (h : tc.id = none ∨ tc.id = some []) :
    toolCallId now tc = toolName tc ++ [95] ++ natText now := by
  unfold toolCallId
  rcases h with h | h
  · rw [h]
  · rw [h]; rfl

theorem dispatchLoop_spec (envs : Nat → Env) (conv : List Turn) (tcs : List ToolCall) :
    ∃ turns : List Turn,
      (dispatchLoop envs conv tcs).1 = conv ++ turns ∧
      turns.length ≤ tcs.length ∧
      ((dispatchLoop envs conv tcs).2 = none → turns.length = tcs.length) ∧
      ∀ (i : Nat) (t : Turn), turns[i]? = some t →
        ∃ tc result, tcs[i]? = some tc ∧ handleToolCall (envs i) tc = .ok result ∧
          t = toolTurn (envs i).now tc result := by
  induction tcs generalizing envs conv with
  | nil => exact ⟨[], by simp [dispatchLoop]⟩
  | cons tc rest ih =>
    obtain ⟨result, hres⟩ := handleToolCall_ok (envs 0) tc
    cases hrender : renderCard (toolName tc) result with
    | error e =>
      refine ⟨[], ?_, ?_, ?_, ?_⟩
      · simp [dispatchLoop, hres, hrender]
      · simp
      · simp [dispatchLoop, hres, hrender]
      · intro i t h
        simp at h
    | ok u =>
      obtain ⟨turns, h1, h2, h3, h4⟩ :=
        ih (fun i => envs (i + 1)) (conv ++ [toolTurn (envs 0).now tc result])
      refine ⟨toolTurn (envs 0).now tc result :: turns, ?_, ?_, ?_, ?_⟩
      · simp [dispatchLoop, hres, hrender, h1]
      · simpa using h2
      · intro hn
        simp only [dispatchLoop, hres, hrender] at hn
        simpa using h3 hn
      · intro i t h
        cases i with
        | zero =>
          simp at h
          exact ⟨tc, result, by simp, hres, h.symm⟩
        | succ j =>
          simp at h
          obtain ⟨tc2, r2, ha, hb, hc⟩ := h4 j t h
          exact ⟨tc2, r2, by simpa using ha, hb, hc⟩

theorem dispatchLoop_renders (envs : Nat → Env) (conv : List Turn) (tcs : List ToolCall)
    (hrender : ∀ (i : Nat) (tc : ToolCall) (result : ToolResult), tcs[i]? = some tc →
      handleToolCall (envs i) tc = .ok result → renderCard (toolName tc) result = .ok ()) :
    (dispatchLoop envs conv tcs).2 = none := by
  induction tcs generalizing envs conv with
  | nil => rfl
  | cons tc rest ih =>
    obtain ⟨result, hres⟩ := handleToolCall_ok (envs 0) tc
    have h0 : renderCard (toolName tc) result = .ok () := hrender 0 tc result (by simp) hres
    simp only [dispatchLoop, hres, h0]
    apply ih
    intro i tc2 r2 htc hh
    exact hrender (i + 1) tc2 r2 (by simpa using htc) hh

theorem dispatchLoop_stops (envs : Nat → Env) (conv : List Turn) (tcs : List ToolCall)
    (e : JsError) (h : (dispatchLoop envs conv tcs).2 = some e) :
    ∃ (i : Nat) (tc : ToolCall) (result : ToolResult), tcs[i]? = some tc ∧
      handleToolCall (envs i) tc = .ok result ∧
      renderCard (toolName tc) result = .error e ∧
      (dispatchLoop envs conv tcs).1.length = conv.length + i := by
  induction tcs generalizing envs conv with
  | nil => simp [dispatchLoop] at h
  | cons tc rest ih =>
    obtain ⟨result, hres⟩ := handleToolCall_ok (envs 0) tc
    cases hrender : renderCard (toolName tc) result with
    | error e2 =>
      simp only [dispatchLoop, hres, hrender] at h ⊢
      refine ⟨0, tc, result, by simp, hres, ?_, by simp⟩
      rw [hrender]
      simp only [Option.some.injEq] at h
      rw [h]
    | ok u =>
      simp only [dispatchLoop, hres, hrender] at h ⊢
      obtain ⟨i, tc2, r2, ha, hb, hc, hd⟩ := ih (fun i => envs (i + 1)) _ h
      refine ⟨i + 1, tc2, r2, by simpa using ha, hb, hc, ?_⟩
      rw [hd]
      simp
      omega

/-! ## C1: the tool turns of one dispatch phase -/

/-- C1 (amended): for every list of `n` tool calls of one model response, the
dispatch loop of `agentStep` only appends turns to the conversation, one per
tool call and in the order of the list.  When the card of every result renders
without throwing, the loop runs to its end and appends exactly `n` turns; the
loop ends early only at a call whose card rendering throws, and then has
appended the turns of the calls before that one and no more.  The turn for the
`i`-th call has role `tool`, content the `JSON.stringify` text of the result of
`handleToolCall` for that call, and `tool_call_id` equal to the identifier of
the call when that is a non-empty string; when the identifier is missing or
empty it is the tool name, an underscore and the clock reading instead. -/
theorem C1_dispatch_appends_tool_turns (envs : Nat → Env) (conv : List Turn)
    (tcs : List ToolCall) :
    ∃ turns : List Turn,
      (dispatchLoop envs conv tcs).1 = conv ++ turns ∧
      turns.length ≤ tcs.length ∧
      ((∀ (i : Nat) (tc : ToolCall) (result : ToolResult), tcs[i]? = some tc →
          handleToolCall (envs i) tc = .ok result →
          renderCard (toolName tc) result = .ok ()) →
        (dispatchLoop envs conv tcs).2 = none ∧ turns.length = tcs.length) ∧
      (∀ e, (dispatchLoop envs conv tcs).2 = some e →
        ∃ tc result, tcs[turns.length]? = some tc ∧
          handleToolCall (envs turns.length) tc = .ok result ∧
          renderCard (toolName tc) result = .error e) ∧
      ((dispatchLoop envs conv tcs).2 = none → turns.length = tcs.length) ∧
      ∀ (i : Nat) (t : Turn), turns[i]? = some t →
        ∃ tc result, tcs[i]? = some tc ∧ handleToolCall (envs i) tc = .ok result ∧
          t.role = lit "tool" ∧ t.content = stringifyObj result ∧
          (∀ id, tc.id = some id → id ≠ [] → t.tool_call_id = some id) ∧
          (tc.id = none ∨ tc.id = some [] →
            t.tool_call_id = some (toolName tc ++ [95] ++ natText (envs i).now)) := by
  obtain ⟨turns, h1, h2, h3, h4⟩ := dispatchLoop_spec envs conv tcs
  refine ⟨turns, h1, h2, ?_, ?_, h3, ?_⟩
  · intro hrender
    have hn := dispatchLoop_renders envs conv tcs hrender
    exact ⟨hn, h3 hn⟩
  · intro e he
    obtain ⟨i, tc, result, ha, hb, hc, hd⟩ := dispatchLoop_stops envs conv tcs e he
    have hi : turns.length = i := by
      rw [h1] at hd
      simp at hd
      exact hd
    rw [hi]
    exact ⟨tc, result, ha, hb, hc⟩
  intro i t ht
  obtain ⟨tc, result, ha, hb, hc⟩ := h4 i t ht
  refine ⟨tc, result, ha, hb, ?_, ?_, ?_, ?_⟩
  · rw [hc]; rfl
  · rw [hc]; rfl
  · intro id hid hne
    rw [hc]
    show some (toolCallId _ tc) = some id
    rw [toolCallId_of_id _ tc id hid hne]
  · intro hmiss
    rw [hc]
    show some (toolCallId _ tc) = _
    rw [toolCallId_of_missing _ tc hmiss]

/-- C1, an instance: two tool calls, the first with an identifier and the second
without one.  Both cards render, so the loop runs to its end and appends exactly
two tool turns, in that order. -/
theorem C1_dispatch_witness :
    (∀ (i : Nat) (tc : ToolCall) (result : ToolResult),
      [strayCall, codeCall][i]? = some tc → handleToolCall offlineEnv tc = .ok result →
      renderCard (toolName tc) result = .ok ()) ∧
    ∃ turns : List Turn,
      (dispatchLoop (fun _ => offlineEnv) [systemPrompt] [strayCall, codeCall]).1
        = [systemPrompt] ++ turns ∧
      (dispatchLoop (fun _ => offlineEnv) [systemPrompt] [strayCall, codeCall]).2 = none ∧
      turns.length = 2 ∧
      ∀ (i : Nat) (t : Turn), turns[i]? = some t →
        ∃ tc result, [strayCall, codeCall][i]? = some tc ∧
          handleToolCall offlineEnv tc = .ok result ∧
          t.role = lit "tool" ∧ t.content = stringifyObj result ∧
          (∀ id, tc.id = some id → id ≠ [] → t.tool_call_id = some id) ∧
          (tc.id = none ∨ tc.id = some [] →
            t.tool_call_id = some (toolName tc ++ [95] ++ natText offlineEnv.now)) := by
  have hrender : ∀ (i : Nat) (tc : ToolCall) (result : ToolResult),
      [strayCall, codeCall][i]? = some tc → handleToolCall offlineEnv tc = .ok result →
      renderCard (toolName tc) result = .ok () := by
    intro i tc result htc hres
    match i, htc with
    | 0, htc =>
      have h0 : strayCall = tc := by simpa using htc
      subst h0
      have hr : ∃ r, handleToolCall offlineEnv strayCall = .ok r ∧
          renderCard (toolName strayCall) r = .ok () := ⟨_, rfl, rfl⟩
      obtain ⟨r, hr1, hr2⟩ := hr
      rw [hr1] at hres
      cases hres
      exact hr2
    | 1, htc =>
      have h1 : codeCall = tc := by simpa using htc
      subst h1
      have hr : ∃ r, handleToolCall offlineEnv codeCall = .ok r ∧
          renderCard (toolName codeCall) r = .ok () := ⟨_, rfl, rfl⟩
      obtain ⟨r, hr1, hr2⟩ := hr
      rw [hr1] at hres
      cases hres
      exact hr2
    | (k + 2), htc => simp at htc
  refine ⟨hrender, ?_⟩
  obtain ⟨turns, h1, _, h3, _, _, h6⟩ :=
    C1_dispatch_appends_tool_turns (fun _ => offlineEnv) [systemPrompt] [strayCall, codeCall]
  exact ⟨turns, h1, (h3 hrender).1, (h3 hrender).2, h6⟩

/-- C1 as stated fails.  The tool call that `mockLLM` writes has no identifier,
and the turn pushed for it carries `execute_javascript_1700000000000`.  And a
search result whose title is a number makes the card rendering throw
(`escapeHtml` calls `replace` on it): of the two tool calls of that response no
turn is appended. -/
theorem C1_counterexample :
    (dispatchLoop (fun _ => offlineEnv) [systemPrompt] [codeCall]).2 = none ∧
    ((dispatchLoop (fun _ => offlineEnv) [systemPrompt] [codeCall]).1.map
        (fun t => t.tool_call_id))
      = [none, some (lit "execute_javascript_1700000000000")] ∧
    codeCall.id = none ∧
    handleToolCall numberedEnv searchCall
      = .ok [(lit "provider", .str (lit "fallback")), (lit "query", .str (lit "ibm")),
          (lit "results", .arr [.obj [(lit "title", .num (.fin false [5] 1)),
            (lit "link", .str []), (lit "snippet", .str (lit "x"))]])] ∧
    dispatchLoop (fun _ => numberedEnv) [systemPrompt] [searchCall, codeCall]
      = ([systemPrompt], some (typeError "s.replace is not a function")) := by
  refine ⟨by rfl, by rfl, rfl, by rfl, by rfl⟩

/-! ## C2: the router returns a result for every input -/

/-- C2: for every tool call (any name or none, any arguments text or none) and
every behaviour of the three executors, returning or throwing,
`handleToolCall` returns a result and does not throw; the result is the payload
an executor returned, or an object with the single member `error` holding a
text. -/
theorem C2_handleToolCall_never_raises (h : Handlers) (tc : ToolCall) :
    ∃ r, handleToolCallWith h tc = .ok r ∧
      ((∃ args, h.google_search args = .ok r ∨ h.ai_pipe args = .ok r ∨
          h.execute_javascript args = .ok r) ∨
        ∃ text, r = [(lit "error", .str text)]) := by
  unfold handleToolCallWith tryCatch
  split
  · next r hbody =>
    refine ⟨r, rfl, ?_⟩
    simp only at hbody
    split at hbody
    · exact absurd hbody (by simp)
    · next args _ =>
      split at hbody
      · exact Or.inl ⟨args, Or.inl hbody⟩
      · split at hbody
        · exact Or.inl ⟨args, Or.inr (Or.inl hbody)⟩
        · split at hbody
          · exact Or.inl ⟨args, Or.inr (Or.inr hbody)⟩
          · right
            injection hbody with hbody
            exact ⟨_, hbody.symm⟩
  · next e _ => exact ⟨errorResult e, rfl, Or.inr ⟨_, rfl⟩⟩

end Agent

namespace Agent

/-! ## C3: the system turn and the append-only log -/

theorem noSystem_nil : NoSystem [] := by
  intro t ht
  simp at ht

theorem noSystem_append {a b : List Turn} (ha : NoSystem a) (hb : NoSystem b) :
    NoSystem (a ++ b) := by
  intro t ht
  rcases List.mem_append.mp ht with h | h
  · exact ha t h
  · exact hb t h

theorem dispatchLoop_appends (envs : Nat → Env) (conv : List Turn) (tcs : List ToolCall) :
    ∃ turns, (dispatchLoop envs conv tcs).1 = conv ++ turns ∧ NoSystem turns := by
  obtain ⟨turns, h1, _, _, h4⟩ := dispatchLoop_spec envs conv tcs
  refine ⟨turns, h1, ?_⟩
  intro t ht
  obtain ⟨i, hi⟩ := List.getElem?_of_mem ht
  obtain ⟨tc, result, _, _, hc⟩ := h4 i t hi
  rw [hc]
  show lit "tool" ≠ lit "system"
  decide

theorem pushAssistant_appends (conv : List Turn) (content : JsStr) :
    ∃ turns, pushAssistant conv content = conv ++ turns ∧ NoSystem turns := by
  unfold pushAssistant
  split
  · exact ⟨[], by simp, noSystem_nil⟩
  · refine ⟨_, rfl, ?_⟩
    intro t ht
    simp at ht
    rw [ht]
    show lit "assistant" ≠ lit "system"
    decide

theorem agentStep_appends (fuel : Nat) (w : Nat → Nat → Env) (conv : List Turn) :
    ∃ turns, (agentStep fuel w conv).conv = conv ++ turns ∧ NoSystem turns := by
  induction fuel generalizing w conv with
  | zero => exact ⟨[], by simp [agentStep], noSystem_nil⟩
  | succ n ih =>
    obtain ⟨t1, h1, n1⟩ := pushAssistant_appends conv (callLLM (w 0 0) conv).content
    unfold agentStep
    simp only
    split
    · exact ⟨t1, h1, n1⟩
    · obtain ⟨t2, h2, n2⟩ := dispatchLoop_appends (w 0)
        (pushAssistant conv (callLLM (w 0 0) conv).content) (callLLM (w 0 0) conv).tool_calls
      split
      · next conv2 e heq =>
        rw [heq] at h2
        simp only at h2
        exact ⟨t1 ++ t2, by simp [h2, h1], noSystem_append n1 n2⟩
      · next conv2 heq =>
        rw [heq] at h2
        simp only at h2
        obtain ⟨t3, h3, n3⟩ := ih (fun c => w (c + 1)) conv2
        refine ⟨t1 ++ t2 ++ t3, ?_, noSystem_append (noSystem_append n1 n2) n3⟩
        show (agentStep n (fun c => w (c + 1)) conv2).conv = _
        rw [h3, h2, h1]
        simp

theorem onSend_appends (fuel : Nat) (w : Nat → Nat → Env) (input : JsStr) (conv : List Turn) :
    ∃ turns, (onSend fuel w input conv).conv = conv ++ turns ∧ NoSystem turns := by
  unfold onSend
  split
  · exact ⟨[], by simp, noSystem_nil⟩
  · obtain ⟨t, h, n⟩ := agentStep_appends fuel w
      (conv ++ [{ role := lit "user", content := trim input, tool_call_id := none, name := none }])
    refine ⟨(⟨lit "user", trim input, none, none⟩ : Turn) :: t, by simp [h], ?_⟩
    intro x hx
    rcases List.mem_cons.mp hx with hx | hx
    · rw [hx]
      show lit "user" ≠ lit "system"
      decide
    · exact n x hx

theorem reachable_shape (conv : List Turn) (h : Reachable conv) :
    ∃ rest, conv = systemPrompt :: rest ∧ NoSystem rest := by
  induction h with
  | init => exact ⟨[], rfl, noSystem_nil⟩
  | send fuel w input conv _ ih =>
    obtain ⟨rest, hc, hn⟩ := ih
    obtain ⟨t, ht, hnt⟩ := onSend_appends fuel w input conv
    exact ⟨rest ++ t, by rw [ht, hc]; rfl, noSystem_append hn hnt⟩
  | step fuel w conv _ ih =>
    obtain ⟨rest, hc, hn⟩ := ih
    obtain ⟨t, ht, hnt⟩ := agentStep_appends fuel w conv
    exact ⟨rest ++ t, by rw [ht, hc]; rfl, noSystem_append hn hnt⟩

/-- C3: in every conversation reachable from `[systemPrompt]` by `onSend` and
`agentStep` (in any environment, for any number of cycles, whether the run
returned, threw or is still looping), the first turn is the system prompt, no
other turn has role `system`, and running `onSend` or `agentStep` from it only
appends: the conversation before is an initial segment of the one after. -/
theorem C3_system_turn_first_append_only (conv : List Turn) (h : Reachable conv) :
    conv[0]? = some systemPrompt ∧
    (∀ (i : Nat) (t : Turn), conv[i]? = some t → t.role = lit "system" → i = 0) ∧
    (∀ fuel w input, conv <+: (onSend fuel w input conv).conv) ∧
    (∀ fuel w, conv <+: (agentStep fuel w conv).conv) := by
  obtain ⟨rest, hc, hn⟩ := reachable_shape conv h
  refine ⟨by rw [hc]; simp, ?_, ?_, ?_⟩
  · intro i t hi hrole
    cases i with
    | zero => rfl
    | succ j =>
      rw [hc] at hi
      simp at hi
      exact absurd hrole (hn t (List.getElem?_mem hi))
  · intro fuel w input
    obtain ⟨t, ht, _⟩ := onSend_appends fuel w input conv
    exact ⟨t, ht.symm⟩
  · intro fuel w
    obtain ⟨t, ht, _⟩ := agentStep_appends fuel w conv
    exact ⟨t, ht.symm⟩

/-- C3, an instance: the conversation after the user sends `run code` with no
credentials configured, three cycles into the loop. -/
theorem C3_system_turn_witness :
    (onSend 3 (fun _ _ => offlineEnv) (lit "run code") [systemPrompt]).conv[0]?
      = some systemPrompt ∧
    (∀ (i : Nat) (t : Turn),
      (onSend 3 (fun _ _ => offlineEnv) (lit "run code") [systemPrompt]).conv[i]? = some t →
      t.role = lit "system" → i = 0) ∧
    (∀ fuel w input,
      (onSend 3 (fun _ _ => offlineEnv) (lit "run code") [systemPrompt]).conv <+:
        (onSend fuel w input
          (onSend 3 (fun _ _ => offlineEnv) (lit "run code") [systemPrompt]).conv).conv) ∧
    (∀ fuel w,
      (onSend 3 (fun _ _ => offlineEnv) (lit "run code") [systemPrompt]).conv <+:
        (agentStep fuel w
          (onSend 3 (fun _ _ => offlineEnv) (lit "run code") [systemPrompt]).conv).conv) :=
  C3_system_turn_first_append_only _
    (Reachable.send 3 (fun _ _ => offlineEnv) (lit "run code") [systemPrompt] Reachable.init)

end Agent

namespace Agent

/-! ## C4: the loop has no cycle limit -/

theorem agentStep_loops (w : Nat → Nat → Env) (P : List Turn → Prop)
    (hstep : ∀ c conv, P conv →
      (callLLM (w c 0) conv).tool_calls ≠ [] ∧
      (dispatchLoop (w c) (pushAssistant conv (callLLM (w c 0) conv).content)
        (callLLM (w c 0) conv).tool_calls).2 = none ∧
      P (dispatchLoop (w c) (pushAssistant conv (callLLM (w c 0) conv).content)
        (callLLM (w c 0) conv).tool_calls).1) :
    ∀ fuel conv, P conv →
      (agentStep fuel w conv).status = .looping ∧ (agentStep fuel w conv).calls = fuel := by
  intro fuel
  induction fuel generalizing w with
  | zero => intro conv _; exact ⟨rfl, rfl⟩
  | succ n ih =>
    intro conv hP
    obtain ⟨h1, h2, h3⟩ := hstep 0 conv hP
    have hne : (callLLM (w 0 0) conv).tool_calls.isEmpty = false := by
      cases hq : (callLLM (w 0 0) conv).tool_calls with
      | nil => exact absurd hq h1
      | cons a b => rfl
    have ih2 := ih (fun c => w (c + 1)) (fun c conv hc => hstep (c + 1) conv hc) _ h3
    unfold agentStep
    simp only [hne]
    generalize hd : dispatchLoop (w 0) (pushAssistant conv (callLLM (w 0 0) conv).content)
      (callLLM (w 0 0) conv).tool_calls = d at h2 ih2
    obtain ⟨c2, e2⟩ := d
    simp only at h2
    subst h2
    simp only at ih2 ⊢
    refine ⟨ih2.1, ?_⟩
    rw [ih2.2]
    simp

/-- C4 (amended): `agentStep` has no cycle limit.  Against a model that asks
for a tool call on every response (with tool results whose cards render), the
loop is still running after every number of model-call cycles: for every `k`,
after `k` cycles it has made `k` model calls and has neither returned nor
reported anything. -/
theorem C4_no_cycle_limit (w : Nat → Nat → Env)
    (hcalls : ∀ c conv, (callLLM (w c 0) conv).tool_calls ≠ [])
    (hrender : ∀ c conv,
      (dispatchLoop (w c) (pushAssistant conv (callLLM (w c 0) conv).content)
        (callLLM (w c 0) conv).tool_calls).2 = none)
    (k : Nat) (conv : List Turn) :
    (agentStep k w conv).status = .looping ∧ (agentStep k w conv).calls = k :=
  agentStep_loops w (fun _ => True)
    (fun c conv _ => ⟨hcalls c conv, hrender c conv, trivial⟩) k conv trivial

theorem chatty_calls (conv : List Turn) :
    callLLM chattyEnv conv = { content := [], tool_calls := [strayCall] } := rfl

theorem chatty_dispatch (conv : List Turn) :
    (dispatchLoop (fun _ => chattyEnv) conv [strayCall]).2 = none := rfl

/-- C4, an instance: an endpoint that asks for a tool on every response; after
seven cycles the loop is still running. -/
theorem C4_no_cycle_limit_witness :
    (agentStep 7 (fun _ _ => chattyEnv) [systemPrompt]).status = .looping ∧
    (agentStep 7 (fun _ _ => chattyEnv) [systemPrompt]).calls = 7 :=
  C4_no_cycle_limit (fun _ _ => chattyEnv)
    (fun _ conv => by rw [chatty_calls conv]; simp)
    (fun _ conv => by rw [chatty_calls conv]; exact chatty_dispatch _)
    7 [systemPrompt]

theorem lastUser_append (conv : List Turn) (t : Turn) (h : t.role ≠ lit "user") :
    lastUser (conv ++ [t]) = lastUser conv := by
  unfold lastUser
  rw [List.reverse_append]
  simp only [List.reverse_cons, List.reverse_nil, List.nil_append, List.singleton_append]
  rw [List.find?_cons_of_neg]
  simpa using h

theorem lastUser_pushAssistant (conv : List Turn) (content : JsStr) :
    lastUser (pushAssistant conv content) = lastUser conv := by
  unfold pushAssistant
  split
  · rfl
  · exact lastUser_append conv _ (by
      show lit "assistant" ≠ lit "user"
      decide)

theorem mock_calls (conv : List Turn) (h : lastUser conv = lit "run code") :
    callLLM offlineEnv conv
      = { content := lit "Executing JavaScript in the sandbox.", tool_calls := [codeCall] } := by
  have h1 : callLLM offlineEnv conv = mockLLM conv := rfl
  rw [h1]
  unfold mockLLM
  simp only [h]
  rfl

theorem mock_dispatch (conv : List Turn) :
    ∃ t, t.role = lit "tool" ∧
      dispatchLoop (fun _ => offlineEnv) conv [codeCall] = (conv ++ [t], none) :=
  ⟨_, rfl, rfl⟩

/-- C4 as stated fails, on the program's own stand-in: with no credentials the
user sends `run code`; `mockLLM` answers every call with a tool call, and there
is no number of cycles after which the loop has stopped, be it by returning or
by reporting a limit. -/
theorem C4_counterexample :
    ¬ ∃ n, (onSend n (fun _ _ => offlineEnv) (lit "run code") [systemPrompt]).status
      ≠ .looping := by
  rintro ⟨n, hn⟩
  apply hn
  have hsend : onSend n (fun _ _ => offlineEnv) (lit "run code") [systemPrompt]
      = agentStep n (fun _ _ => offlineEnv)
          [systemPrompt, ⟨lit "user", lit "run code", none, none⟩] := by rfl
  rw [hsend]
  refine (agentStep_loops (fun _ _ => offlineEnv) (fun conv => lastUser conv = lit "run code")
    ?_ n _ (by rfl)).1
  intro _ conv hP
  rw [mock_calls conv hP]
  obtain ⟨t, ht, hd⟩ := mock_dispatch
    (pushAssistant conv (lit "Executing JavaScript in the sandbox."))
  refine ⟨by simp, ?_, ?_⟩
  · show (dispatchLoop (fun _ => offlineEnv) _ [codeCall]).2 = none
    rw [hd]
  · show lastUser (dispatchLoop (fun _ => offlineEnv) _ [codeCall]).1 = lit "run code"
    rw [hd]
    show lastUser (_ ++ [t]) = _
    rw [lastUser_append _ t (by rw [ht]; decide), lastUser_pushAssistant, hP]

end Agent

namespace Agent

/-! ## C5: unregistered tool names -/

/-- C5 (amended): for every tool call whose name is none of `google_search`,
`ai_pipe`, `execute_javascript` (a missing name included), `handleToolCall`
does not throw; it returns exactly the object with the single member `error`
holding `Unknown tool: ` followed by the name (`undefined` for a missing name)
when the arguments text is missing, empty or valid JSON, and the object whose
`error` member is the message of the parse error when the arguments text is not
valid JSON. -/
theorem C5_unknown_tool_result (h : Handlers) (tc : ToolCall)
    (hname : ∀ n, tc.function.bind (fun f => f.name) = some n →
      n ≠ lit "google_search" ∧ n ≠ lit "ai_pipe" ∧ n ≠ lit "execute_javascript") :
    (∀ args, parseArguments (tc.function.bind (fun f => f.arguments)) = .ok args →
      handleToolCallWith h tc = .ok [(lit "error",
        .str (lit "Unknown tool: " ++ nameText (tc.function.bind (fun f => f.name))))]) ∧
    (∀ e, parseArguments (tc.function.bind (fun f => f.arguments)) = .error e →
      handleToolCallWith h tc = .ok [(lit "error", .str syntaxError.message)]) := by
  constructor
  · intro args hargs
    unfold handleToolCallWith tryCatch
    simp only [hargs]
    have h1 : tc.function.bind (fun f => f.name) ≠ some (lit "google_search") :=
      fun hc => (hname _ hc).1 rfl
    have h2 : tc.function.bind (fun f => f.name) ≠ some (lit "ai_pipe") :=
      fun hc => (hname _ hc).2.1 rfl
    have h3 : tc.function.bind (fun f => f.name) ≠ some (lit "execute_javascript") :=
      fun hc => (hname _ hc).2.2 rfl
    simp only [if_neg h1, if_neg h2, if_neg h3]
  · intro e he
    have hes : e = syntaxError := by
      unfold parseArguments at he
      split at he
      · exact absurd he (by simp)
      · split at he
        · exact absurd he (by simp)
        · split at he
          · exact absurd he (by simp)
          · injection he with he
            exact he.symm
    unfold handleToolCallWith tryCatch
    simp only [he, hes]
    rfl

/-- C5, an instance: the tool name `foo` without arguments. -/
theorem C5_unknown_tool_witness :
    (∀ args, parseArguments (strayCall.function.bind (fun f => f.arguments)) = .ok args →
      handleToolCallWith (handlers offlineEnv) strayCall = .ok [(lit "error",
        .str (lit "Unknown tool: " ++ nameText (strayCall.function.bind (fun f => f.name))))]) ∧
    (∀ e, parseArguments (strayCall.function.bind (fun f => f.arguments)) = .error e →
      handleToolCallWith (handlers offlineEnv) strayCall
        = .ok [(lit "error", .str syntaxError.message)]) :=
  C5_unknown_tool_result (handlers offlineEnv) strayCall (by
    intro n hn
    have : n = lit "foo" := by
      have h2 : some (lit "foo") = some n := hn
      injection h2 with h2
      exact h2.symm
    subst this
    decide)

/-- C5 as stated fails: for the name `foo` the text starts with a capital
letter, `Unknown tool: foo`, not `unknown tool: foo`. -/
theorem C5_counterexample :
    handleToolCall offlineEnv strayCall = .ok [(lit "error", .str (lit "Unknown tool: foo"))] ∧
    lit "Unknown tool: foo" ≠ lit "unknown tool: foo" :=
  ⟨by rfl, by decide⟩

end Agent

namespace Agent

/-! ## C6: the mock fallback of `tool_ai_pipe` -/

/-- C6: with `aiPipeUrl` and `aiPipeToken` empty, for every argument object
whose `data` is a string (and whose `workflow` converts to a string `wf`),
`tool_ai_pipe` returns `{ workflow: wf, output, confidence: 0.42 }`, where
`output` is `data` itself when `data` has at most 160 code units and otherwise
the first 157 code units of `data` followed by `...`; in the second case the
output has exactly 160 code units, and in both cases at most 160. -/
theorem C6_ai_pipe_mock_fallback (cfg : Config) (net : Net) (args : JsVal) (data wf : JsStr)
    (hurl : cfg.aiPipeUrl = []) (htoken : cfg.aiPipeToken = [])
    (hdata : getOpt args "data" = .str data)
    (hwf : toStr (jsOr (getOpt args "workflow") (.str (lit "summarize"))) = .ok wf) :
    ∃ output : JsStr,
      tool_ai_pipe cfg net args
        = .ok [(lit "workflow", .str wf), (lit "output", .str output),
            (lit "confidence", .num (.fin false [4, 2] 0))] ∧
      (data.length ≤ 160 → output = data) ∧
      (160 < data.length → output = data.take 157 ++ lit "..." ∧ output.length = 160) ∧
      output.length ≤ 160 := by
  have hd : toStr (jsOr (getOpt args "data") (.str [])) = .ok data := by
    rw [hdata]
    cases data with
    | nil => rfl
    | cons a r => rfl
  refine ⟨if data.length > 160 then data.take 157 ++ lit "..." else data, ?_, ?_, ?_, ?_⟩
  · unfold tool_ai_pipe
    simp only [hwf, hd, hurl, htoken]
    rfl
  · intro h
    rw [if_neg (by omega)]
  · intro h
    rw [if_pos h]
    refine ⟨rfl, ?_⟩
    rw [List.length_append, List.length_take]
    have : (lit "...").length = 3 := by decide
    omega
  · split
    · rw [List.length_append, List.length_take]
      have : (lit "...").length = 3 := by decide
      omega
    · omega

/-- C6, an instance: no credentials, `data` of two hundred code units. -/
theorem C6_ai_pipe_mock_witness :
    ∃ output : JsStr,
      tool_ai_pipe offlineEnv.cfg deadNet (.obj [(lit "data", .str (List.replicate 200 97))])
        = .ok [(lit "workflow", .str (lit "summarize")), (lit "output", .str output),
            (lit "confidence", .num (.fin false [4, 2] 0))] ∧
      ((List.replicate 200 97).length ≤ 160 → output = List.replicate 200 97) ∧
      (160 < (List.replicate 200 97).length →
        output = (List.replicate 200 97).take 157 ++ lit "..." ∧ output.length = 160) ∧
      output.length ≤ 160 :=
  C6_ai_pipe_mock_fallback offlineEnv.cfg deadNet
    (.obj [(lit "data", .str (List.replicate 200 97))])
    (List.replicate 200 97) (lit "summarize") rfl rfl (by rfl) (by rfl)

end Agent

namespace Agent

/-! ## Decimal digits -/

theorem digitsAux_acc (fuel n : Nat) (acc : List Nat) :
    digitsAux fuel n acc = digitsAux fuel n [] ++ acc := by
  induction fuel generalizing n acc with
  | zero => simp [digitsAux]
  | succ f ih =>
    unfold digitsAux
    split
    · simp
    · rw [ih (n / 10) (n % 10 :: acc), ih (n / 10) [n % 10]]
      simp

theorem digitsAux_step (fuel n : Nat) (h : 10 ≤ n) :
    digitsAux (fuel + 1) n [] = digitsAux fuel (n / 10) [] ++ [n % 10] := by
  conv => lhs; unfold digitsAux
  rw [if_neg (by omega)]
  exact digitsAux_acc _ _ _

theorem digitsAux_small (fuel n : Nat) (h : n < 10) : digitsAux (fuel + 1) n [] = [n] := by
  unfold digitsAux
  rw [if_pos h]

theorem digitsAux_lt (fuel n : Nat) (h : n < fuel) : ∀ d ∈ digitsAux fuel n [], d < 10 := by
  induction fuel generalizing n with
  | zero => omega
  | succ f ih =>
    by_cases hn : n < 10
    · rw [digitsAux_small f n hn]
      intro d hd
      simp at hd
      omega
    · rw [digitsAux_step f n (by omega)]
      intro d hd
      rcases List.mem_append.mp hd with hd | hd
      · exact ih (n / 10) (by omega) d hd
      · simp at hd
        omega

theorem natDigits_lt (n : Nat) : ∀ d ∈ natDigits n, d < 10 :=
  digitsAux_lt (n + 1) n (by omega)

theorem digitsAux_ne_nil (fuel n : Nat) (h : n < fuel) : digitsAux fuel n [] ≠ [] := by
  cases fuel with
  | zero => omega
  | succ f =>
    by_cases hn : n < 10
    · rw [digitsAux_small f n hn]; simp
    · rw [digitsAux_step f n (by omega)]; simp

theorem natDigits_ne_nil (n : Nat) : natDigits n ≠ [] :=
  digitsAux_ne_nil (n + 1) n (by omega)

theorem digitsValue_append (a : List Nat) (u : Nat) :
    digitsValue (a ++ [u]) = 10 * digitsValue a + (u - 48) := by
  unfold digitsValue
  rw [List.foldl_append]
  rfl

theorem digitsValue_digitsAux (fuel n : Nat) (h : n < fuel) :
    digitsValue ((digitsAux fuel n []).map digitUnit) = n := by
  induction fuel generalizing n with
  | zero => omega
  | succ f ih =>
    by_cases hn : n < 10
    · rw [digitsAux_small f n hn]
      simp [digitsValue, digitUnit]
    · rw [digitsAux_step f n (by omega), List.map_append, List.map_singleton,
        digitsValue_append, ih (n / 10) (by omega)]
      simp only [digitUnit]
      omega

theorem digitsValue_natText (n : Nat) : digitsValue (natText n) = n :=
  digitsValue_digitsAux (n + 1) n (by omega)

theorem digitsAux_length (fuel n k : Nat) (h : n < fuel) (hk : n < 10 ^ (k + 1)) :
    (digitsAux fuel n []).length ≤ k + 1 := by
  induction fuel generalizing n k with
  | zero => omega
  | succ f ih =>
    by_cases hn : n < 10
    · rw [digitsAux_small f n hn]
      simp
    · rw [digitsAux_step f n (by omega)]
      cases k with
      | zero => simp at hk; omega
      | succ j =>
        have h2 : n / 10 < 10 ^ (j + 1) := by
          rw [Nat.div_lt_iff_lt_mul (by omega)]
          calc n < 10 ^ (j + 1 + 1) := hk
            _ = 10 ^ (j + 1) * 10 := by rw [pow_succ]
        have := ih (n / 10) j (by omega) h2
        simp
        omega

theorem natDigits_length (n k : Nat) (hk : n < 10 ^ (k + 1)) : (natDigits n).length ≤ k + 1 :=
  digitsAux_length (n + 1) n k (by omega) hk

theorem isDigitUnit_digitUnit (d : Nat) (h : d < 10) : isDigitUnit (digitUnit d) = true := by
  simp [isDigitUnit, digitUnit]
  omega

theorem takeWhile_digits (ds : List Nat) (h : ∀ d ∈ ds, d < 10) (rest : JsStr)
    (hr : ∀ u, rest.head? = some u → isDigitUnit u = false) :
    (ds.map digitUnit ++ rest).takeWhile isDigitUnit = ds.map digitUnit ∧
    (ds.map digitUnit ++ rest).dropWhile isDigitUnit = rest := by
  induction ds with
  | nil =>
    cases rest with
    | nil => simp
    | cons u r =>
      have := hr u rfl
      simp [List.takeWhile, List.dropWhile, this]
  | cons d t ih =>
    have hd := isDigitUnit_digitUnit d (h d (by simp))
    have := ih (fun x hx => h x (by simp [hx]))
    simp [List.takeWhile, List.dropWhile, hd, this]

theorem stripTrailingZeros_pad (ds : List Nat) :
    ∃ z, ds = stripTrailingZeros ds ++ List.replicate z 0 := by
  unfold stripTrailingZeros
  have h := List.takeWhile_append_dropWhile (fun x => x == 0) ds.reverse
  have h2 : ds = (List.dropWhile (fun x => x == 0) ds.reverse).reverse ++
      (List.takeWhile (fun x => x == 0) ds.reverse).reverse := by
    rw [← List.reverse_append, h, List.reverse_reverse]
  have h3 : ∀ x ∈ (List.takeWhile (fun x => x == 0) ds.reverse).reverse, x = 0 := by
    intro x hx
    have := List.mem_takeWhile_imp (List.mem_reverse.mp hx)
    simpa using this
  refine ⟨(List.takeWhile (fun x => x == 0) ds.reverse).reverse.length, ?_⟩
  rw [← List.eq_replicate_of_mem h3]
  exact h2

end Agent

namespace Agent

/-! ## C7: the effective result limit -/

theorem natDigits_not_all_zero (m : Nat) (hm : 0 < m) :
    (natDigits m).all (· == 0) = false := by
  by_contra hc
  have hall : ∀ d ∈ natDigits m, d = 0 := by
    simpa using hc
  have hv := digitsValue_natText m
  have hz : ∀ ds : List Nat, (∀ d ∈ ds, d = 0) → digitsValue (ds.map digitUnit) = 0 := by
    intro ds
    induction ds using List.reverseRecOn with
    | nil => intro _; rfl
    | append_singleton a d ih =>
      intro h
      rw [List.map_append, List.map_singleton, digitsValue_append,
        ih (fun x hx => h x (by simp [hx])), h d (by simp)]
      rfl
  unfold natText at hv
  rw [hz _ hall] at hv
  omega

theorem strip_not_all_zero (ds : List Nat) (h : ds.all (· == 0) = false) :
    (stripTrailingZeros ds).all (· == 0) = false := by
  obtain ⟨z, hz⟩ := stripTrailingZeros_pad ds
  by_contra hc
  have hall : ∀ d ∈ stripTrailingZeros ds, d = 0 := by simpa using hc
  have : ds.all (· == 0) = true := by
    rw [hz]
    simp only [List.all_append, Bool.and_eq_true, List.all_eq_true, beq_iff_eq]
    refine ⟨hall, ?_⟩
    intro x hx
    exact (List.mem_replicate.mp hx).2
  rw [this] at h
  exact absurd h (by simp)

theorem numToString_ofInt (n : Int) (hn : n ≠ 0) (hlt : n.natAbs < 10 ^ 21) :
    numToString (JsNum.ofInt n) = (if n < 0 then [45] else []) ++ natText n.natAbs := by
  have hm : 0 < n.natAbs := Int.natAbs_pos.mpr hn
  obtain ⟨z, hz⟩ := stripTrailingZeros_pad (natDigits n.natAbs)
  have hlen := natDigits_length n.natAbs 20 hlt
  have hnz := strip_not_all_zero _ (natDigits_not_all_zero n.natAbs hm)
  have hl : (natDigits n.natAbs).length = (stripTrailingZeros (natDigits n.natAbs)).length + z := by
    conv => lhs; rw [hz]
    simp
  unfold JsNum.ofInt
  rw [if_neg hn]
  unfold numToString
  simp only [hnz]
  have hcond : ((stripTrailingZeros (natDigits n.natAbs)).length : Int)
      ≤ ((natDigits n.natAbs).length : Int) ∧ ((natDigits n.natAbs).length : Int) ≤ 21 := by
    constructor <;> omega
  simp only [if_pos hcond]
  have hsub : (((natDigits n.natAbs).length : Int)
      - ((stripTrailingZeros (natDigits n.natAbs)).length : Int)).toNat = z := by
    omega
  rw [hsub]
  have hbody : (stripTrailingZeros (natDigits n.natAbs)).map digitUnit ++ List.replicate z 48
      = natText n.natAbs := by
    unfold natText
    conv => rhs; rw [hz]
    rw [List.map_append, List.map_replicate]
    rfl
  rw [hbody]
  by_cases hneg : n < 0
  · simp [hneg]
  · simp [hneg]

theorem parseIntStr_intText (n : Int) :
    parseIntStr ((if n < 0 then [45] else []) ++ natText n.natAbs) = some n := by
  have hd := natDigits_lt n.natAbs
  have hne := natDigits_ne_nil n.natAbs
  have htw := (takeWhile_digits (natDigits n.natAbs) hd [] (by simp)).1
  rw [List.append_nil] at htw
  have hv := digitsValue_natText n.natAbs
  obtain ⟨d, r, hdr⟩ := List.exists_cons_of_ne_nil hne
  have hd0 : d < 10 := hd d (by rw [hdr]; simp)
  have hnt : natText n.natAbs = digitUnit d :: r.map digitUnit := by
    unfold natText; rw [hdr]; rfl
  have hws : isWhiteSpace (digitUnit d) = false := by
    have : ∀ k, k < 10 → isWhiteSpace (digitUnit k) = false := by decide
    exact this d hd0
  by_cases hneg : n < 0
  · unfold parseIntStr
    simp only [hneg, if_true]
    have h1 : List.dropWhile isWhiteSpace ([45] ++ natText n.natAbs) = 45 :: natText n.natAbs := by
      simp [List.dropWhile, isWhiteSpace]
    rw [h1]
    simp only [List.head?_cons, true_or, if_true, List.tail_cons]
    unfold natText at hv ⊢
    rw [htw, hv]
    simp only [List.isEmpty_eq_true, List.map_eq_nil_iff, hne, if_false]
    congr 1
    omega
  · unfold parseIntStr
    simp only [hneg, if_false, List.nil_append]
    have h1 : List.dropWhile isWhiteSpace (natText n.natAbs) = natText n.natAbs := by
      rw [hnt]
      simp [List.dropWhile, hws]
    rw [h1]
    have h45 : (natText n.natAbs).head? ≠ some 45 := by
      rw [hnt]; simp [digitUnit]; omega
    have h43 : (natText n.natAbs).head? ≠ some 43 := by
      rw [hnt]; simp [digitUnit]; omega
    simp only [h45, h43, or_self, if_false]
    unfold natText at hv ⊢
    rw [htw, hv]
    simp only [List.isEmpty_eq_true, List.map_eq_nil_iff, hne, if_false]
    congr 1
    omega

theorem truthy_ofInt (n : Int) (hn : n ≠ 0) : truthy (.num (JsNum.ofInt n)) = true := by
  have hm : 0 < n.natAbs := Int.natAbs_pos.mpr hn
  have hnz := strip_not_all_zero _ (natDigits_not_all_zero n.natAbs hm)
  unfold JsNum.ofInt
  rw [if_neg hn]
  simp [truthy, JsNum.falsy]
  simpa using hnz

/-- C7 (amended): the effective limit of `tool_google_search` is `5` when the
`limit` argument is absent and also when it is `0`; for every other integer
`limit` of magnitude below `10²¹` it is that integer clamped to `[1, 10]`,
`min(10, max(1, limit))`. -/
theorem C7_effective_limit (args : JsVal) :
    (getOpt args "limit" = .undefined → searchLimit args = .ok (some 5)) ∧
    (getOpt args "limit" = .num (JsNum.ofInt 0) → searchLimit args = .ok (some 5)) ∧
    (∀ n : Int, n ≠ 0 → n.natAbs < 10 ^ 21 → getOpt args "limit" = .num (JsNum.ofInt n) →
      searchLimit args = .ok (some (min 10 (max 1 n)))) := by
  refine ⟨?_, ?_, ?_⟩
  · intro h
    unfold searchLimit
    rw [h]
    rfl
  · intro h
    unfold searchLimit
    rw [h]
    rfl
  · intro n hn hlt h
    unfold searchLimit
    rw [h]
    have hj : jsOr (.num (JsNum.ofInt n)) five = .num (JsNum.ofInt n) := by
      unfold jsOr
      rw [truthy_ofInt n hn]
      rfl
    rw [hj]
    have hp : parseInt (.num (JsNum.ofInt n)) = .ok (some n) := by
      unfold parseInt
      simp only [toStr]
      rw [numToString_ofInt n hn hlt, parseIntStr_intText]
    rw [hp]
    rfl

/-- C7 as stated fails: for the supplied integer `0` the effective limit is
`5`, whereas `min(10, max(1, 0))` is `1`. -/
theorem C7_counterexample :
    searchLimit (.obj [(lit "limit", .num (JsNum.ofInt 0))]) = .ok (some 5) ∧
    min 10 (max 1 (0 : Int)) = 1 :=
  ⟨by rfl, by decide⟩

end Agent

namespace Agent

/-! ## C8: the search fallback without matches -/

theorem sliceEnd_nil {α : Type} (e : Option Int) : sliceEnd ([] : List α) e = [] := by
  unfold sliceEnd
  cases e with
  | none => rfl
  | some x => simp

theorem jsOr_empty_array (v : JsVal) (h : truthy v = false ∨ v = .arr []) :
    jsOr v (.arr []) = .arr [] := by
  unfold jsOr
  rcases h with h | h
  · rw [h]; rfl
  · rw [h]; rfl

theorem fallbackSearch_no_matches (net : Net) (query : JsStr) (limit : Option Int) (j : JsVal)
    (hj : fetchJson (net.ddg query) = .ok j) (hnn : nullish j = false)
    (habs : truthy (getOpt j "AbstractText") = false)
    (hrel : truthy (getOpt j "RelatedTopics") = false ∨ getOpt j "RelatedTopics" = .arr [])
    (hwiki : ∀ enc wj, encodeURIComponent query = .ok enc → fetchJson (net.wiki enc) = .ok wj →
      truthy (getOpt (getOpt wj "query") "search") = false ∨
        getOpt (getOpt wj "query") "search" = .arr []) :
    (∃ e, fallbackSearch net query limit = .error e) ∨
    fallbackSearch net query limit
      = .ok [(lit "provider", .str (lit "fallback")), (lit "query", .str query),
          (lit "results", .arr [])] := by
  have hgp : getProp j "AbstractText" = .ok (getOpt j "AbstractText") := by
    unfold getProp
    rw [hnn]
    rfl
  unfold fallbackSearch
  simp only [hj, hgp, habs, Bool.false_eq_true, if_false, jsOr_empty_array _ hrel, forEachM]
  by_cases hb : belowLimit [] limit = true
  · simp only [hb, if_true]
    cases henc : encodeURIComponent query with
    | error e => exact Or.inl ⟨e, by simp⟩
    | ok enc =>
      cases hw : fetchJson (net.wiki enc) with
      | error e => exact Or.inl ⟨e, by simp only [hw]⟩
      | ok wj =>
        right
        simp only [hw, jsOr_empty_array _ (hwiki enc wj henc hw), sliceEnd_nil, forEachM]
  · right
    simp only [hb, Bool.false_eq_true, if_false, sliceEnd_nil]

theorem fetchJson_error (r : Except JsError Response) (e : JsError)
    (h : r = .error e ∨ ∃ resp, r = .ok resp ∧ resp.json = .error e) :
    fetchJson r = .error e := by
  rcases h with h | ⟨resp, h1, h2⟩
  · rw [h]; rfl
  · rw [h1]
    show resp.json = .error e
    exact h2

theorem fallbackSearch_ddg_fails (net : Net) (query : JsStr) (limit : Option Int) (e : JsError)
    (h : fetchJson (net.ddg query) = .error e) :
    fallbackSearch net query limit = .error e := by
  unfold fallbackSearch
  rw [h]

theorem fallbackSearch_stages (net : Net) (query : JsStr) (limit : Option Int) (j : JsVal)
    (results : List JsVal) (hj : fetchJson (net.ddg query) = .ok j)
    (hr : instantResults j limit = .ok results) :
    fallbackSearch net query limit =
      match (if belowLimit results limit then
          match encodeURIComponent query with
          | .error e => .error e
          | .ok enc =>
            match fetchJson (net.wiki enc) with
            | .error e => .error e
            | .ok wj =>
              match jsOr (getOpt (getOpt wj "query") "search") (.arr []) with
              | .arr ss =>
                forEachM wikiHit results
                  (sliceEnd ss (limit.map (fun l => l - (results.length : Int))))
              | .str _ =>
                .error (typeError "(intermediate value).slice(...).forEach is not a function")
              | _ => .error (typeError "(intermediate value).slice is not a function")
        else .ok results : Except JsError (List JsVal)) with
      | .error e => .error e
      | .ok results2 =>
        .ok [(lit "provider", .str (lit "fallback")), (lit "query", .str query),
          (lit "results", .arr (sliceEnd results2 limit))] := by
  unfold fallbackSearch
  unfold instantResults at hr
  simp only [hj]
  cases hgp : getProp j "AbstractText" with
  | error e => simp only [hgp] at hr; cases hr
  | ok abstract =>
    simp only [hgp] at hr ⊢
    rw [hr]

theorem fallbackSearch_wiki_fails (net : Net) (query : JsStr) (limit : Option Int) (j : JsVal)
    (results : List JsVal) (hj : fetchJson (net.ddg query) = .ok j)
    (hr : instantResults j limit = .ok results) (hb : belowLimit results limit = true)
    (hw : ∀ enc, encodeURIComponent query = .ok enc → ∃ e, fetchJson (net.wiki enc) = .error e) :
    ∃ e, fallbackSearch net query limit = .error e := by
  rw [fallbackSearch_stages net query limit j results hj hr]
  simp only [hb, if_true]
  cases henc : encodeURIComponent query with
  | error e => exact ⟨e, rfl⟩
  | ok enc =>
    obtain ⟨e, he⟩ := hw enc henc
    exact ⟨e, by simp only [he]⟩

theorem fallbackSearch_without_wiki (net : Net) (query : JsStr) (limit : Option Int) (j : JsVal)
    (results : List JsVal) (hj : fetchJson (net.ddg query) = .ok j)
    (hr : instantResults j limit = .ok results) (hb : belowLimit results limit = false) :
    fallbackSearch net query limit
      = .ok [(lit "provider", .str (lit "fallback")), (lit "query", .str query),
          (lit "results", .arr (sliceEnd results limit))] := by
  rw [fallbackSearch_stages net query limit j results hj hr]
  simp only [hb, Bool.false_eq_true, if_false]

/-- C8: with no search credentials (`googleCseId` or `googleApiKey` empty), for
every query text (and a `limit` argument that converts), `tool_google_search`
does not throw and returns exactly `{ provider: "fallback", query, results: [] }`
with the requested query text in each of these cases: (1) the instant-answer
request is rejected or its body does not parse; (2) the instant-answer reply
`j` came, the `results` gathered from it are fewer than the limit, so that the
encyclopedia request is made, and that request is rejected, or its body does not
parse, or its address cannot be encoded; (3) anything else in the fallback block
throws; (4) the instant-answer response has no abstract and no related topics and
the encyclopedia response, if it comes, has no hits. -/
theorem C8_fallback_without_matches (cfg : Config) (net : Net) (args : JsVal) (query : JsStr)
    (limit : Option Int)
    (hcred : cfg.googleCseId = [] ∨ cfg.googleApiKey = [])
    (hq : getOpt args "query" = .str query) (hl : searchLimit args = .ok limit) :
    (∀ e, (net.ddg query = .error e ∨ ∃ resp, net.ddg query = .ok resp ∧ resp.json = .error e) →
      tool_google_search cfg net args
        = .ok [(lit "provider", .str (lit "fallback")), (lit "query", .str query),
            (lit "results", .arr [])]) ∧
    (∀ j results, fetchJson (net.ddg query) = .ok j → instantResults j limit = .ok results →
      belowLimit results limit = true →
      (∀ enc, encodeURIComponent query = .ok enc →
        ∃ e, net.wiki enc = .error e ∨ ∃ resp, net.wiki enc = .ok resp ∧ resp.json = .error e) →
      tool_google_search cfg net args
        = .ok [(lit "provider", .str (lit "fallback")), (lit "query", .str query),
            (lit "results", .arr [])]) ∧
    ((∃ e, fallbackSearch net query limit = .error e) →
      tool_google_search cfg net args
        = .ok [(lit "provider", .str (lit "fallback")), (lit "query", .str query),
            (lit "results", .arr [])]) ∧
    (∀ j, fetchJson (net.ddg query) = .ok j → nullish j = false →
      truthy (getOpt j "AbstractText") = false →
      (truthy (getOpt j "RelatedTopics") = false ∨ getOpt j "RelatedTopics" = .arr []) →
      (∀ enc wj, encodeURIComponent query = .ok enc → fetchJson (net.wiki enc) = .ok wj →
        truthy (getOpt (getOpt wj "query") "search") = false ∨
          getOpt (getOpt wj "query") "search" = .arr []) →
      tool_google_search cfg net args
        = .ok [(lit "provider", .str (lit "fallback")), (lit "query", .str query),
            (lit "results", .arr [])]) := by
  have hq2 : toStr (jsOr (getOpt args "query") (.str [])) = .ok query := by
    rw [hq]
    cases query with
    | nil => rfl
    | cons a r => rfl
  have hkey : ¬ (¬ cfg.googleCseId.isEmpty = true ∧ ¬ cfg.googleApiKey.isEmpty = true) := by
    rcases hcred with h | h
    · rw [h]; simp
    · rw [h]; simp
  have hmain : tool_google_search cfg net args
      = tryCatch (fallbackSearch net query limit) (fun _ =>
          .ok [(lit "provider", .str (lit "fallback")), (lit "query", .str query),
            (lit "results", .arr [])]) := by
    unfold tool_google_search
    simp only [hq2, hl, if_neg hkey]
  have hthrow : ∀ e, fallbackSearch net query limit = .error e →
      tool_google_search cfg net args
        = .ok [(lit "provider", .str (lit "fallback")), (lit "query", .str query),
            (lit "results", .arr [])] := by
    intro e he
    rw [hmain, he]
    rfl
  refine ⟨?_, ?_, ?_, ?_⟩
  · intro e he
    exact hthrow e (fallbackSearch_ddg_fails net query limit e (fetchJson_error _ e he))
  · intro j results hj hr hb hw
    obtain ⟨e, he⟩ := fallbackSearch_wiki_fails net query limit j results hj hr hb
      (fun enc henc => by
        obtain ⟨e, he⟩ := hw enc henc
        exact ⟨e, fetchJson_error _ e he⟩)
    exact hthrow e he
  · rintro ⟨e, he⟩
    exact hthrow e he
  · intro j hj hnn habs hrel hwiki
    rw [hmain]
    rcases fallbackSearch_no_matches net query limit j hj hnn habs hrel hwiki with ⟨e, he⟩ | h
    · rw [he]; rfl
    · rw [h]; rfl

end Agent

namespace Agent

/-- C8, three instances with no credentials and the query `zzz`: every provider
request is rejected; the instant-answer provider finds an abstract and the
encyclopedia request is rejected; both providers answer without matches.  Each
time the result is the empty fallback result. -/
theorem C8_fallback_witness :
    tool_google_search offlineEnv.cfg deadNet (.obj [(lit "query", .str (lit "zzz"))])
      = .ok [(lit "provider", .str (lit "fallback")), (lit "query", .str (lit "zzz")),
          (lit "results", .arr [])] ∧
    tool_google_search offlineEnv.cfg abstractNet (.obj [(lit "query", .str (lit "zzz"))])
      = .ok [(lit "provider", .str (lit "fallback")), (lit "query", .str (lit "zzz")),
          (lit "results", .arr [])] ∧
    tool_google_search offlineEnv.cfg quietNet (.obj [(lit "query", .str (lit "zzz"))])
      = .ok [(lit "provider", .str (lit "fallback")), (lit "query", .str (lit "zzz")),
          (lit "results", .arr [])] := by
  refine ⟨?_, ?_, ?_⟩
  · exact (C8_fallback_without_matches offlineEnv.cfg deadNet
      (.obj [(lit "query", .str (lit "zzz"))]) (lit "zzz") (some 5) (Or.inl rfl) (by rfl)
      (by rfl)).1 (typeError "Failed to fetch") (Or.inl rfl)
  · exact (C8_fallback_without_matches offlineEnv.cfg abstractNet
      (.obj [(lit "query", .str (lit "zzz"))]) (lit "zzz") (some 5) (Or.inl rfl) (by rfl)
      (by rfl)).2.1
      (.obj [(lit "AbstractText", .str (lit "x")), (lit "Heading", .str (lit "H"))])
      [.obj [(lit "title", .str (lit "H")), (lit "link", .str []),
        (lit "snippet", .str (lit "x"))]]
      (by rfl) (by rfl) (by decide)
      (fun _ _ => ⟨typeError "Failed to fetch", Or.inl rfl⟩)
  · exact (C8_fallback_without_matches offlineEnv.cfg quietNet
      (.obj [(lit "query", .str (lit "zzz"))]) (lit "zzz") (some 5) (Or.inl rfl) (by rfl)
      (by rfl)).2.2.2
      (.obj [(lit "AbstractText", .str []), (lit "RelatedTopics", .arr [])])
      rfl rfl (by rfl) (Or.inr (by rfl))
      (fun enc wj _ hw => by
        have h2 : wj = .obj [(lit "query", .obj [(lit "search", .arr [])])] := by
          have h3 : (Except.ok (.obj [(lit "query", .obj [(lit "search", .arr [])])]) :
              Except JsError JsVal) = .ok wj := hw
          injection h3 with h3
          exact h3.symm
        rw [h2]
        exact Or.inr (by rfl))

end Agent

namespace Agent

/-! ## C9: `JSON.parse` reads back what `JSON.stringify` wrote -/

theorem hexValue_hexDigit (n : Nat) (h : n < 16) : hexValue (hexDigit n) = some n := by
  have : ∀ k, k < 16 → hexValue (hexDigit k) = some k := by decide
  exact this n h

theorem hex4_escape (u : Nat) (h : u < 65536) :
    hex4 (hexDigit (u / 4096 % 16)) (hexDigit (u / 256 % 16)) (hexDigit (u / 16 % 16))
      (hexDigit (u % 16)) = some u := by
  unfold hex4
  rw [hexValue_hexDigit _ (Nat.mod_lt _ (by omega)), hexValue_hexDigit _ (Nat.mod_lt _ (by omega)),
    hexValue_hexDigit _ (Nat.mod_lt _ (by omega)), hexValue_hexDigit _ (Nat.mod_lt _ (by omega))]
  simp only [Option.some.injEq]
  omega

theorem parseStrBody_escape (u : Nat) (h : u < 65536) (x : JsStr) (s r : JsStr)
    (hx : parseStrBody x = some (s, r)) :
    parseStrBody (unicodeEscape u ++ x) = some (u :: s, r) := by
  unfold unicodeEscape
  simp only [List.cons_append, List.nil_append]
  unfold parseStrBody
  simp only [show ¬ (92 : Nat) = 34 by decide, if_false, if_true, hex4_escape u h, hx]

theorem parseStrBody_plain (u : Nat) (h1 : u ≠ 34) (h2 : u ≠ 92) (h3 : ¬ u < 32) (x : JsStr)
    (s r : JsStr) (hx : parseStrBody x = some (s, r)) :
    parseStrBody (u :: x) = some (u :: s, r) := by
  conv => lhs; unfold parseStrBody
  simp only [h1, h2, h3, if_false, hx]

theorem parseStrBody_simple (e c : Nat) (he : e ≠ 117) (hc : simpleEscape e = some c) (x : JsStr)
    (s r : JsStr) (hx : parseStrBody x = some (s, r)) :
    parseStrBody (92 :: e :: x) = some (c :: s, r) := by
  conv => lhs; unfold parseStrBody
  simp only [show ¬ (92 : Nat) = 34 by decide, if_false, if_true, he, hc, hx]

theorem parseStrBody_quoteUnit (u : Nat) (x : JsStr) (s r : JsStr)
    (hx : parseStrBody x = some (s, r)) :
    parseStrBody (quoteUnit u ++ x) = some (u :: s, r) := by
  unfold quoteUnit
  split
  · next h => subst h; exact parseStrBody_simple 98 8 (by decide) (by decide) x s r hx
  split
  · next h => subst h; exact parseStrBody_simple 116 9 (by decide) (by decide) x s r hx
  split
  · next h => subst h; exact parseStrBody_simple 110 10 (by decide) (by decide) x s r hx
  split
  · next h => subst h; exact parseStrBody_simple 102 12 (by decide) (by decide) x s r hx
  split
  · next h => subst h; exact parseStrBody_simple 114 13 (by decide) (by decide) x s r hx
  split
  · next h => subst h; exact parseStrBody_simple 34 34 (by decide) (by decide) x s r hx
  split
  · next h => subst h; exact parseStrBody_simple 92 92 (by decide) (by decide) x s r hx
  split
  · next h =>
    apply parseStrBody_escape u _ x s r hx
    rcases h with h | h | h
    · omega
    · simp [isHigh] at h; omega
    · simp [isLow] at h; omega
  · next h8 h9 h10 h12 h13 h34 h92 h =>
    simp only [not_or] at h
    exact parseStrBody_plain u h34 h92 h.1 x s r hx

theorem parseStrBody_quoteBody (s : JsStr) (rest : JsStr) :
    parseStrBody (quoteBody s ++ 34 :: rest) = some (s, rest) := by
  induction s using quoteBody.induct with
  | case1 =>
    unfold quoteBody parseStrBody
    simp
  | case2 u =>
    unfold quoteBody
    apply parseStrBody_quoteUnit
    unfold parseStrBody
    simp
  | case3 u v t hpair ih =>
    unfold quoteBody
    rw [if_pos hpair]
    simp only [Bool.and_eq_true] at hpair
    have hu : 55296 ≤ u := by
      have := hpair.1; simp [isHigh] at this; omega
    have hv : 56320 ≤ v := by
      have := hpair.2; simp [isLow] at this; omega
    simp only [List.cons_append]
    apply parseStrBody_plain u (by omega) (by omega) (by omega)
    exact parseStrBody_plain v (by omega) (by omega) (by omega) _ _ _ ih
  | case4 u v t hpair ih =>
    unfold quoteBody
    rw [if_neg hpair, List.append_assoc]
    exact parseStrBody_quoteUnit u _ _ _ ih

end Agent

namespace Agent

theorem map_sub_digit (ds : List Nat) : (ds.map digitUnit).map (· - 48) = ds := by
  induction ds with
  | nil => rfl
  | cons d t ih =>
    simp only [List.map_cons, ih, digitUnit]
    congr 1
    omega

theorem dropWhile_zero_replicate (a : Nat) (cs : List Nat)
    (h : ∀ c, cs.head? = some c → c ≠ 0) :
    (List.replicate a 0 ++ cs).dropWhile (· == 0) = cs ∧
    (List.replicate a 0 ++ cs).takeWhile (· == 0) = List.replicate a 0 := by
  induction a with
  | zero =>
    cases cs with
    | nil => simp
    | cons c t =>
      have hc : (c == 0) = false := by
        have := h c rfl
        simpa using this
      simp [List.dropWhile, List.takeWhile, hc]
  | succ n ih =>
    simp [List.replicate_succ, List.dropWhile, List.takeWhile, ih]

theorem strip_pad (cs : List Nat) (b : Nat) (h : ∀ c, cs.getLast? = some c → c ≠ 0) :
    stripTrailingZeros (cs ++ List.replicate b 0) = cs := by
  unfold stripTrailingZeros
  rw [List.reverse_append, List.reverse_replicate]
  have h2 : ∀ c, cs.reverse.head? = some c → c ≠ 0 := by
    intro c hc
    rw [List.head?_reverse] at hc
    exact h c hc
  rw [(dropWhile_zero_replicate b cs.reverse h2).1, List.reverse_reverse]

theorem normalize_canonical (neg : Bool) (a b : Nat) (cs : List Nat) (n : Int)
    (hne : cs ≠ []) (hh : ∀ c, cs.head? = some c → c ≠ 0)
    (hl : ∀ c, cs.getLast? = some c → c ≠ 0) :
    normalize neg (List.replicate a 0 ++ (cs ++ List.replicate b 0)) n = .fin neg cs (n - a) := by
  have hh2 : ∀ c, (cs ++ List.replicate b 0).head? = some c → c ≠ 0 := by
    intro c hc
    cases cs with
    | nil => exact absurd rfl hne
    | cons x t => exact hh c (by simpa using hc)
  obtain ⟨h1, h2⟩ := dropWhile_zero_replicate a (cs ++ List.replicate b 0) hh2
  unfold normalize
  simp only [h1, h2, strip_pad cs b hl, List.length_replicate]
  cases cs with
  | nil => exact absurd rfl hne
  | cons x t => simp

theorem parseFraction_none (tail : JsStr) (h : ∀ c, tail.head? = some c → c ≠ 46) :
    parseFraction tail = some ([], tail) := by
  unfold parseFraction
  cases tail with
  | nil => rfl
  | cons c r =>
    simp only
    rw [if_neg (h c rfl)]

theorem parseFraction_digits (fs : List Nat) (hne : fs ≠ []) (hlt : ∀ d ∈ fs, d < 10)
    (tail : JsStr) (ht : ∀ u, tail.head? = some u → isDigitUnit u = false) :
    parseFraction (46 :: (fs.map digitUnit ++ tail)) = some (fs, tail) := by
  obtain ⟨h1, h2⟩ := takeWhile_digits fs hlt tail ht
  unfold parseFraction
  simp only [if_true, h1, h2, map_sub_digit]
  cases fs with
  | nil => exact absurd rfl hne
  | cons d t => simp

theorem parseExponent_none (tail : JsStr)
    (h : ∀ c, tail.head? = some c → c ≠ 101 ∧ c ≠ 69) :
    parseExponent tail = some (0, tail) := by
  unfold parseExponent
  cases tail with
  | nil => rfl
  | cons c r =>
    simp only
    rw [if_neg (by
      intro hc
      rcases hc with hc | hc
      · exact (h c rfl).1 hc
      · exact (h c rfl).2 hc)]

theorem natText_cons (m : Nat) : ∃ d r, d < 10 ∧ natText m = digitUnit d :: r := by
  obtain ⟨d, r, hdr⟩ := List.exists_cons_of_ne_nil (natDigits_ne_nil m)
  refine ⟨d, r.map digitUnit, natDigits_lt m d (by rw [hdr]; simp), ?_⟩
  unfold natText
  rw [hdr]
  rfl

theorem parseExponent_digits (e : Int) (tail : JsStr)
    (ht : ∀ u, tail.head? = some u → isDigitUnit u = false) :
    parseExponent ([101] ++ (if e < 0 then [45] else [43]) ++ natText e.natAbs ++ tail)
      = some (e, tail) := by
  obtain ⟨h1, h2⟩ := takeWhile_digits (natDigits e.natAbs) (natDigits_lt _) tail ht
  have hv := digitsValue_natText e.natAbs
  have hne := natDigits_ne_nil e.natAbs
  unfold natText at hv ⊢
  unfold parseExponent
  by_cases hneg : e < 0
  · simp only [hneg, if_true, List.cons_append, List.nil_append, true_or, h1, h2, hv]
    simp only [List.isEmpty_eq_true, List.map_eq_nil_iff, hne, if_false]
    congr 2
    omega
  · simp only [hneg, if_false, List.cons_append, List.nil_append, true_or, if_true,
      show ¬ (43 : Nat) = 45 by decide, h1, h2, hv]
    simp only [List.isEmpty_eq_true, List.map_eq_nil_iff, hne, if_false, Bool.false_eq_true]
    congr 2
    omega

theorem parseNumber_core (neg : Bool) (ints fracs : List Nat) (e : Int)
    (tail1 tail2 rest : JsStr)
    (hne : ints ≠ []) (hlt : ∀ d ∈ ints, d < 10)
    (hlead : ¬ (1 < ints.length ∧ ints.head? = some 0))
    (ht1 : ∀ u, tail1.head? = some u → isDigitUnit u = false)
    (hfrac : parseFraction tail1 = some (fracs, tail2))
    (hexp : parseExponent tail2 = some (e, rest)) :
    parseNumber ((if neg then [45] else []) ++ (ints.map digitUnit ++ tail1))
      = some (normalize neg (ints ++ fracs) (ints.length + e), rest) := by
  obtain ⟨h1, h2⟩ := takeWhile_digits ints hlt tail1 ht1
  have hemp : ints.isEmpty = false := by
    cases ints with
    | nil => exact absurd rfl hne
    | cons d t => rfl
  cases neg with
  | true =>
    unfold parseNumber
    simp only [if_true, List.cons_append, List.nil_append, h1, h2, hemp, map_sub_digit,
      Bool.false_eq_true, if_false, if_neg hlead, hfrac, hexp]
  | false =>
    obtain ⟨d, t, hdt⟩ := List.exists_cons_of_ne_nil hne
    have hd : d < 10 := hlt d (by rw [hdt]; simp)
    have h45 : ¬ digitUnit d = 45 := by unfold digitUnit; omega
    have hs : ints.map digitUnit ++ tail1 = digitUnit d :: (t.map digitUnit ++ tail1) := by
      rw [hdt]; rfl
    unfold parseNumber
    simp only [Bool.false_eq_true, if_false, List.nil_append]
    rw [hs]
    simp only [h45, if_false]
    rw [← hs]
    simp only [h1, h2, hemp, map_sub_digit, Bool.false_eq_true, if_false, if_neg hlead, hfrac,
      hexp]

end Agent

namespace Agent

theorem delimited_head (rest : JsStr) (h : delimited rest = true) :
    ∀ u, rest.head? = some u → u = 44 ∨ u = 93 ∨ u = 125 := by
  intro u hu
  cases rest with
  | nil => simp at hu
  | cons c r =>
    simp only [List.head?_cons, Option.some.injEq] at hu
    subst hu
    have h2 : (c == 44 || c == 93 || c == 125) = true := h
    simp only [Bool.or_eq_true, beq_iff_eq] at h2
    rcases h2 with (h2 | h2) | h2
    · exact Or.inl h2
    · exact Or.inr (Or.inl h2)
    · exact Or.inr (Or.inr h2)

theorem normalize_plain (neg : Bool) (cs : List Nat) (n : Int)
    (hne : cs ≠ []) (hh : ∀ c, cs.head? = some c → c ≠ 0)
    (hl : ∀ c, cs.getLast? = some c → c ≠ 0) :
    normalize neg cs n = .fin neg cs n := by
  have := normalize_canonical neg 0 0 cs n hne hh hl
  simpa using this

theorem normalize_padded (neg : Bool) (b : Nat) (cs : List Nat) (n : Int)
    (hne : cs ≠ []) (hh : ∀ c, cs.head? = some c → c ≠ 0)
    (hl : ∀ c, cs.getLast? = some c → c ≠ 0) :
    normalize neg (cs ++ List.replicate b 0) n = .fin neg cs n := by
  have := normalize_canonical neg 0 b cs n hne hh hl
  simpa using this

theorem normalize_leading (neg : Bool) (a : Nat) (cs : List Nat) (n : Int)
    (hne : cs ≠ []) (hh : ∀ c, cs.head? = some c → c ≠ 0)
    (hl : ∀ c, cs.getLast? = some c → c ≠ 0) :
    normalize neg (List.replicate a 0 ++ cs) n = .fin neg cs (n - a) := by
  have := normalize_canonical neg a 0 cs n hne hh hl
  simpa using this

theorem parseNumber_numToString (n : JsNum) (hs : numSafe n = true) (rest : JsStr)
    (hr : delimited rest = true) :
    parseNumber (numToString n ++ rest) = some (n, rest) := by
  have hdel := delimited_head rest hr
  have hrd : ∀ u, rest.head? = some u → isDigitUnit u = false := by
    intro u hu
    rcases hdel u hu with h | h | h <;> subst h <;> rfl
  have hr46 : ∀ u, rest.head? = some u → u ≠ 46 := by
    intro u hu
    rcases hdel u hu with h | h | h <;> omega
  have hre : ∀ u, rest.head? = some u → u ≠ 101 ∧ u ≠ 69 := by
    intro u hu
    rcases hdel u hu with h | h | h <;> omega
  cases n with
  | nan => simp [numSafe] at hs
  | inf b => simp [numSafe] at hs
  | fin neg ds e =>
    cases ds with
    | nil =>
      simp only [numSafe, List.all_nil, Bool.true_and, Bool.and_eq_true, Bool.not_eq_true',
        decide_eq_true_eq] at hs
      obtain ⟨hneg, he⟩ := hs
      subst hneg he
      have := parseNumber_core false [0] [] 0 rest rest rest (by simp) (by simp) (by simp) hrd
        (parseFraction_none rest hr46) (parseExponent_none rest hre)
      exact this
    | cons d t =>
      simp only [numSafe, Bool.and_eq_true, List.all_eq_true, decide_eq_true_eq] at hs
      obtain ⟨hlt, hd0, hlast⟩ := hs
      have hne : (d :: t) ≠ [] := by simp
      have hh : ∀ c, (d :: t).head? = some c → c ≠ 0 := by
        intro c hc
        simp only [List.head?_cons, Option.some.injEq] at hc
        subst hc
        exact hd0
      have hl : ∀ c, (d :: t).getLast? = some c → c ≠ 0 := by
        intro c hc hc0
        subst hc0
        exact hlast hc
      have hall : (d :: t).all (· == 0) = false := by
        simp [hd0]
      unfold numToString
      simp only [hall, Bool.false_eq_true, if_false]
      by_cases ha : ((d :: t).length : Int) ≤ e ∧ e ≤ 21
      · -- digits followed by zeros
        simp only [if_pos ha]
        have htxt : (d :: t).map digitUnit ++ List.replicate (e - ((d :: t).length : Int)).toNat 48
            = ((d :: t) ++ List.replicate (e - ((d :: t).length : Int)).toNat 0).map digitUnit := by
          rw [List.map_append, List.map_replicate]
          rfl
        rw [htxt, List.append_assoc]
        have hcore := parseNumber_core neg
          ((d :: t) ++ List.replicate (e - ((d :: t).length : Int)).toNat 0) [] 0 rest rest rest
          (by simp)
          (by
            intro x hx
            rcases List.mem_append.mp hx with hx | hx
            · exact hlt x hx
            · rw [(List.mem_replicate.mp hx).2]; omega)
          (by
            intro hc
            have := hc.2
            simp only [List.cons_append, List.head?_cons, Option.some.injEq] at this
            exact hd0 this)
          hrd (parseFraction_none rest hr46) (parseExponent_none rest hre)
        rw [hcore, List.append_nil, normalize_padded neg _ (d :: t) _ hne hh hl]
        congr 3
        simp only [List.length_append, List.length_replicate, Nat.cast_add]
        omega
      · simp only [if_neg ha]
        by_cases hb : 0 < e ∧ e ≤ 21
        · -- digits with a decimal point inside
          simp only [if_pos hb]
          have hlen : e.toNat < (d :: t).length := by omega
          have hpos : 0 < e.toNat := by omega
          have htake : (d :: t).take e.toNat ≠ [] := by
            intro hc
            have := congrArg List.length hc
            simp only [List.length_take, List.length_nil] at this
            omega
          have hdrop : (d :: t).drop e.toNat ≠ [] := by
            intro hc
            have := congrArg List.length hc
            simp only [List.length_drop, List.length_nil] at this
            omega
          have htxt : (List.map digitUnit (List.take e.toNat (d :: t)) ++ [46] ++
              List.map digitUnit (List.drop e.toNat (d :: t))) ++ rest
              = List.map digitUnit (List.take e.toNat (d :: t)) ++
                (46 :: (List.map digitUnit (List.drop e.toNat (d :: t)) ++ rest)) := by
            simp
          rw [List.append_assoc _ _ rest, htxt]
          have hcore := parseNumber_core neg ((d :: t).take e.toNat) ((d :: t).drop e.toNat) 0
            (46 :: (List.map digitUnit (List.drop e.toNat (d :: t)) ++ rest)) rest rest
            htake
            (fun x hx => hlt x (List.mem_of_mem_take hx))
            (by
              intro hc
              have := hc.2
              obtain ⟨m, hm⟩ := Nat.exists_eq_succ_of_ne_zero (by omega : e.toNat ≠ 0)
              rw [hm] at this
              simp only [List.take_succ_cons, List.head?_cons, Option.some.injEq] at this
              exact hd0 this)
            (by
              intro u hu
              simp only [List.head?_cons, Option.some.injEq] at hu
              subst hu
              rfl)
            (parseFraction_digits _ hdrop (fun x hx => hlt x (List.mem_of_mem_drop hx)) rest hrd)
            (parseExponent_none rest hre)
          rw [hcore, List.take_append_drop, normalize_plain neg (d :: t) _ hne hh hl]
          congr 3
          simp only [List.length_take]
          omega
        · simp only [if_neg hb]
          by_cases hc : -6 < e ∧ e ≤ 0
          · -- a fraction below one
            simp only [if_pos hc]
            have htxt : ([48, 46] ++ List.replicate (-e).toNat 48 ++ List.map digitUnit (d :: t))
                ++ rest
                = List.map digitUnit [0] ++ (46 ::
                  (List.map digitUnit (List.replicate (-e).toNat 0 ++ (d :: t)) ++ rest)) := by
              rw [List.map_append, List.map_replicate]
              simp [digitUnit]
            rw [List.append_assoc _ _ rest, htxt]
            have hcore := parseNumber_core neg [0] (List.replicate (-e).toNat 0 ++ (d :: t)) 0
              (46 :: (List.map digitUnit (List.replicate (-e).toNat 0 ++ (d :: t)) ++ rest))
              rest rest (by simp) (by simp) (by simp)
              (by
                intro u hu
                simp only [List.head?_cons, Option.some.injEq] at hu
                subst hu
                rfl)
              (parseFraction_digits _ (by simp)
                (by
                  intro x hx
                  rcases List.mem_append.mp hx with hx | hx
                  · rw [(List.mem_replicate.mp hx).2]; omega
                  · exact hlt x hx)
                rest hrd)
              (parseExponent_none rest hre)
            rw [hcore]
            have hrep : [0] ++ (List.replicate (-e).toNat 0 ++ (d :: t))
                = List.replicate ((-e).toNat + 1) 0 ++ (d :: t) := by
              rw [List.replicate_succ]
              simp
            rw [hrep, normalize_leading neg _ (d :: t) _ hne hh hl]
            congr 3
            simp only [List.length_singleton, Nat.cast_add, Nat.cast_one]
            omega
          · -- exponent form
            simp only [if_neg hc]
            have hE : ∀ tail, parseExponent ([101] ++ (if e - 1 < 0 then [45] else [43]) ++
                natText (e - 1).natAbs ++ rest) = some (e - 1, rest) ∧
                (∀ u, ([101] ++ (if e - 1 < 0 then [45] else [43]) ++
                  natText (e - 1).natAbs ++ tail : JsStr).head? = some u → u = 101) := by
              intro tail
              refine ⟨parseExponent_digits (e - 1) rest hrd, ?_⟩
              intro u hu
              simp only [List.cons_append, List.nil_append, List.head?_cons,
                Option.some.injEq] at hu
              exact hu.symm
            cases t with
            | nil =>
              have htxt : ([digitUnit d] ++ [101] ++ (if e - 1 < 0 then [45] else [43]) ++
                  natText (e - 1).natAbs) ++ rest
                  = List.map digitUnit [d] ++ ([101] ++ (if e - 1 < 0 then [45] else [43]) ++
                    natText (e - 1).natAbs ++ rest) := by
                simp
              rw [List.append_assoc _ _ rest, htxt]
              have hcore := parseNumber_core neg [d] [] (e - 1)
                ([101] ++ (if e - 1 < 0 then [45] else [43]) ++ natText (e - 1).natAbs ++ rest)
                ([101] ++ (if e - 1 < 0 then [45] else [43]) ++ natText (e - 1).natAbs ++ rest)
                rest (by simp) hlt (by simp)
                (by
                  intro u hu
                  rw [(hE rest).2 u hu]
                  rfl)
                (parseFraction_none _ (by
                  intro u hu
                  rw [(hE rest).2 u hu]
                  omega))
                (hE rest).1
              rw [hcore, List.append_nil, normalize_plain neg [d] _ hne hh hl]
              congr 3
              simp only [List.length_singleton, Nat.cast_one]
              omega
            | cons d2 t2 =>
              have htxt : (digitUnit d :: 46 :: List.map digitUnit (d2 :: t2) ++ [101] ++
                  (if e - 1 < 0 then [45] else [43]) ++ natText (e - 1).natAbs) ++ rest
                  = List.map digitUnit [d] ++ (46 :: (List.map digitUnit (d2 :: t2) ++
                    ([101] ++ (if e - 1 < 0 then [45] else [43]) ++
                      natText (e - 1).natAbs ++ rest))) := by
                simp
              rw [List.append_assoc _ _ rest, htxt]
              have hcore := parseNumber_core neg [d] (d2 :: t2) (e - 1)
                (46 :: (List.map digitUnit (d2 :: t2) ++
                  ([101] ++ (if e - 1 < 0 then [45] else [43]) ++ natText (e - 1).natAbs ++ rest)))
                ([101] ++ (if e - 1 < 0 then [45] else [43]) ++ natText (e - 1).natAbs ++ rest)
                rest (by simp) (fun x hx => hlt x (by
                  simp only [List.mem_singleton] at hx
                  subst hx
                  simp)) (by simp)
                (by
                  intro u hu
                  simp only [List.head?_cons, Option.some.injEq] at hu
                  subst hu
                  rfl)
                (parseFraction_digits (d2 :: t2) (by simp)
                  (fun x hx => hlt x (List.mem_cons_of_mem _ hx)) _
                  (by
                    intro u hu
                    rw [(hE rest).2 u hu]
                    rfl))
                (hE rest).1
              rw [hcore]
              have hds : [d] ++ (d2 :: t2) = d :: d2 :: t2 := rfl
              rw [hds, normalize_plain neg (d :: d2 :: t2) _ hne hh hl]
              congr 3
              simp only [List.length_singleton, Nat.cast_one]
              omega

end Agent

namespace Agent

theorem parseValue_null (f : Nat) (rest : JsStr) :
    parseValue (f + 1) (lit "null" ++ rest) = some (.null, rest) := by
  have h : lit "null" = [110, 117, 108, 108] := by decide
  rw [h]
  simp [parseValue, skipWs, List.dropWhile, isJsonWs]

theorem parseValue_true (f : Nat) (rest : JsStr) :
    parseValue (f + 1) (lit "true" ++ rest) = some (.bool true, rest) := by
  have h : lit "true" = [116, 114, 117, 101] := by decide
  rw [h]
  simp [parseValue, skipWs, List.dropWhile, isJsonWs]

theorem parseValue_false (f : Nat) (rest : JsStr) :
    parseValue (f + 1) (lit "false" ++ rest) = some (.bool false, rest) := by
  have h : lit "false" = [102, 97, 108, 115, 101] := by decide
  rw [h]
  simp [parseValue, skipWs, List.dropWhile, isJsonWs]

theorem parseValue_str (f : Nat) (s rest : JsStr) :
    parseValue (f + 1) (quote s ++ rest) = some (.str s, rest) := by
  have h : quote s ++ rest = 34 :: (quoteBody s ++ 34 :: rest) := by
    simp [quote]
  rw [h]
  simp [parseValue, skipWs, List.dropWhile, isJsonWs, parseStrBody_quoteBody]

end Agent

namespace Agent

theorem numToString_head (n : JsNum) (hs : numSafe n = true) :
    ∃ c r, numToString n = c :: r ∧ (c = 45 ∨ (48 ≤ c ∧ c ≤ 57)) := by
  cases n with
  | nan => simp [numSafe] at hs
  | inf b => simp [numSafe] at hs
  | fin neg ds e =>
    cases ds with
    | nil => exact ⟨48, [], by simp [numToString], Or.inr ⟨by omega, by omega⟩⟩
    | cons d t =>
      simp only [numSafe, Bool.and_eq_true, List.all_eq_true, decide_eq_true_eq] at hs
      obtain ⟨hlt, hd0, _⟩ := hs
      have hd : d < 10 := hlt d (by simp)
      have hall : (d :: t).all (· == 0) = false := by simp [hd0]
      have hbody : ∀ body : JsStr, (∃ r, body = digitUnit d :: r ∨ body = 48 :: r) →
          ∃ c r, (if neg = true then [45] else []) ++ body = c :: r ∧
            (c = 45 ∨ (48 ≤ c ∧ c ≤ 57)) := by
        intro body hb
        obtain ⟨r, hb⟩ := hb
        cases neg with
        | true => exact ⟨45, body, by simp, Or.inl rfl⟩
        | false =>
          rcases hb with hb | hb
          · exact ⟨digitUnit d, r, by simp [hb], Or.inr (by unfold digitUnit; omega)⟩
          · exact ⟨48, r, by simp [hb], Or.inr ⟨by omega, by omega⟩⟩
      unfold numToString
      simp only [hall, Bool.false_eq_true, if_false]
      apply hbody
      by_cases ha : ((d :: t).length : Int) ≤ e ∧ e ≤ 21
      · rw [if_pos ha]
        exact ⟨_, Or.inl rfl⟩
      · rw [if_neg ha]
        by_cases hb : 0 < e ∧ e ≤ 21
        · rw [if_pos hb]
          obtain ⟨m, hm⟩ := Nat.exists_eq_succ_of_ne_zero (by omega : e.toNat ≠ 0)
          rw [hm]
          exact ⟨_, Or.inl rfl⟩
        · rw [if_neg hb]
          by_cases hc : -6 < e ∧ e ≤ 0
          · rw [if_pos hc]
            exact ⟨_, Or.inr rfl⟩
          · rw [if_neg hc]
            cases t with
            | nil => exact ⟨_, Or.inl rfl⟩
            | cons d2 t2 => exact ⟨_, Or.inl rfl⟩

theorem parseValue_num (f : Nat) (n : JsNum) (hs : numSafe n = true) (rest : JsStr)
    (hr : delimited rest = true) :
    parseValue (f + 1) (numToString n ++ rest) = some (.num n, rest) := by
  have hp := parseNumber_numToString n hs rest hr
  obtain ⟨c, r, hcr, hc⟩ := numToString_head n hs
  rw [hcr] at hp ⊢
  have hws : isJsonWs c = false := by
    unfold isJsonWs
    rcases hc with hc | hc
    · subst hc; rfl
    · simp only [Bool.or_eq_false_iff, beq_eq_false_iff_ne, ne_eq]
      omega
  have h34 : ¬ c = 34 := by omega
  have h91 : ¬ c = 91 := by omega
  have h123 : ¬ c = 123 := by omega
  have h110 : ¬ c = 110 := by omega
  have h116 : ¬ c = 116 := by omega
  have h102 : ¬ c = 102 := by omega
  rw [List.cons_append] at hp ⊢
  unfold parseValue
  simp only [skipWs, List.dropWhile, hws, h34, h91, h123, h110, h116, h102, if_false, hp]

theorem keysCanonical_append_left (l1 l2 : List (JsStr × JsVal))
    (h : keysCanonical (l1 ++ l2) = true) : keysCanonical l1 = true := by
  induction l1 with
  | nil => rfl
  | cons kv t ih =>
    simp only [List.cons_append, keysCanonical, Bool.and_eq_true, List.all_eq_true] at h ⊢
    exact ⟨fun x hx => h.1 x (List.mem_append.mpr (Or.inl hx)), ih h.2⟩

theorem keysCanonical_last (acc : List (JsStr × JsVal)) (k : JsStr) (v : JsVal)
    (h : keysCanonical (acc ++ [(k, v)]) = true) :
    ∀ a ∈ acc, k ≠ a.1 ∧ keyBefore k a.1 = false := by
  induction acc with
  | nil => intro a ha; simp at ha
  | cons kv t ih =>
    simp only [List.cons_append, keysCanonical, Bool.and_eq_true, List.all_eq_true,
      decide_eq_true_eq, Bool.not_eq_true'] at h
    intro a ha
    rcases List.mem_cons.mp ha with ha | ha
    · subst ha
      exact h.1 (k, v) (List.mem_append.mpr (Or.inr (List.mem_singleton.mpr rfl)))
    · exact ih h.2 a ha

theorem setField_append (acc : List (JsStr × JsVal)) (k : JsStr) (v : JsVal)
    (h : keysCanonical (acc ++ [(k, v)]) = true) :
    setField k v acc = acc ++ [(k, v)] := by
  have hk := keysCanonical_last acc k v h
  have hany : acc.any (fun kv => kv.1 == k) = false := by
    rw [List.any_eq_false]
    intro x hx
    have := (hk x hx).1
    simp only [beq_iff_eq]
    exact fun hc => this hc.symm
  unfold setField
  rw [hany]
  simp only [Bool.false_eq_true, if_false]
  clear hany h
  induction acc with
  | nil => rfl
  | cons kv t ih =>
    obtain ⟨k2, v2⟩ := kv
    unfold placeField
    rw [(hk (k2, v2) (by simp)).2]
    simp only [Bool.false_eq_true, if_false, List.cons_append]
    rw [ih (fun a ha => hk a (List.mem_cons_of_mem _ ha))]

end Agent

namespace Agent

theorem cost_pos (v : JsVal) : 1 ≤ cost v := by
  cases v <;> simp [cost]

theorem text_head (v : JsVal) (hs : jsonSafe v = true) :
    ∃ c r, jsonProp v = some (c :: r) ∧ isJsonWs c = false ∧ c ≠ 93 ∧ c ≠ 125 := by
  cases v with
  | undefined => simp [jsonSafe] at hs
  | fn => simp [jsonSafe] at hs
  | null => exact ⟨110, [117, 108, 108], by simp [jsonProp]; decide, by decide, by decide, by decide⟩
  | bool b =>
    cases b with
    | true =>
      exact ⟨116, [114, 117, 101], by simp [jsonProp]; decide, by decide, by decide, by decide⟩
    | false =>
      exact ⟨102, [97, 108, 115, 101], by simp [jsonProp]; decide, by decide, by decide, by decide⟩
  | num n =>
    simp only [jsonSafe] at hs
    obtain ⟨c, r, hcr, hc⟩ := numToString_head n hs
    refine ⟨c, r, ?_, ?_, by omega, by omega⟩
    · cases n with
      | nan => simp [numSafe] at hs
      | inf b => simp [numSafe] at hs
      | fin neg ds e => simp [jsonProp, hcr]
    · unfold isJsonWs
      rcases hc with hc | hc
      · subst hc; rfl
      · simp only [Bool.or_eq_false_iff, beq_eq_false_iff_ne, ne_eq]
        omega
  | str s => exact ⟨34, quoteBody s ++ [34], by simp [jsonProp, quote], by decide, by decide,
      by decide⟩
  | arr xs => exact ⟨91, commaJoin (jsonElems xs) ++ [93], by simp [jsonProp], by decide,
      by decide, by decide⟩
  | obj kvs => exact ⟨123, commaJoin (jsonFields kvs) ++ [125], by simp [jsonProp], by decide,
      by decide, by decide⟩

theorem commaJoin_cons (t : JsStr) (ts : List JsStr) : ∃ u, commaJoin (t :: ts) = t ++ u := by
  cases ts with
  | nil => exact ⟨[], by simp [commaJoin]⟩
  | cons a b => exact ⟨[44] ++ commaJoin (a :: b), by simp [commaJoin]⟩

theorem parseElems_text (F : Nat) (H : ReadsBack F) (xs : List JsVal) (hne : xs ≠ []) :
    ∀ g, g ≤ F → costElems xs ≤ g → safeElems xs = true → ∀ rest,
      parseElems g (commaJoin (jsonElems xs) ++ 93 :: rest) = some (.arr xs, rest) := by
  induction xs with
  | nil => exact absurd rfl hne
  | cons x tl ih =>
    intro g hg hcost hsafe rest
    simp only [costElems] at hcost
    simp only [safeElems, Bool.and_eq_true] at hsafe
    obtain ⟨g2, hg2⟩ := Nat.exists_eq_succ_of_ne_zero (by omega : g ≠ 0)
    subst hg2
    cases tl with
    | nil =>
      obtain ⟨t, ht, hp⟩ := H g2 (by omega) x (by omega) hsafe.1 (93 :: rest) (by rfl)
      simp only [jsonElems, ht, commaJoin]
      unfold parseElems
      simp only [hp, skipWs, List.dropWhile]
      simp [isJsonWs]
    | cons y tl2 =>
      obtain ⟨t, ht, hp⟩ := H g2 (by omega) x (by omega) hsafe.1
        (44 :: (commaJoin (jsonElems (y :: tl2)) ++ 93 :: rest)) (by rfl)
      have hrec := ih (by simp) g2 (by omega) (by omega) hsafe.2 rest
      have htxt : commaJoin (jsonElems (x :: y :: tl2)) ++ 93 :: rest
          = t ++ 44 :: (commaJoin (jsonElems (y :: tl2)) ++ 93 :: rest) := by
        simp only [jsonElems, ht, commaJoin]
        simp
      rw [htxt]
      unfold parseElems
      simp only [hp, skipWs, List.dropWhile]
      simp [isJsonWs, hrec]

theorem parseMembers_text (F : Nat) (H : ReadsBack F) (kvs : List (JsStr × JsVal))
    (hne : kvs ≠ []) :
    ∀ g acc, g ≤ F → costFields kvs ≤ g → safeFields kvs = true →
      keysCanonical (acc ++ kvs) = true → ∀ rest,
      parseMembers g acc (commaJoin (jsonFields kvs) ++ 125 :: rest)
        = some (.obj (acc ++ kvs), rest) := by
  induction kvs with
  | nil => exact absurd rfl hne
  | cons kv tl ih =>
    obtain ⟨k, v⟩ := kv
    intro g acc hg hcost hsafe hcanon rest
    simp only [costFields] at hcost
    simp only [safeFields, Bool.and_eq_true] at hsafe
    obtain ⟨g2, hg2⟩ := Nat.exists_eq_succ_of_ne_zero (by omega : g ≠ 0)
    subst hg2
    have hcanon2 : keysCanonical ((acc ++ [(k, v)]) ++ tl) = true := by
      simpa using hcanon
    have hset := setField_append acc k v (keysCanonical_append_left _ _ hcanon2)
    cases tl with
    | nil =>
      obtain ⟨t, ht, hp⟩ := H g2 (by omega) v (by omega) hsafe.1 (125 :: rest) (by rfl)
      have htxt : commaJoin (jsonFields [(k, v)]) ++ 125 :: rest
          = 34 :: (quoteBody k ++ 34 :: (58 :: (t ++ 125 :: rest))) := by
        simp only [jsonFields, ht, commaJoin, quote]
        simp
      rw [htxt]
      unfold parseMembers
      simp [skipWs, List.dropWhile, isJsonWs, parseStrBody_quoteBody, hp, hset]
    | cons kv2 tl2 =>
      obtain ⟨t, ht, hp⟩ := H g2 (by omega) v (by omega) hsafe.1
        (44 :: (commaJoin (jsonFields (kv2 :: tl2)) ++ 125 :: rest)) (by rfl)
      have hrec := ih (by simp) g2 (acc ++ [(k, v)]) (by omega) (by omega) hsafe.2 hcanon2 rest
      obtain ⟨k2, v2⟩ := kv2
      simp only [safeFields, Bool.and_eq_true] at hsafe
      obtain ⟨c2, r2, ht2, _⟩ := text_head v2 hsafe.2.1
      have htxt : commaJoin (jsonFields ((k, v) :: (k2, v2) :: tl2)) ++ 125 :: rest
          = 34 :: (quoteBody k ++ 34 :: (58 :: (t ++
              44 :: (commaJoin (jsonFields ((k2, v2) :: tl2)) ++ 125 :: rest)))) := by
        simp only [jsonFields, ht, ht2, commaJoin, quote]
        simp
      rw [htxt]
      unfold parseMembers
      simp [skipWs, List.dropWhile, isJsonWs, parseStrBody_quoteBody, hp, hset, hrec]

end Agent

namespace Agent

theorem readsBack_all (F : Nat) : ReadsBack F := by
  induction F with
  | zero => intro fuel h; omega
  | succ F ih =>
    intro fuel hlt v hcost hsafe rest hrest
    by_cases hf : fuel < F
    · exact ih fuel hf v hcost hsafe rest hrest
    · have hfe : fuel = F := by omega
      subst hfe
      have hpos := cost_pos v
      obtain ⟨f, hf2⟩ := Nat.exists_eq_succ_of_ne_zero (by omega : fuel ≠ 0)
      subst hf2
      cases v with
      | undefined => simp [jsonSafe] at hsafe
      | fn => simp [jsonSafe] at hsafe
      | null => exact ⟨lit "null", by simp [jsonProp], parseValue_null f rest⟩
      | bool b =>
        cases b with
        | true => exact ⟨lit "true", by simp [jsonProp], parseValue_true f rest⟩
        | false => exact ⟨lit "false", by simp [jsonProp], parseValue_false f rest⟩
      | num n =>
        simp only [jsonSafe] at hsafe
        cases n with
        | nan => simp [numSafe] at hsafe
        | inf b => simp [numSafe] at hsafe
        | fin neg ds e =>
          exact ⟨numToString (.fin neg ds e), by simp [jsonProp],
            parseValue_num f _ hsafe rest hrest⟩
      | str s => exact ⟨quote s, by simp [jsonProp], parseValue_str f s rest⟩
      | arr xs =>
        refine ⟨[91] ++ commaJoin (jsonElems xs) ++ [93], by simp [jsonProp], ?_⟩
        simp only [jsonSafe] at hsafe
        simp only [cost] at hcost
        cases xs with
        | nil =>
          simp [jsonElems, commaJoin, parseValue, skipWs, List.dropWhile, isJsonWs]
        | cons x tl =>
          have hE := parseElems_text (f + 1) ih (x :: tl) (by simp) f (by omega) (by omega)
            hsafe rest
          simp only [safeElems, Bool.and_eq_true] at hsafe
          obtain ⟨c0, r, ht, hws, h93, _⟩ := text_head x hsafe.1
          obtain ⟨u, hu⟩ := commaJoin_cons (c0 :: r) (jsonElems tl)
          have hcj : commaJoin (jsonElems (x :: tl)) ++ 93 :: rest
              = c0 :: (r ++ u ++ 93 :: rest) := by
            simp only [jsonElems, ht, hu]
            simp
          have htxt : [91] ++ commaJoin (jsonElems (x :: tl)) ++ [93] ++ rest
              = 91 :: (c0 :: (r ++ u ++ 93 :: rest)) := by
            rw [← hcj]
            simp
          rw [hcj] at hE
          rw [htxt]
          have h91 : isJsonWs 91 = false := by decide
          unfold parseValue
          simp [skipWs, List.dropWhile, h91, hws, h93]
          simpa using hE
      | obj kvs =>
        refine ⟨[123] ++ commaJoin (jsonFields kvs) ++ [125], by simp [jsonProp], ?_⟩
        simp only [jsonSafe, Bool.and_eq_true] at hsafe
        simp only [cost] at hcost
        cases kvs with
        | nil =>
          simp [jsonFields, commaJoin, parseValue, skipWs, List.dropWhile, isJsonWs]
        | cons kv tl =>
          obtain ⟨k, v⟩ := kv
          have hE := parseMembers_text (f + 1) ih ((k, v) :: tl) (by simp) f [] (by omega)
            (by omega) hsafe.2 (by simpa using hsafe.1) rest
          simp only [safeFields, Bool.and_eq_true] at hsafe
          obtain ⟨c0, r, ht, _⟩ := text_head v hsafe.2.1
          obtain ⟨u, hu⟩ := commaJoin_cons (quote k ++ [58] ++ (c0 :: r)) (jsonFields tl)
          have hcj : commaJoin (jsonFields ((k, v) :: tl)) ++ 125 :: rest
              = 34 :: (quoteBody k ++ [34] ++ [58] ++ (c0 :: r) ++ u ++ 125 :: rest) := by
            simp only [jsonFields, ht]
            rw [hu]
            simp [quote]
          have htxt : [123] ++ commaJoin (jsonFields ((k, v) :: tl)) ++ [125] ++ rest
              = 123 :: (34 :: (quoteBody k ++ [34] ++ [58] ++ (c0 :: r) ++ u ++ 125 :: rest)) := by
            rw [← hcj]
            simp
          rw [hcj] at hE
          rw [htxt]
          have h123 : isJsonWs 123 = false := by decide
          have h34 : isJsonWs 34 = false := by decide
          unfold parseValue
          simp only [List.nil_append] at hE
          simp [skipWs, List.dropWhile, h123, h34]
          simpa using hE

end Agent

namespace Agent

theorem quote_length (k : JsStr) : 2 ≤ (quote k).length := by
  simp [quote]

theorem elems_length (m : Nat)
    (H : ∀ v, cost v ≤ m → jsonSafe v = true → ∀ t, jsonProp v = some t → cost v ≤ t.length)
    (xs : List JsVal) (hne : xs ≠ []) :
    costElems xs ≤ m + 1 → safeElems xs = true →
      costElems xs ≤ (commaJoin (jsonElems xs)).length + 1 := by
  induction xs with
  | nil => exact absurd rfl hne
  | cons x tl ih =>
    intro hcost hsafe
    simp only [costElems] at hcost ⊢
    simp only [safeElems, Bool.and_eq_true] at hsafe
    obtain ⟨c, r, ht, _⟩ := text_head x hsafe.1
    have hx := H x (by omega) hsafe.1 _ ht
    cases tl with
    | nil =>
      simp only [jsonElems, ht, commaJoin, costElems]
      omega
    | cons y tl2 =>
      have hrec := ih (by simp) (by omega) hsafe.2
      have hj : commaJoin (jsonElems (x :: y :: tl2))
          = (c :: r) ++ [44] ++ commaJoin (jsonElems (y :: tl2)) := by
        simp only [jsonElems, ht, commaJoin]
      rw [hj]
      simp only [List.length_append, List.length_singleton]
      omega

theorem fields_length (m : Nat)
    (H : ∀ v, cost v ≤ m → jsonSafe v = true → ∀ t, jsonProp v = some t → cost v ≤ t.length)
    (kvs : List (JsStr × JsVal)) (hne : kvs ≠ []) :
    costFields kvs ≤ m + 1 → safeFields kvs = true →
      costFields kvs ≤ (commaJoin (jsonFields kvs)).length + 1 := by
  induction kvs with
  | nil => exact absurd rfl hne
  | cons kv tl ih =>
    obtain ⟨k, v⟩ := kv
    intro hcost hsafe
    simp only [costFields] at hcost ⊢
    simp only [safeFields, Bool.and_eq_true] at hsafe
    obtain ⟨c, r, ht, _⟩ := text_head v hsafe.1
    have hx := H v (by omega) hsafe.1 _ ht
    have hq := quote_length k
    cases tl with
    | nil =>
      simp only [jsonFields, ht, commaJoin, costFields, List.length_append,
        List.length_singleton]
      omega
    | cons kv2 tl2 =>
      obtain ⟨k2, v2⟩ := kv2
      have hrec := ih (by simp) (by omega) hsafe.2
      simp only [safeFields, Bool.and_eq_true] at hsafe
      obtain ⟨c2, r2, ht2, _⟩ := text_head v2 hsafe.2.1
      have hj : commaJoin (jsonFields ((k, v) :: (k2, v2) :: tl2))
          = (quote k ++ [58] ++ (c :: r)) ++ [44] ++ commaJoin (jsonFields ((k2, v2) :: tl2)) := by
        simp only [jsonFields, ht, ht2, commaJoin]
      rw [hj]
      simp only [List.length_append, List.length_singleton]
      omega

theorem cost_le_length (n : Nat) :
    ∀ v, cost v ≤ n → jsonSafe v = true → ∀ t, jsonProp v = some t → cost v ≤ t.length := by
  induction n with
  | zero =>
    intro v h
    have := cost_pos v
    omega
  | succ m ih =>
    intro v hcost hsafe t ht
    cases v with
    | undefined => simp [jsonSafe] at hsafe
    | fn => simp [jsonSafe] at hsafe
    | arr xs =>
      simp only [jsonProp, Option.some.injEq] at ht
      subst ht
      simp only [cost] at hcost ⊢
      simp only [jsonSafe] at hsafe
      cases xs with
      | nil => simp [costElems]
      | cons x tl =>
        have := elems_length m ih (x :: tl) (by simp) (by omega) hsafe
        simp only [List.length_append, List.length_singleton]
        omega
    | obj kvs =>
      simp only [jsonProp, Option.some.injEq] at ht
      subst ht
      simp only [cost] at hcost ⊢
      simp only [jsonSafe, Bool.and_eq_true] at hsafe
      cases kvs with
      | nil => simp [costFields]
      | cons kv tl =>
        have := fields_length m ih (kv :: tl) (by simp) (by omega) hsafe.2
        simp only [List.length_append, List.length_singleton]
        omega
    | null =>
      obtain ⟨c, r, hcr, _⟩ := text_head .null hsafe
      rw [hcr] at ht
      injection ht with ht
      subst ht
      simp [cost]
    | bool b =>
      obtain ⟨c, r, hcr, _⟩ := text_head (.bool b) hsafe
      rw [hcr] at ht
      injection ht with ht
      subst ht
      simp [cost]
    | num x =>
      obtain ⟨c, r, hcr, _⟩ := text_head (.num x) hsafe
      rw [hcr] at ht
      injection ht with ht
      subst ht
      simp [cost]
    | str s =>
      obtain ⟨c, r, hcr, _⟩ := text_head (.str s) hsafe
      rw [hcr] at ht
      injection ht with ht
      subst ht
      simp [cost]

theorem jsonParse_stringifyObj (r : ToolResult) (hs : jsonSafe (.obj r) = true) :
    jsonParse (stringifyObj r) = some (.obj r) := by
  have hprop : jsonProp (.obj r) = some (stringifyObj r) := by
    simp [jsonProp, stringifyObj]
  have hlen := cost_le_length (cost (.obj r)) (.obj r) (Nat.le_refl _) hs _ hprop
  obtain ⟨t, ht, hp⟩ := readsBack_all (2 * (stringifyObj r).length + 3)
    (2 * (stringifyObj r).length + 2) (by omega) (.obj r) (by omega) hs [] (by rfl)
  rw [hprop] at ht
  injection ht with ht
  subst ht
  rw [List.append_nil] at hp
  unfold jsonParse
  rw [hp]
  rfl

end Agent

namespace Agent

/-! ### Which tool results are JSON data -/

theorem lookupField_safe (k : JsStr) (kvs : List (JsStr × JsVal)) (h : safeFields kvs = true) :
    SafeOrUndefined (lookupField k kvs) := by
  induction kvs with
  | nil => exact Or.inl rfl
  | cons kv tl ih =>
    obtain ⟨k2, v2⟩ := kv
    simp only [safeFields, Bool.and_eq_true] at h
    unfold lookupField
    split
    · exact Or.inr h.1
    · exact ih h.2

theorem getOpt_safe (v : JsVal) (k : String) (hk : k ≠ "link" ∧ k ≠ "search")
    (h : SafeOrUndefined v) : SafeOrUndefined (getOpt v k) := by
  cases v with
  | obj kvs =>
    rcases h with h | h
    · exact absurd h (by simp)
    · simp only [jsonSafe, Bool.and_eq_true] at h
      exact lookupField_safe _ kvs h.2
  | str s =>
    left
    simp [getOpt, hk.1, hk.2]
  | undefined => exact Or.inl rfl
  | null => exact Or.inl rfl
  | bool b => exact Or.inl rfl
  | num n => exact Or.inl rfl
  | arr xs => exact Or.inl rfl
  | fn => exact Or.inl rfl

theorem truthy_safe (v : JsVal) (h : SafeOrUndefined v) (ht : truthy v = true) :
    jsonSafe v = true := by
  rcases h with h | h
  · rw [h] at ht
    exact absurd ht (by simp [truthy])
  · exact h

theorem jsOr_safe (a b : JsVal) (ha : SafeOrUndefined a) (hb : jsonSafe b = true) :
    jsonSafe (jsOr a b) = true := by
  unfold jsOr
  split
  · next ht => exact truthy_safe a ha ht
  · exact hb

theorem coalesce_safe (a b : JsVal) (ha : SafeOrUndefined a) (hb : jsonSafe b = true) :
    jsonSafe (coalesce a b) = true := by
  unfold coalesce
  split
  · exact hb
  · next hn =>
    rcases ha with ha | ha
    · rw [ha] at hn
      exact absurd rfl hn
    · exact ha

theorem coalesce_safeOr (a b : JsVal) (ha : SafeOrUndefined a) (hb : SafeOrUndefined b) :
    SafeOrUndefined (coalesce a b) := by
  unfold coalesce
  split
  · exact hb
  · exact ha

theorem safeElems_mem (xs : List JsVal) (h : safeElems xs = true) : ∀ x ∈ xs, jsonSafe x = true := by
  induction xs with
  | nil => intro x hx; simp at hx
  | cons y tl ih =>
    simp only [safeElems, Bool.and_eq_true] at h
    intro x hx
    rcases List.mem_cons.mp hx with hx | hx
    · rw [hx]; exact h.1
    · exact ih h.2 x hx

theorem safeElems_of_mem (xs : List JsVal) (h : ∀ x ∈ xs, jsonSafe x = true) :
    safeElems xs = true := by
  induction xs with
  | nil => rfl
  | cons y tl ih =>
    simp only [safeElems, Bool.and_eq_true]
    exact ⟨h y (by simp), ih (fun x hx => h x (List.mem_cons_of_mem _ hx))⟩

theorem safeElems_take (xs : List JsVal) (n : Nat) (h : safeElems xs = true) :
    safeElems (xs.take n) = true :=
  safeElems_of_mem _ (fun x hx => safeElems_mem xs h x (List.mem_of_mem_take hx))

theorem safeElems_sliceEnd (xs : List JsVal) (e : Option Int) (h : safeElems xs = true) :
    safeElems (sliceEnd xs e) = true := by
  unfold sliceEnd
  cases e with
  | none => rfl
  | some x =>
    simp only
    split
    · exact safeElems_take _ _ h
    · exact safeElems_take _ _ h

theorem safeElems_append (a b : List JsVal) (ha : safeElems a = true) (hb : safeElems b = true) :
    safeElems (a ++ b) = true := by
  apply safeElems_of_mem
  intro x hx
  rcases List.mem_append.mp hx with hx | hx
  · exact safeElems_mem a ha x hx
  · exact safeElems_mem b hb x hx

theorem index0_safe (v : JsVal) (h : SafeOrUndefined v) : SafeOrUndefined (index0 v) := by
  cases v with
  | arr xs =>
    cases xs with
    | nil => exact Or.inl rfl
    | cons x tl =>
      rcases h with h | h
      · exact absurd h (by simp)
      · simp only [jsonSafe, safeElems, Bool.and_eq_true] at h
        exact Or.inr h.1
  | str s =>
    cases s with
    | nil => exact Or.inl rfl
    | cons u r => exact Or.inr rfl
  | obj kvs =>
    rcases h with h | h
    · exact absurd h (by simp)
    · simp only [jsonSafe, Bool.and_eq_true] at h
      exact lookupField_safe _ kvs h.2
  | undefined => exact Or.inl rfl
  | null => exact Or.inl rfl
  | bool b => exact Or.inl rfl
  | num n => exact Or.inl rfl
  | fn => exact Or.inl rfl

theorem stringifyVal_safe (v : JsVal) : SafeOrUndefined (stringifyVal v) := by
  unfold stringifyVal
  split
  · exact Or.inr rfl
  · exact Or.inl rfl

theorem getProp_safe (v : JsVal) (k : String) (hk : k ≠ "link" ∧ k ≠ "search")
    (h : SafeOrUndefined v) (r : JsVal) (hr : getProp v k = .ok r) : SafeOrUndefined r := by
  unfold getProp at hr
  split at hr
  · exact absurd hr (by simp)
  · injection hr with hr
    rw [← hr]
    exact getOpt_safe v k hk h

end Agent

namespace Agent

theorem fetchJson_safe (r : Except JsError Response) (j : JsVal)
    (hs : ∀ resp j, r = .ok resp → resp.json = .ok j → jsonSafe j = true)
    (h : fetchJson r = .ok j) : jsonSafe j = true := by
  unfold fetchJson at h
  split at h
  · exact absurd h (by simp)
  · next resp => exact hs resp j rfl h

theorem workflowCall_safe (cfg : Config) (net : Net) (hnet : SafeNet net) (wf data : JsStr)
    (r : ToolResult) (h : workflowCall cfg net wf data = .ok r) : jsonSafe (.obj r) = true := by
  unfold workflowCall at h
  split at h
  · exact absurd h (by simp)
  · next resp hresp =>
    split at h
    · exact absurd h (by simp)
    · split at h
      · exact absurd h (by simp)
      · next j hj =>
        have hjs : jsonSafe j = true := hnet.2.2.1 _ _ _ resp j hresp hj
        split at h
        · next out conf hout hconf =>
          injection h with h
          rw [← h]
          have h1 := coalesce_safe out j
            (getProp_safe j "output" (by decide) (Or.inr hjs) out hout) hjs
          have h2 := coalesce_safe conf .null
            (getProp_safe j "confidence" (by decide) (Or.inr hjs) conf hconf) rfl
          simp only [jsonSafe, safeFields, h1, h2, Bool.and_true]
          rfl
        · exact absurd h (by simp)
        · exact absurd h (by simp)

theorem responsesCall_safe (cfg : Config) (net : Net) (hnet : SafeNet net) (wf data : JsStr)
    (r : ToolResult) (h : responsesCall cfg net wf data = .ok r) : jsonSafe (.obj r) = true := by
  unfold responsesCall at h
  split at h
  · exact absurd h (by simp)
  · next j hj =>
    have hjs : jsonSafe j = true :=
      fetchJson_safe _ j (fun resp j2 h1 h2 => hnet.2.2.2 _ _ _ resp j2 h1 h2) hj
    injection h with h
    rw [← h]
    have hsj : SafeOrUndefined j := Or.inr hjs
    have h1 : SafeOrUndefined
        (getOpt (index0 (getOpt (index0 (getOpt j "output")) "content")) "text") :=
      getOpt_safe _ _ (by decide) (index0_safe _ (getOpt_safe _ _ (by decide)
        (index0_safe _ (getOpt_safe _ _ (by decide) hsj))))
    have h2 : SafeOrUndefined (getOpt j "output_text") := getOpt_safe _ _ (by decide) hsj
    have h3 := coalesce_safeOr _ _ (coalesce_safeOr _ _ h1 h2) (stringifyVal_safe j)
    have h4 : jsonSafe (coalesce (coalesce
        (getOpt (index0 (getOpt (index0 (getOpt j "output")) "content")) "text")
        (getOpt j "output_text")) (stringifyVal j)) = true := by
      rcases h3 with h3 | h3
      · -- the text cannot be `undefined`: `JSON.stringify` of JSON data is a string
        exfalso
        obtain ⟨c, rr, ht, _⟩ := text_head j hjs
        have hsv : stringifyVal j = .str (c :: rr) := by
          unfold stringifyVal
          rw [ht]
        rw [hsv] at h3
        generalize coalesce
          (getOpt (index0 (getOpt (index0 (getOpt j "output")) "content")) "text")
          (getOpt j "output_text") = inner at h3
        unfold coalesce at h3
        by_cases hn : nullish inner = true
        · rw [if_pos hn] at h3
          exact JsVal.noConfusion h3
        · rw [if_neg hn] at h3
          rw [h3] at hn
          exact hn rfl
      · exact h3
    simp only [jsonSafe, safeFields, h4, hjs, Bool.and_true]
    rfl

theorem mockTransform_safe (wf data : JsStr) : jsonSafe (.obj (mockTransform wf data)) = true := by
  unfold mockTransform
  simp only [jsonSafe, safeFields, Bool.and_true]
  rfl

theorem tool_ai_pipe_safe (cfg : Config) (net : Net) (hnet : SafeNet net) (args : JsVal)
    (r : ToolResult) (h : tool_ai_pipe cfg net args = .ok r) : jsonSafe (.obj r) = true := by
  unfold tool_ai_pipe at h
  split at h
  · exact absurd h (by simp)
  · next wf _ =>
    split at h
    · exact absurd h (by simp)
    · next data _ =>
      simp only at h
      split at h
      · next r1 hr1 =>
        injection h with h
        subst h
        split at hr1
        · split at hr1
          · next r2 hr2 =>
            injection hr1 with hr1
            subst hr1
            exact workflowCall_safe cfg net hnet wf data _ hr2
          · exact absurd hr1 (by simp)
        · exact absurd hr1 (by simp)
      · split at h
        · next r1 hr1 =>
          injection h with h
          subst h
          split at hr1
          · split at hr1
            · next r2 hr2 =>
              injection hr1 with hr1
              subst hr1
              exact responsesCall_safe cfg net hnet wf data _ hr2
            · exact absurd hr1 (by simp)
          · exact absurd hr1 (by simp)
        · injection h with h
          subst h
          exact mockTransform_safe wf data

theorem tool_execute_javascript_safe (sandbox : JsStr → JsVal)
    (hs : ∀ code, jsonSafe (sandbox code) = true) (args : JsVal) (r : ToolResult)
    (h : tool_execute_javascript sandbox args = .ok r) : jsonSafe (.obj r) = true := by
  unfold tool_execute_javascript at h
  split at h
  · exact absurd h (by simp)
  · next code _ =>
    injection h with h
    rw [← h]
    have hd : SafeOrUndefined (sandbox code) := Or.inr (hs code)
    have e1 : getOpt (sandboxOutcome (sandbox code)) "logs"
        = jsOr (getOpt (sandbox code) "logs") (.arr []) := by rfl
    have e2 : getOpt (sandboxOutcome (sandbox code)) "result" = getOpt (sandbox code) "result" := by
      rfl
    have e3 : getOpt (sandboxOutcome (sandbox code)) "error" = getOpt (sandbox code) "error" := by
      rfl
    simp only [e1, e2, e3]
    have h1 := jsOr_safe (jsOr (getOpt (sandbox code) "logs") (.arr [])) (.arr [])
      (Or.inr (jsOr_safe _ _ (getOpt_safe _ _ (by decide) hd) rfl)) rfl
    have h2 := coalesce_safe (getOpt (sandbox code) "result") .null
      (getOpt_safe _ _ (by decide) hd) rfl
    have h3 := coalesce_safe (getOpt (sandbox code) "error") .null
      (getOpt_safe _ _ (by decide) hd) rfl
    simp only [jsonSafe, safeFields, h1, h2, h3, Bool.and_true]
    rfl

end Agent

namespace Agent

theorem obj3_safe (k1 k2 k3 : JsStr) (v1 v2 v3 : JsVal)
    (hk : keysCanonical [(k1, .null), (k2, .null), (k3, .null)] = true)
    (h1 : jsonSafe v1 = true) (h2 : jsonSafe v2 = true) (h3 : jsonSafe v3 = true) :
    jsonSafe (.obj [(k1, v1), (k2, v2), (k3, v3)]) = true := by
  simp only [keysCanonical, List.all_cons, List.all_nil, Bool.and_true] at hk
  simp only [jsonSafe, safeFields, keysCanonical, List.all_cons, List.all_nil, h1, h2, h3,
    Bool.and_true]
  exact hk

theorem forEachM_inv {σ : Type} (f : σ → JsVal → Except JsError σ) (P : σ → Prop)
    (Q : JsVal → Prop)
    (hf : ∀ acc x acc2, P acc → Q x → f acc x = .ok acc2 → P acc2) :
    ∀ xs acc r, P acc → (∀ x ∈ xs, Q x) → forEachM f acc xs = .ok r → P r := by
  intro xs
  induction xs with
  | nil =>
    intro acc r hP _ h
    simp only [forEachM] at h
    injection h with h
    rw [← h]
    exact hP
  | cons x tl ih =>
    intro acc r hP hQ h
    simp only [forEachM] at h
    split at h
    · exact absurd h (by simp)
    · next acc2 hacc =>
      exact ih acc2 r (hf acc x acc2 hP (hQ x (by simp)) hacc)
        (fun y hy => hQ y (List.mem_cons_of_mem _ hy)) h

theorem relatedTopic_safe (limit : Option Int) (results : List JsVal) (rt : JsVal)
    (r : List JsVal) (hres : safeElems results = true) (hrt : jsonSafe rt = true)
    (h : relatedTopic limit results rt = .ok r) : safeElems r = true := by
  unfold relatedTopic at h
  split at h
  · injection h with h
    rw [← h]
    exact hres
  · split at h
    · exact absurd h (by simp)
    · next text htext =>
      have hts := getProp_safe rt "Text" (by decide) (Or.inr hrt) text htext
      have hlink := jsOr_safe (getOpt rt "FirstURL") (.str [])
        (getOpt_safe rt "FirstURL" (by decide) (Or.inr hrt)) rfl
      split at h
      · next htruthy =>
        have htext2 := truthy_safe text hts htruthy
        split at h
        · next t =>
          injection h with h
          rw [← h]
          apply safeElems_append _ _ hres
          simp only [safeElems, Bool.and_true]
          exact obj3_safe _ _ _ _ _ _ (by rfl) rfl hlink htext2
        · next xs =>
          injection h with h
          rw [← h]
          apply safeElems_append _ _ hres
          have hx : jsonSafe (.arr (xs.take 60)) = true := by
            simp only [jsonSafe] at htext2 ⊢
            exact safeElems_take xs 60 htext2
          simp only [safeElems, Bool.and_true]
          exact obj3_safe _ _ _ _ _ _ (by rfl) hx hlink htext2
        · exact absurd h (by simp)
      · injection h with h
        rw [← h]
        exact hres

theorem wikiHit_safe (results : List JsVal) (s : JsVal) (r : List JsVal)
    (hres : safeElems results = true) (h : wikiHit results s = .ok r) :
    safeElems r = true := by
  unfold wikiHit at h
  split at h
  · exact absurd h (by simp)
  · next title _ =>
    split at h
    · exact absurd h (by simp)
    · next enc _ =>
      split at h
      · injection h with h
        rw [← h]
        apply safeElems_append _ _ hres
        simp only [safeElems, Bool.and_true]
        exact obj3_safe _ _ _ _ _ _ (by rfl) rfl rfl rfl
      · injection h with h
        rw [← h]
        apply safeElems_append _ _ hres
        simp only [safeElems, Bool.and_true]
        exact obj3_safe _ _ _ _ _ _ (by rfl) rfl rfl rfl
      · injection h with h
        rw [← h]
        apply safeElems_append _ _ hres
        simp only [safeElems, Bool.and_true]
        exact obj3_safe _ _ _ _ _ _ (by rfl) rfl rfl (jsOr_safe _ _ (Or.inr rfl) rfl)
      · exact absurd h (by simp)
  · exact absurd h (by simp)

theorem fallbackSearch_safe (net : Net) (hnet : SafeNet net) (query : JsStr)
    (limit : Option Int) (r : ToolResult) (h : fallbackSearch net query limit = .ok r) :
    jsonSafe (.obj r) = true := by
  unfold fallbackSearch at h
  split at h
  · exact absurd h (by simp)
  · next j hj =>
    have hjs : jsonSafe j = true :=
      fetchJson_safe _ j (fun resp j2 h1 h2 => hnet.1 _ resp j2 h1 h2) hj
    split at h
    · exact absurd h (by simp)
    · next abstract habs =>
      have habs2 := getProp_safe j "AbstractText" (by decide) (Or.inr hjs) abstract habs
      simp only at h
      have h0 : safeElems (if truthy abstract = true then
          [JsVal.obj [(lit "title", jsOr (getOpt j "Heading") (.str (lit "DuckDuckGo"))),
            (lit "link", jsOr (getOpt j "AbstractURL") (.str [])), (lit "snippet", abstract)]]
          else []) = true := by
        split
        · next ht =>
          have a1 := jsOr_safe (getOpt j "Heading") (.str (lit "DuckDuckGo"))
            (getOpt_safe j _ (by decide) (Or.inr hjs)) rfl
          have a2 := jsOr_safe (getOpt j "AbstractURL") (.str [])
            (getOpt_safe j _ (by decide) (Or.inr hjs)) rfl
          have a3 := truthy_safe abstract habs2 ht
          simp only [safeElems, Bool.and_true]
          exact obj3_safe _ _ _ _ _ _ (by rfl) a1 a2 a3
        · rfl
      generalize (if truthy abstract = true then
          [JsVal.obj [(lit "title", jsOr (getOpt j "Heading") (.str (lit "DuckDuckGo"))),
            (lit "link", jsOr (getOpt j "AbstractURL") (.str [])), (lit "snippet", abstract)]]
          else []) = results0 at h h0
      split at h
      · exact absurd h (by simp)
      · next results1 hrel =>
        have h1 : safeElems results1 = true := by
          split at hrel
          · next rts hrts =>
            have hrs : jsonSafe (jsOr (getOpt j "RelatedTopics") (.arr [])) = true :=
              jsOr_safe _ _ (getOpt_safe j _ (by decide) (Or.inr hjs)) rfl
            rw [hrts] at hrs
            simp only [jsonSafe] at hrs
            exact forEachM_inv (relatedTopic limit) (fun acc => safeElems acc = true)
              (fun x => jsonSafe x = true)
              (fun acc x acc2 hP hQ hf => relatedTopic_safe limit acc x acc2 hP hQ hf)
              rts results0 results1 h0 (safeElems_mem rts hrs) hrel
          · exact absurd hrel (by simp)
        split at h
        · exact absurd h (by simp)
        · next results2 hhits =>
          have h2 : safeElems results2 = true := by
            split at hhits
            · split at hhits
              · exact absurd hhits (by simp)
              · split at hhits
                · exact absurd hhits (by simp)
                · split at hhits
                  · next ss _ =>
                    exact forEachM_inv wikiHit (fun acc => safeElems acc = true)
                      (fun _ => True)
                      (fun acc x acc2 hP _ hf => wikiHit_safe acc x acc2 hP hf)
                      _ results1 results2 h1 (fun _ _ => trivial) hhits
                  · exact absurd hhits (by simp)
                  · exact absurd hhits (by simp)
            · injection hhits with hhits
              rw [← hhits]
              exact h1
          injection h with h
          rw [← h]
          have h3 : jsonSafe (.arr (sliceEnd results2 limit)) = true := by
            simp only [jsonSafe]
            exact safeElems_sliceEnd results2 limit h2
          exact obj3_safe _ _ _ _ _ _ (by rfl) rfl rfl h3

theorem tool_google_search_safe (cfg : Config) (net : Net) (hnet : SafeNet net)
    (hcred : cfg.googleCseId = [] ∨ cfg.googleApiKey = []) (args : JsVal) (r : ToolResult)
    (h : tool_google_search cfg net args = .ok r) : jsonSafe (.obj r) = true := by
  have hkey : ¬ (¬ cfg.googleCseId.isEmpty = true ∧ ¬ cfg.googleApiKey.isEmpty = true) := by
    rcases hcred with h | h
    · rw [h]; simp
    · rw [h]; simp
  unfold tool_google_search at h
  split at h
  · exact absurd h (by simp)
  · next query _ =>
    split at h
    · exact absurd h (by simp)
    · next limit _ =>
      simp only [if_neg hkey] at h
      unfold tryCatch at h
      split at h
      · next r2 hr2 =>
        injection h with h
        subst h
        exact fallbackSearch_safe net hnet query limit _ hr2
      · injection h with h
        rw [← h]
        exact obj3_safe _ _ _ _ _ _ (by rfl) rfl rfl rfl

end Agent

namespace Agent

theorem emptyFallback_safe (query : JsStr) :
    jsonSafe (.obj [(lit "provider", .str (lit "fallback")), (lit "query", .str query),
      (lit "results", .arr [])]) = true := by
  simp only [jsonSafe, safeFields, safeElems, Bool.and_true]
  rfl

theorem tool_ai_pipe_mock (cfg : Config) (net : Net) (args : JsVal) (r : ToolResult)
    (hu : cfg.aiPipeUrl = []) (ht : cfg.aiPipeToken = [])
    (h : tool_ai_pipe cfg net args = .ok r) : ∃ wf data, r = mockTransform wf data := by
  unfold tool_ai_pipe at h
  split at h
  · exact absurd h (by simp)
  · next wf _ =>
    split at h
    · exact absurd h (by simp)
    · next data _ =>
      simp [hu, ht] at h
      exact ⟨wf, data, h.symm⟩

/-- C9 (amended): parsing the `JSON.stringify` text of a tool result gives the
result back whenever the result is JSON data, that is, holds no `undefined`
member or element, no `NaN`, infinity or `-0`, and has its object keys in
enumeration order.  That is so, whatever the network does, for the `error`
results of `handleToolCall`, for the mock fallback result of `tool_ai_pipe`
(every result of `tool_ai_pipe` when neither a workflow address nor a token is
configured) and for the empty fallback result of `tool_google_search`.  For the
other results of `tool_ai_pipe`, and for the results of `tool_google_search`
without search credentials, it is so under the hypothesis `SafeNet`: no response
body holds `-0` or an infinity.  For the results of `tool_execute_javascript` it
is so when the message of the sandbox is JSON data. -/
theorem C9_roundtrip_of_json_data :
    (∀ r : ToolResult, jsonSafe (.obj r) = true →
      jsonParse (stringifyObj r) = some (.obj r)) ∧
    (∀ e : JsError, jsonParse (stringifyObj (errorResult e)) = some (.obj (errorResult e))) ∧
    (∀ name : JsStr,
      jsonParse (stringifyObj [(lit "error", .str (lit "Unknown tool: " ++ name))])
        = some (.obj [(lit "error", .str (lit "Unknown tool: " ++ name))])) ∧
    (∀ wf data : JsStr,
      jsonParse (stringifyObj (mockTransform wf data)) = some (.obj (mockTransform wf data))) ∧
    (∀ cfg net args r, cfg.aiPipeUrl = [] → cfg.aiPipeToken = [] →
      tool_ai_pipe cfg net args = .ok r →
      jsonParse (stringifyObj r) = some (.obj r)) ∧
    (∀ query : JsStr,
      jsonParse (stringifyObj [(lit "provider", .str (lit "fallback")),
          (lit "query", .str query), (lit "results", .arr [])])
        = some (.obj [(lit "provider", .str (lit "fallback")), (lit "query", .str query),
            (lit "results", .arr [])])) ∧
    (∀ cfg net args r, SafeNet net → tool_ai_pipe cfg net args = .ok r →
      jsonParse (stringifyObj r) = some (.obj r)) ∧
    (∀ cfg net args r, SafeNet net → cfg.googleCseId = [] ∨ cfg.googleApiKey = [] →
      tool_google_search cfg net args = .ok r →
      jsonParse (stringifyObj r) = some (.obj r)) ∧
    (∀ sandbox args r, (∀ code, jsonSafe (sandbox code) = true) →
      tool_execute_javascript sandbox args = .ok r →
      jsonParse (stringifyObj r) = some (.obj r)) := by
  refine ⟨jsonParse_stringifyObj, ?_, ?_, ?_, ?_, ?_, ?_, ?_, ?_⟩
  · intro e
    exact jsonParse_stringifyObj _ (by rfl)
  · intro name
    exact jsonParse_stringifyObj _ (by rfl)
  · intro wf data
    exact jsonParse_stringifyObj _ (mockTransform_safe wf data)
  · intro cfg net args r hu ht h
    obtain ⟨wf, data, hr⟩ := tool_ai_pipe_mock cfg net args r hu ht h
    rw [hr]
    exact jsonParse_stringifyObj _ (mockTransform_safe wf data)
  · intro query
    exact jsonParse_stringifyObj _ (emptyFallback_safe query)
  · intro cfg net args r hnet h
    exact jsonParse_stringifyObj r (tool_ai_pipe_safe cfg net hnet args r h)
  · intro cfg net args r hnet hcred h
    exact jsonParse_stringifyObj r (tool_google_search_safe cfg net hnet hcred args r h)
  · intro sandbox args r hs h
    exact jsonParse_stringifyObj r (tool_execute_javascript_safe sandbox hs args r h)

/-- C9, two instances: the mock fallback result of `tool_ai_pipe` for `abc`, and
the result of a search without credentials on a network whose replies are JSON
data, with one item found. -/
theorem C9_roundtrip_witness :
    jsonParse (stringifyObj (mockTransform (lit "summarize") (lit "abc")))
      = some (.obj (mockTransform (lit "summarize") (lit "abc"))) ∧
    SafeNet numberedNet ∧
    tool_google_search offlineEnv.cfg numberedNet (.obj [(lit "query", .str (lit "ibm"))])
      = .ok [(lit "provider", .str (lit "fallback")), (lit "query", .str (lit "ibm")),
          (lit "results", .arr [.obj [(lit "title", .num (.fin false [5] 1)),
            (lit "link", .str []), (lit "snippet", .str (lit "x"))]])] ∧
    jsonParse (stringifyObj [(lit "provider", .str (lit "fallback")),
        (lit "query", .str (lit "ibm")),
        (lit "results", .arr [.obj [(lit "title", .num (.fin false [5] 1)),
          (lit "link", .str []), (lit "snippet", .str (lit "x"))]])])
      = some (.obj [(lit "provider", .str (lit "fallback")), (lit "query", .str (lit "ibm")),
          (lit "results", .arr [.obj [(lit "title", .num (.fin false [5] 1)),
            (lit "link", .str []), (lit "snippet", .str (lit "x"))]])]) := by
  have hsafe : SafeNet numberedNet := by
    refine ⟨?_, ?_, ?_, ?_⟩
    · intro q resp j h1 h2
      simp only [numberedNet] at h1
      cases h1
      cases h2
      rfl
    · intro q resp j h1 h2
      simp only [numberedNet] at h1
      cases h1
      cases h2
      rfl
    · intro u w d resp j h1 h2
      simp [numberedNet] at h1
    · intro u w d resp j h1 h2
      simp [numberedNet] at h1
  exact ⟨C9_roundtrip_of_json_data.1 (mockTransform (lit "summarize") (lit "abc")) (by rfl),
    hsafe, by rfl,
    C9_roundtrip_of_json_data.2.2.2.2.2.2.2.1 offlineEnv.cfg numberedNet
      (.obj [(lit "query", .str (lit "ibm"))]) _ hsafe (Or.inl rfl) (by rfl)⟩

/-- C9 as stated fails.  A keyed search whose item has a title only gives a
result with `link` and `snippet` members that are `undefined`; the text leaves
them out and the parsed value lacks them.  A sandbox result `Infinity` is
written as `null` and read back as `null`.  A workflow reply whose body has
`"confidence":-0` gives a result of `tool_ai_pipe` with confidence `-0`; it is
written as `0` and read back as `+0`, another number value (`Object.is` tells
the two apart). -/
theorem C9_counterexample :
    (tool_google_search keyedCfg cseNet (.obj [(lit "query", .str (lit "q"))])
        = .ok [(lit "provider", .str (lit "google-cse")), (lit "query", .str (lit "q")),
            (lit "results", .arr [.obj [(lit "title", .str (lit "T")),
              (lit "link", .undefined), (lit "snippet", .undefined)]])] ∧
      jsonParse (stringifyObj [(lit "provider", .str (lit "google-cse")),
          (lit "query", .str (lit "q")),
          (lit "results", .arr [.obj [(lit "title", .str (lit "T")),
            (lit "link", .undefined), (lit "snippet", .undefined)]])])
        = some (.obj [(lit "provider", .str (lit "google-cse")), (lit "query", .str (lit "q")),
            (lit "results", .arr [.obj [(lit "title", .str (lit "T"))]])]) ∧
      JsVal.obj [(lit "provider", .str (lit "google-cse")), (lit "query", .str (lit "q")),
          (lit "results", .arr [.obj [(lit "title", .str (lit "T"))]])]
        ≠ .obj [(lit "provider", .str (lit "google-cse")), (lit "query", .str (lit "q")),
            (lit "results", .arr [.obj [(lit "title", .str (lit "T")),
              (lit "link", .undefined), (lit "snippet", .undefined)]])]) ∧
    (tool_execute_javascript (fun _ => .obj [(lit "result", .num (.inf false))]) (.obj [])
        = .ok [(lit "logs", .arr []), (lit "result", .num (.inf false)), (lit "error", .null)] ∧
      jsonParse (stringifyObj [(lit "logs", .arr []), (lit "result", .num (.inf false)),
          (lit "error", .null)])
        = some (.obj [(lit "logs", .arr []), (lit "result", .null), (lit "error", .null)]) ∧
      JsVal.obj [(lit "logs", .arr []), (lit "result", .null), (lit "error", .null)]
        ≠ .obj [(lit "logs", .arr []), (lit "result", .num (.inf false)), (lit "error", .null)]) ∧
    (jsonParse zeroBody
        = some (.obj [(lit "output", .str (lit "x")),
            (lit "confidence", .num (.fin true [] 0))]) ∧
      tool_ai_pipe pipeCfg zeroNet (.obj [(lit "data", .str (lit "x"))])
        = .ok [(lit "workflow", .str (lit "summarize")), (lit "output", .str (lit "x")),
            (lit "confidence", .num (.fin true [] 0))] ∧
      jsonParse (stringifyObj [(lit "workflow", .str (lit "summarize")),
          (lit "output", .str (lit "x")), (lit "confidence", .num (.fin true [] 0))])
        = some (.obj [(lit "workflow", .str (lit "summarize")), (lit "output", .str (lit "x")),
            (lit "confidence", .num (.fin false [] 0))]) ∧
      JsVal.obj [(lit "workflow", .str (lit "summarize")), (lit "output", .str (lit "x")),
          (lit "confidence", .num (.fin false [] 0))]
        ≠ .obj [(lit "workflow", .str (lit "summarize")), (lit "output", .str (lit "x")),
            (lit "confidence", .num (.fin true [] 0))]) := by
  refine ⟨⟨by rfl, by rfl, ?_⟩, ⟨by rfl, by rfl, ?_⟩, ⟨by rfl, by rfl, by rfl, ?_⟩⟩
  · intro h
    simp at h
  · intro h
    simp at h
  · intro h
    simp at h

end Agent

namespace Agent

/-! ## C10: the map `sandboxPending` -/

theorem mapGet_mem (k : JsStr) (m : List (JsStr × Nat)) (v : Nat) (h : mapGet k m = some v) :
    (k, v) ∈ m := by
  induction m with
  | nil => simp [mapGet] at h
  | cons p rest ih =>
    obtain ⟨k2, v2⟩ := p
    unfold mapGet at h
    split at h
    · next heq =>
      injection h with h
      subst heq h
      simp
    · exact List.mem_cons_of_mem _ (ih h)

theorem key_mem_of_mem (a : JsStr) (b : Nat) (m : List (JsStr × Nat)) (h : (a, b) ∈ m) :
    a ∈ m.map Prod.fst :=
  List.mem_map.mpr ⟨(a, b), h, rfl⟩

theorem mem_mapSet (k : JsStr) (v : Nat) (m : List (JsStr × Nat))
    (hnd : (m.map Prod.fst).Nodup) (a : JsStr) (b : Nat)
    (h : (a, b) ∈ mapSet k v m) : (a = k ∧ b = v) ∨ ((a, b) ∈ m ∧ a ≠ k) := by
  induction m with
  | nil =>
    simp [mapSet] at h
    exact Or.inl h
  | cons p rest ih =>
    obtain ⟨k2, v2⟩ := p
    simp only [List.map_cons, List.nodup_cons] at hnd
    unfold mapSet at h
    split at h
    · next heq =>
      rcases List.mem_cons.mp h with h | h
      · injection h with h1 h2
        exact Or.inl ⟨h1, h2⟩
      · refine Or.inr ⟨List.mem_cons_of_mem _ h, ?_⟩
        intro hak
        apply hnd.1
        rw [heq, ← hak]
        exact key_mem_of_mem a b rest h
    · next hne =>
      rcases List.mem_cons.mp h with h | h
      · injection h with h1 h2
        subst h1 h2
        exact Or.inr ⟨by simp, hne⟩
      · rcases ih hnd.2 h with h | ⟨h, hk⟩
        · exact Or.inl h
        · exact Or.inr ⟨List.mem_cons_of_mem _ h, hk⟩

theorem keys_mapSet (k : JsStr) (v : Nat) (m : List (JsStr × Nat)) :
    (mapSet k v m).map Prod.fst = m.map Prod.fst ∨
    (k ∉ m.map Prod.fst ∧ (mapSet k v m).map Prod.fst = m.map Prod.fst ++ [k]) := by
  induction m with
  | nil => right; simp [mapSet]
  | cons p rest ih =>
    obtain ⟨k2, v2⟩ := p
    unfold mapSet
    split
    · next heq => left; simp [heq]
    · next hne =>
      rcases ih with h | ⟨h1, h2⟩
      · left; simp [h]
      · right
        refine ⟨?_, by simp [h2]⟩
        simp only [List.map_cons, List.mem_cons, not_or]
        exact ⟨fun hc => hne hc.symm, h1⟩

theorem nodup_mapSet (k : JsStr) (v : Nat) (m : List (JsStr × Nat))
    (hnd : (m.map Prod.fst).Nodup) : ((mapSet k v m).map Prod.fst).Nodup := by
  rcases keys_mapSet k v m with h | ⟨h1, h2⟩
  · rw [h]; exact hnd
  · rw [h2]
    exact List.Nodup.append hnd (List.nodup_singleton k) (by
      intro x hx hx2
      simp at hx2
      subst hx2
      exact h1 hx)

theorem mem_mapDelete (k : JsStr) (m : List (JsStr × Nat))
    (hnd : (m.map Prod.fst).Nodup) (a : JsStr) (b : Nat)
    (h : (a, b) ∈ mapDelete k m) : (a, b) ∈ m ∧ a ≠ k := by
  induction m with
  | nil => simp [mapDelete] at h
  | cons p rest ih =>
    obtain ⟨k2, v2⟩ := p
    simp only [List.map_cons, List.nodup_cons] at hnd
    unfold mapDelete at h
    split at h
    · next heq =>
      refine ⟨List.mem_cons_of_mem _ h, ?_⟩
      intro hak
      apply hnd.1
      rw [heq, ← hak]
      exact key_mem_of_mem a b rest h
    · next hne =>
      rcases List.mem_cons.mp h with h | h
      · injection h with h1 h2
        subst h1 h2
        exact ⟨by simp, hne⟩
      · obtain ⟨h1, h2⟩ := ih hnd.2 h
        exact ⟨List.mem_cons_of_mem _ h1, h2⟩

theorem sublist_mapDelete (k : JsStr) (m : List (JsStr × Nat)) :
    List.Sublist (mapDelete k m) m := by
  induction m with
  | nil => exact List.Sublist.refl _
  | cons p rest ih =>
    obtain ⟨k2, v2⟩ := p
    unfold mapDelete
    split
    · exact List.sublist_cons_self _ _
    · exact List.Sublist.cons₂ _ ih

theorem nodup_mapDelete (k : JsStr) (m : List (JsStr × Nat))
    (hnd : (m.map Prod.fst).Nodup) : ((mapDelete k m).map Prod.fst).Nodup :=
  List.Nodup.sublist (List.Sublist.map _ (sublist_mapDelete k m)) hnd

theorem mapGet_none_of_not_mem (k : JsStr) (m : List (JsStr × Nat))
    (h : k ∉ m.map Prod.fst) : mapGet k m = none := by
  induction m with
  | nil => rfl
  | cons p rest ih =>
    obtain ⟨k2, v2⟩ := p
    simp only [List.map_cons, List.mem_cons, not_or] at h
    unfold mapGet
    rw [if_neg (fun hc => h.1 hc.symm)]
    exact ih h.2

theorem mapGet_mapDelete_self (k : JsStr) (m : List (JsStr × Nat))
    (hnd : (m.map Prod.fst).Nodup) : mapGet k (mapDelete k m) = none := by
  apply mapGet_none_of_not_mem
  intro hc
  obtain ⟨⟨a, b⟩, hab, hk⟩ := List.mem_map.mp hc
  simp only at hk
  subst hk
  exact (mem_mapDelete a m hnd a b hab).2 rfl

theorem mapGet_mapDelete_ne (k k2 : JsStr) (m : List (JsStr × Nat)) (h : k2 ≠ k) :
    mapGet k2 (mapDelete k m) = mapGet k2 m := by
  induction m with
  | nil => rfl
  | cons p rest ih =>
    obtain ⟨k3, v3⟩ := p
    unfold mapDelete
    split
    · next heq =>
      conv => rhs; unfold mapGet
      rw [if_neg (by rw [heq]; exact fun hc => h hc.symm)]
    · next hne =>
      unfold mapGet
      split
      · rfl
      · exact ih

end Agent

namespace Agent

theorem onMessage_result (evData : JsVal) (c : Channel) (id : JsStr) (req : Nat)
    (hmsg : IsResultFor evData id) (hget : mapGet id c.pending = some req) :
    onMessage evData c =
      { pending := mapDelete id c.pending
        posted := c.posted
        resolved := c.resolved ++ [(req, sandboxOutcome (jsOr evData (.obj [])))] } := by
  obtain ⟨h1, h2, h3⟩ := hmsg
  have h4 : ¬ id.isEmpty = true := by
    cases id with
    | nil => exact absurd rfl h3
    | cons a r => simp
  unfold onMessage
  simp only [h1, h2, hget]
  rw [if_pos ⟨trivial, h4⟩]

theorem onMessage_other (evData : JsVal) (c : Channel)
    (h : ¬ ∃ id req, IsResultFor evData id ∧ mapGet id c.pending = some req) :
    onMessage evData c = c := by
  unfold onMessage
  simp only
  split
  · next t id ht hid =>
    split
    · next hcond =>
      split
      · next req hget =>
        exfalso
        apply h
        refine ⟨id, req, ⟨?_, hid, ?_⟩, hget⟩
        · rw [ht, hcond.1]
        · intro hc
          apply hcond.2
          rw [hc]
          rfl
      · rfl
    · rfl
  · rfl

theorem channelInv_init : ChannelInv Channel.init := by
  refine ⟨by simp [Channel.init], ?_, ?_, by simp [Channel.init]⟩
  · intro id req h
    simp [Channel.init] at h
  · intro req v h
    simp [Channel.init] at h

theorem channelInv_run (id code : JsStr) (c : Channel) (h : ChannelInv c) :
    ChannelInv (runInSandbox id code c) := by
  obtain ⟨h1, h2, h3, h4⟩ := h
  refine ⟨nodup_mapSet _ _ _ h1, ?_, ?_, h4⟩
  · intro a req hmem
    rcases mem_mapSet id c.posted.length c.pending h1 a req hmem with ⟨ha, hr⟩ | ⟨hm, _⟩
    · subst ha hr
      exact ⟨code, by simp [runInSandbox]⟩
    · obtain ⟨code2, hc⟩ := h2 a req hm
      refine ⟨code2, ?_⟩
      have hlt : req < c.posted.length := by
        by_contra hge
        rw [List.getElem?_eq_none (by omega)] at hc
        exact absurd hc (by simp)
      simp only [runInSandbox]
      rw [List.getElem?_append_left hlt]
      exact hc
  · intro req v hmem
    obtain ⟨hlt, hnp⟩ := h3 req v hmem
    refine ⟨by simp [runInSandbox]; omega, ?_⟩
    intro a hmem2
    rcases mem_mapSet id c.posted.length c.pending h1 a req hmem2 with ⟨_, hr⟩ | ⟨hm, _⟩
    · omega
    · exact hnp a hm

theorem channelInv_message (evData : JsVal) (c : Channel) (h : ChannelInv c) :
    ChannelInv (onMessage evData c) := by
  by_cases hres : ∃ id req, IsResultFor evData id ∧ mapGet id c.pending = some req
  · obtain ⟨id, req, hmsg, hget⟩ := hres
    rw [onMessage_result evData c id req hmsg hget]
    obtain ⟨h1, h2, h3, h4⟩ := h
    have hmem := mapGet_mem id c.pending req hget
    obtain ⟨code, hposted⟩ := h2 id req hmem
    have hfree : ∀ a, (a, req) ∉ mapDelete id c.pending := by
      intro a ha
      obtain ⟨hin, hne⟩ := mem_mapDelete id c.pending h1 a req ha
      obtain ⟨code2, hp2⟩ := h2 a req hin
      rw [hposted] at hp2
      injection hp2 with hp2
      injection hp2 with hp3 _
      exact hne hp3.symm
    refine ⟨nodup_mapDelete _ _ h1, ?_, ?_, ?_⟩
    · intro a r hm
      exact h2 a r (mem_mapDelete id c.pending h1 a r hm).1
    · intro r v hm
      simp only [List.mem_append, List.mem_singleton] at hm
      rcases hm with hm | hm
      · obtain ⟨hlt, hnp⟩ := h3 r v hm
        exact ⟨hlt, fun a ha => hnp a (mem_mapDelete id c.pending h1 a r ha).1⟩
      · injection hm with hr _
        subst hr
        refine ⟨?_, hfree⟩
        show r < c.posted.length
        by_contra hge
        rw [List.getElem?_eq_none (by omega)] at hposted
        exact absurd hposted (by simp)
    · simp only [List.map_append, List.map_cons, List.map_nil]
      refine List.Nodup.append h4 (List.nodup_singleton _) ?_
      intro x hx hx2
      simp at hx2
      subst hx2
      obtain ⟨⟨r, v⟩, hrv, hr⟩ := List.mem_map.mp hx
      simp only at hr
      subst hr
      exact (h3 r v hrv).2 id hmem
  · rw [onMessage_other evData c hres]
    exact h

theorem channelInv_of_reachable (c : Channel) (h : ChannelReachable c) : ChannelInv c := by
  induction h with
  | init => exact channelInv_init
  | run id code c _ ih => exact channelInv_run id code c ih
  | message evData c _ ih => exact channelInv_message evData c ih

/-- C10: in every reachable state of the sandbox channel, no request has been
resolved more than once.  A result message whose id is a pending key resolves
exactly the request registered under that id, which is the request posted with
that id and not resolved before, with
`{ logs: data.logs || [], result: data.result, error: data.error }`; it removes
that entry from `sandboxPending` and leaves every other entry as it was.  Any
other message (another type, no id, or an id that is not pending) leaves the
whole state unchanged. -/
theorem C10_sandbox_pending (c : Channel) (h : ChannelReachable c) :
    (c.resolved.map Prod.fst).Nodup ∧
    (∀ evData id req, IsResultFor evData id → mapGet id c.pending = some req →
      onMessage evData c =
        { pending := mapDelete id c.pending
          posted := c.posted
          resolved := c.resolved ++ [(req,
            .obj [(lit "logs", jsOr (getOpt (jsOr evData (.obj [])) "logs") (.arr [])),
              (lit "result", getOpt (jsOr evData (.obj [])) "result"),
              (lit "error", getOpt (jsOr evData (.obj [])) "error")])] } ∧
      (∃ code, c.posted[req]? = some (id, code)) ∧
      req ∉ c.resolved.map Prod.fst ∧
      mapGet id (mapDelete id c.pending) = none ∧
      (∀ k, k ≠ id → mapGet k (mapDelete id c.pending) = mapGet k c.pending)) ∧
    (∀ evData, (¬ ∃ id req, IsResultFor evData id ∧ mapGet id c.pending = some req) →
      onMessage evData c = c) := by
  have hinv := channelInv_of_reachable c h
  obtain ⟨h1, h2, h3, h4⟩ := hinv
  refine ⟨h4, ?_, fun evData hn => onMessage_other evData c hn⟩
  intro evData id req hmsg hget
  have hmem := mapGet_mem id c.pending req hget
  refine ⟨onMessage_result evData c id req hmsg hget, h2 id req hmem, ?_,
    mapGet_mapDelete_self id c.pending h1, fun k hk => mapGet_mapDelete_ne id k c.pending hk⟩
  intro hx
  obtain ⟨⟨r, v⟩, hrv, hr⟩ := List.mem_map.mp hx
  simp only at hr
  subst hr
  exact (h3 r v hrv).2 id hmem

end Agent

namespace Agent

/-- C10, an instance: one request registered under the id `k3x`, then the
result message with that id and the result `4`. -/
theorem C10_sandbox_pending_witness :
    onMessage (resultMessage (lit "k3x") (.num (.fin false [4] 1)))
        (runInSandbox (lit "k3x") (lit "return 2+2;") Channel.init)
      = { pending := []
          posted := [(lit "k3x", lit "return 2+2;")]
          resolved := [(0, .obj [(lit "logs", .arr []),
            (lit "result", .num (.fin false [4] 1)), (lit "error", .undefined)])] } :=
  ((C10_sandbox_pending (runInSandbox (lit "k3x") (lit "return 2+2;") Channel.init)
      (ChannelReachable.run _ _ _ ChannelReachable.init)).2.1
    (resultMessage (lit "k3x") (.num (.fin false [4] 1))) (lit "k3x") 0
    ⟨by rfl, by rfl, by decide⟩ (by rfl)).1

end Agent

namespace Agent

/-! ## C11: the stand-in model -/

theorem lastUser_append_list (conv extra : List Turn)
    (h : ∀ t ∈ extra, t.role ≠ lit "user") : lastUser (conv ++ extra) = lastUser conv := by
  induction extra generalizing conv with
  | nil => simp
  | cons t rest ih =>
    have h1 : conv ++ t :: rest = (conv ++ [t]) ++ rest := by simp
    rw [h1, ih (conv ++ [t]) (fun x hx => h x (List.mem_cons_of_mem _ hx)),
      lastUser_append conv t (h t (by simp))]

theorem lastUser_of_latest (conv : List Turn) (c : JsStr) (h : LatestUser conv c) :
    lastUser conv = c := by
  obtain ⟨before, u, after, hconv, hrole, hcontent, hafter⟩ := h
  have h1 : conv = (before ++ [u]) ++ after := by
    rw [hconv]; simp
  rw [h1, lastUser_append_list _ after hafter]
  unfold lastUser
  rw [List.reverse_append]
  simp only [List.reverse_cons, List.reverse_nil, List.nil_append, List.singleton_append]
  rw [List.find?_cons_of_pos]
  · exact hcontent
  · simpa using hrole

theorem mockLLM_of_lastUser (a b : List Turn) (h : lastUser a = lastUser b) :
    mockLLM a = mockLLM b := by
  unfold mockLLM
  rw [h]

theorem mockLLM_tool_calls (conv : List Turn) :
    (mockLLM conv).tool_calls.length ≤ 1 ∧
    ∀ tc ∈ (mockLLM conv).tool_calls,
      ∃ n, tc.function.bind (fun f => f.name) = some n ∧ n ∈ toolNames := by
  unfold mockLLM
  simp only
  split
  · refine ⟨by simp, ?_⟩
    intro tc htc
    simp only [List.mem_singleton] at htc
    subst htc
    exact ⟨lit "google_search", rfl, by decide⟩
  · split
    · refine ⟨by simp, ?_⟩
      intro tc htc
      simp only [List.mem_singleton] at htc
      subst htc
      exact ⟨lit "execute_javascript", rfl, by decide⟩
    · split
      · refine ⟨by simp, ?_⟩
        intro tc htc
        simp only [List.mem_singleton] at htc
        subst htc
        exact ⟨lit "ai_pipe", rfl, by decide⟩
      · refine ⟨by simp, ?_⟩
        intro tc htc
        simp at htc

/-- C11: `mockLLM` is a function of the content of the latest turn with role
`user` (the empty string when there is none).  Two conversations whose latest
user turn has the same content get the same `{ content, tool_calls }`;
appending turns of other roles, such as assistant and tool turns, does not
change the response; and every response carries at most one tool call, whose
name is `google_search`, `ai_pipe` or `execute_javascript`. -/
theorem C11_mockLLM_depends_on_latest_user :
    (∀ a b : List Turn, lastUser a = lastUser b → mockLLM a = mockLLM b) ∧
    (∀ (a b : List Turn) (c : JsStr), LatestUser a c → LatestUser b c →
      mockLLM a = mockLLM b) ∧
    (∀ conv extra : List Turn, (∀ t ∈ extra, t.role ≠ lit "user") →
      mockLLM (conv ++ extra) = mockLLM conv) ∧
    (∀ conv : List Turn, (mockLLM conv).tool_calls.length ≤ 1 ∧
      ∀ tc ∈ (mockLLM conv).tool_calls,
        ∃ n, tc.function.bind (fun f => f.name) = some n ∧ n ∈ toolNames) := by
  refine ⟨mockLLM_of_lastUser, ?_, ?_, mockLLM_tool_calls⟩
  · intro a b c ha hb
    apply mockLLM_of_lastUser
    rw [lastUser_of_latest a c ha, lastUser_of_latest b c hb]
  · intro conv extra h
    exact mockLLM_of_lastUser _ _ (lastUser_append_list conv extra h)

/-- C11, an instance: the question `look up the weather` asked in two
conversations, one of them with an assistant and a tool turn after it; both get
the search tool call for that text. -/
theorem C11_mockLLM_witness :
    mockLLM askConv = mockLLM askConvLater ∧
    (mockLLM askConvLater).tool_calls
      = [mockCall "google_search"
          [(lit "query", .str (lit "look up the weather")), (lit "limit", five)]] :=
  ⟨C11_mockLLM_depends_on_latest_user.2.1 askConv askConvLater (lit "look up the weather")
      ⟨[systemPrompt], ⟨lit "user", lit "look up the weather", none, none⟩, [],
        rfl, rfl, rfl, by simp⟩
      ⟨[systemPrompt, ⟨lit "user", lit "hello", none, none⟩,
          ⟨lit "assistant", lit "OK. What’s next?", none, none⟩],
        ⟨lit "user", lit "look up the weather", none, none⟩,
        [⟨lit "assistant", lit "Let me search that.", none, none⟩,
          ⟨lit "tool", lit "\x7b\x7d", some (lit "google_search_1700000000000"),
            some (lit "google_search")⟩],
        rfl, rfl, rfl, by decide⟩,
    by rfl⟩

end Agent
